import Mathlib

/-!
# DocGrow: the appointment store of `src/context/AppContext.js`

A shallow embedding of the appointment store (the React context provider of
`AppContext.js`) and of the helpers it relies on, followed by the properties
verified about it.

Conventions of the embedding.

* An appointment record is a fixed-shape structure whose fields are strings.
* A JavaScript number that may be `NaN` is an `Option Int` (`none` is `NaN`).
* `useState` cells are fields of an explicit state; a `setX(prev => f prev)`
  call is the function `f` on the previous value.
* `Date.now()` and `Math.random().toString(36)` are inputs of `addAppointment`.
* What the engine decides is an input as well: the reading of a date string that is not
  in the ISO format (`dateParse`), the case mapping of `toLowerCase`, the text of
  `toLocaleTimeString`.
* A plain object is the list of its own properties; a read on an object written `{}`
  also finds the members of `Object.prototype` (`readMember`).
-/

namespace DocGrow

/-! ## Data model -/

/-- An appointment record as stored in `allAppointments`. -/
structure Appointment where
  id : String
  patientName : String
  time : String
  date : String
  issue : String
  status : String
  notes : String
  contact : String
  deriving DecidableEq, Repr

/-- The argument of `addAppointment`: a record that may or may not carry an `id`
of its own (`none` when the property is missing). -/
structure AppointmentData where
  id : Option String
  patientName : String
  time : String
  date : String
  issue : String
  status : String
  notes : String
  contact : String
  deriving DecidableEq, Repr

/-- The palette entries of `styles/colors.js` used by the store. -/
structure Colors where
  success : String
  warning : String
  error : String
  deriving DecidableEq, Repr

/-- The constant `colors` of `styles/colors.js` (the three entries the store reads). -/
def colors : Colors :=
  { success := "#28B463", warning := "#F39C12", error := "#E74C3C" }

/-- The constant `initialAppointments` of `AppContext.js`. -/
def initialAppointments : List Appointment :=
  [ { id := "1", patientName := "Priya Sharma", time := "09:00 AM", date := "2025-08-08",
      issue := "Regular Checkup", status := "confirmed",
      notes := "Annual health checkup. Patient reports feeling well.",
      contact := "+91 9876543210" },
    { id := "2", patientName := "Amit Singh", time := "10:30 AM", date := "2025-08-08",
      issue := "Fever and Cough", status := "confirmed",
      notes := "Fever for 3 days, dry cough. Prescribed medication.",
      contact := "+91 9876543211" },
    { id := "3", patientName := "Sunita Devi", time := "11:15 AM", date := "2025-08-08",
      issue := "Blood Pressure Check", status := "completed",
      notes := "BP: 140/90. Advised lifestyle changes.",
      contact := "+91 9876543212" },
    { id := "4", patientName := "Rahul Kumar", time := "02:00 PM", date := "2025-08-09",
      issue := "Diabetes Follow-up", status := "confirmed",
      notes := "HbA1c test due. Check blood sugar levels.",
      contact := "+91 9876543213" },
    { id := "5", patientName := "Anjali Gupta", time := "03:30 PM", date := "2025-08-09",
      issue := "Skin Consultation", status := "pending",
      notes := "Rash on arms. Possible allergic reaction.",
      contact := "+91 9876543214" },
    { id := "6", patientName := "Vikram Patel", time := "10:00 AM", date := "2025-08-10",
      issue := "Joint Pain", status := "confirmed",
      notes := "Knee pain for 2 weeks. Physical examination needed.",
      contact := "+91 9876543215" } ]

/-! ## The `Date` values read by the sort comparator -/

/-- Value of a decimal digit character, `none` for any other character. -/
def digitVal (c : Char) : Option Nat :=
  if c = '0' then some 0 else if c = '1' then some 1 else if c = '2' then some 2
  else if c = '3' then some 3 else if c = '4' then some 4 else if c = '5' then some 5
  else if c = '6' then some 6 else if c = '7' then some 7 else if c = '8' then some 8
  else if c = '9' then some 9 else none

/-- Leap years of the proleptic Gregorian calendar. -/
def isLeapYear (y : Nat) : Bool :=
  (y % 4 == 0 && y % 100 != 0) || y % 400 == 0

/-- Number of days of month `m` (1 to 12) in year `y`; `0` for any other `m`. -/
def daysInMonth (y m : Nat) : Nat :=
  match m with
  | 1 => 31
  | 2 => if isLeapYear y then 29 else 28
  | 3 => 31
  | 4 => 30
  | 5 => 31
  | 6 => 30
  | 7 => 31
  | 8 => 31
  | 9 => 30
  | 10 => 31
  | 11 => 30
  | 12 => 31
  | _ => 0

/-- Days from 1 January to the first day of month `m` in year `y`. -/
def daysBeforeMonth (y m : Nat) : Nat :=
  ((List.range (m - 1)).map (fun i => daysInMonth y (i + 1))).sum

/-- ECMAScript `DayFromYear`: the day number (relative to 1970-01-01) of 1 January of year `y`. -/
def dayFromYear (y : Nat) : Int :=
  365 * ((y : Int) - 1970) + ((y : Int) - 1969) / 4 - ((y : Int) - 1901) / 100
    + ((y : Int) - 1601) / 400

/-- Day number (relative to 1970-01-01) of the calendar date `y-m-d`. -/
def dayNumber (y m d : Nat) : Int :=
  dayFromYear y + (daysBeforeMonth y m : Int) + ((d : Int) - 1)

/-- The numbers written in a string of the shape `YYYY-MM-DD`, `none` when the string
does not have that shape. -/
def readDateKey (s : String) : Option (Nat × Nat × Nat) :=
  match s.data with
  | [y1, y2, y3, y4, '-', m1, m2, '-', d1, d2] =>
    match digitVal y1, digitVal y2, digitVal y3, digitVal y4,
          digitVal m1, digitVal m2, digitVal d1, digitVal d2 with
    | some a, some b, some c, some d, some e, some f, some g, some h =>
      some (1000 * a + 100 * b + 10 * c + d, 10 * e + f, 10 * g + h)
    | _, _, _, _, _, _, _, _ => none
  | _ => none

/-- A (year, month, day) triple that names a day of the calendar. -/
def IsCalendarDate (p : Nat × Nat × Nat) : Prop :=
  1 ≤ p.2.1 ∧ p.2.1 ≤ 12 ∧ 1 ≤ p.2.2 ∧ p.2.2 ≤ daysInMonth p.1 p.2.1

instance IsCalendarDate.decidable (p : Nat × Nat × Nat) : Decidable (IsCalendarDate p) := by
  unfold IsCalendarDate
  infer_instance

/-- The year, month and day written in a `YYYY-MM-DD` key, `none` when the string does
not have that shape or does not name a day of the calendar (engines disagree on a day
past the end of its month; the properties below only read well-formed keys). -/
def parseDateKey (s : String) : Option (Nat × Nat × Nat) :=
  match readDateKey s with
  | some p => if IsCalendarDate p then some p else none
  | none => none

/-- The time value of `new Date(s)` for a date-only ISO string: milliseconds since the
epoch of midnight UTC of that day, `none` (an invalid date, whose time value is `NaN`)
when `s` is not a `YYYY-MM-DD` calendar date. -/
def dateValue (s : String) : Option Int :=
  (parseDateKey s).map (fun ymd => dayNumber ymd.1 ymd.2.1 ymd.2.2 * 86400000)

/-- The time of day written as `hh:mm AM` or `hh:mm PM` (12-hour clock, `hh` from 01 to
12, `mm` from 00 to 59), in minutes since midnight; `none` for any other string. -/
def parseTimeOfDay (s : String) : Option Nat :=
  match s.data with
  | [h1, h2, ':', m1, m2, ' ', ap, 'M'] =>
    match digitVal h1, digitVal h2, digitVal m1, digitVal m2 with
    | some a, some b, some c, some d =>
      let hh := 10 * a + b
      let mm := 10 * c + d
      if 1 ≤ hh ∧ hh ≤ 12 ∧ mm ≤ 59 then
        if ap = 'A' then some ((hh % 12) * 60 + mm)
        else if ap = 'P' then some ((hh % 12 + 12) * 60 + mm)
        else none
      else none
    | _, _, _, _ => none
  | _ => none

/-- The time value of ``new Date(`1970-01-01 ${t}`)``, `none` for an invalid date. The
string is not in the ISO format, so ECMA-262 leaves its reading to the engine: `dateParse`
is the engine's reading of such a string (its time value in milliseconds, `none` when the
engine rejects the string). -/
def timeValue (dateParse : String → Option Int) (t : String) : Option Int :=
  dateParse ("1970-01-01 " ++ t)

/-- An engine that reads `1970-01-01 hh:mm AM` and `1970-01-01 hh:mm PM` as that time of
the reference day: for some fixed time value `base` of the day's local midnight, the string
of a 12-hour time of `mins` minutes since midnight has the time value
`base + mins * 60000`. -/
def ReadsClockTime (dateParse : String → Option Int) : Prop :=
  ∃ base : Int, ∀ (t : String) (mins : Nat), parseTimeOfDay t = some mins →
    dateParse ("1970-01-01 " ++ t) = some (base + (mins : Int) * 60000)

/-- An engine that accepts a date followed by a 12-hour time, in a zone `offsetMs` ahead
of UTC: it reads `1970-01-01 hh:mm AM` as that local time and rejects every other string
it is asked about. -/
def clockDateParse (offsetMs : Int) (text : String) : Option Int :=
  if "1970-01-01 ".data.isPrefixOf text.data = true then
    (parseTimeOfDay (String.mk (text.data.drop 11))).map
      (fun mins => (mins : Int) * 60000 - offsetMs)
  else none

/-- An engine that rejects every string that is not in the ISO format. -/
def strictDateParse (_text : String) : Option Int :=
  none

/-- JavaScript `x - y` on numbers that may be `NaN`. -/
def jsSub (x y : Option Int) : Option Int :=
  match x, y with
  | some a, some b => some (a - b)
  | _, _ => none

/-! ## `addAppointment` -/

/-- The comparator passed to `sort` in `addAppointment`: date difference first, then the
time-of-day difference. `dateComparison !== 0` is true for `NaN`, which is then returned. -/
def compareAppointments (dateParse : String → Option Int) (a b : Appointment) :
    Option Int :=
  let dateComparison := jsSub (dateValue a.date) (dateValue b.date)
  if dateComparison ≠ some 0 then dateComparison
  else
    let timeA := timeValue dateParse a.time
    let timeB := timeValue dateParse b.time
    jsSub timeA timeB

/-- The order `Array.prototype.sort` derives from the comparator: `a` may stay before `b`
unless the comparator returns a positive number (`NaN` counts as `+0`). -/
def sortLE (dateParse : String → Option Int) (a b : Appointment) : Prop :=
  match compareAppointments dateParse a b with
  | some v => v ≤ 0
  | none => True

instance sortLE.decidable (dateParse : String → Option Int) :
    DecidableRel (sortLE dateParse) := fun a b => by
  unfold sortLE
  cases compareAppointments dateParse a b <;> infer_instance

/-- `Array.prototype.sort(compareAppointments)`: a stable comparison sort, taken here as
insertion sort. -/
def sortAppointments (dateParse : String → Option Int) (l : List Appointment) :
    List Appointment :=
  l.insertionSort (sortLE dateParse)

/-- `Number.prototype.toString()` on a natural number: its decimal digits. -/
def numberToString (n : Nat) : String :=
  String.mk (if n = 0 then ['0'] else (Nat.digits 10 n).reverse.map Nat.digitChar)

/-- `s.substr(2, 9)`: at most nine characters starting at index 2. -/
def substr2_9 (s : String) : String :=
  String.mk ((s.data.drop 2).take 9)

/-- The id built by `addAppointment` from `Date.now()` (`now`) and
`Math.random().toString(36)` (`rand36`). -/
def generateId (now : Nat) (rand36 : String) : String :=
  numberToString now ++ substr2_9 rand36

/-- The record `{...appointmentData, id: ...}` built by `addAppointment`. -/
def newAppointment (now : Nat) (rand36 : String) (appointmentData : AppointmentData) :
    Appointment :=
  { id := generateId now rand36
    patientName := appointmentData.patientName
    time := appointmentData.time
    date := appointmentData.date
    issue := appointmentData.issue
    status := appointmentData.status
    notes := appointmentData.notes
    contact := appointmentData.contact }

/-- The state update and the return value of `addAppointment`: the returned id and the
appended, re-sorted collection. `dateParse` is the engine's reading of the time strings
of the comparator. -/
def addAppointment (dateParse : String → Option Int) (now : Nat) (rand36 : String)
    (appointmentData : AppointmentData) (prevAppointments : List Appointment) :
    String × List Appointment :=
  let newApt := newAppointment now rand36 appointmentData
  let updatedAppointments := prevAppointments ++ [newApt]
  (newApt.id, sortAppointments dateParse updatedAppointments)

/-- One call of `addAppointment`: the clock and random readings it makes and its argument. -/
structure AddCall where
  now : Nat
  rand36 : String
  data : AppointmentData
  deriving DecidableEq, Repr

/-- The collection after a sequence of `addAppointment` calls, first call first. -/
def addAppointments (dateParse : String → Option Int) (calls : List AddCall)
    (init : List Appointment) : List Appointment :=
  calls.foldl (fun l c => (addAppointment dateParse c.now c.rand36 c.data l).2) init

/-- The ids returned by a sequence of `addAppointment` calls, first call first. -/
def returnedIds (calls : List AddCall) : List String :=
  calls.map (fun c => generateId c.now c.rand36)

/-- An argument of `addAppointment` whose date is a `YYYY-MM-DD` calendar date and whose
time is a 12-hour `hh:mm AM` or `hh:mm PM` display time. -/
def WellFormedData (d : AppointmentData) : Prop :=
  (parseDateKey d.date).isSome = true ∧ (parseTimeOfDay d.time).isSome = true

instance WellFormedData.decidable (d : AppointmentData) : Decidable (WellFormedData d) := by
  unfold WellFormedData
  infer_instance

/-- Strict calendar order on (year, month, day) triples. -/
def dateLt (p q : Nat × Nat × Nat) : Prop :=
  p.1 < q.1 ∨ (p.1 = q.1 ∧ (p.2.1 < q.2.1 ∨ (p.2.1 = q.2.1 ∧ p.2.2 < q.2.2)))

/-- The sort key of a record: its calendar date and its time of day in minutes since
midnight, `none` when either field is not well formed. -/
def chronoKey (a : Appointment) : Option ((Nat × Nat × Nat) × Nat) :=
  match parseDateKey a.date, parseTimeOfDay a.time with
  | some d, some t => some (d, t)
  | _, _ => none

/-- Lexicographic order on (calendar date, minutes since midnight): `a` is not after `b`.
It holds only between records whose date and time are both well formed. -/
def chronoLE (a b : Appointment) : Prop :=
  match chronoKey a, chronoKey b with
  | some ka, some kb => dateLt ka.1 kb.1 ∨ (ka.1 = kb.1 ∧ ka.2 ≤ kb.2)
  | _, _ => False

instance chronoLE.decidable : DecidableRel chronoLE := fun a b => by
  unfold chronoLE dateLt
  cases chronoKey a <;> cases chronoKey b <;> infer_instance

/-! ## Status, note and delete -/

/-- The state update of `updateAppointmentStatus`. -/
def updateAppointmentStatus (appointmentId newStatus : String)
    (prevAppointments : List Appointment) : List Appointment :=
  prevAppointments.map (fun apt =>
    if apt.id = appointmentId then { apt with status := newStatus } else apt)

/-- The state update of `addAppointmentNote`. -/
def addAppointmentNote (appointmentId note : String)
    (prevAppointments : List Appointment) : List Appointment :=
  prevAppointments.map (fun apt =>
    if apt.id = appointmentId then { apt with notes := note } else apt)

/-- The state update of `deleteAppointment`. -/
def deleteAppointment (appointmentId : String)
    (prevAppointments : List Appointment) : List Appointment :=
  prevAppointments.filter (fun apt => decide (apt.id ≠ appointmentId))

/-! ## The calendar index -/

/-- An entry of the calendar index. -/
structure CalendarEntry where
  marked : Bool
  dotColor : String
  appointmentCount : Nat
  deriving DecidableEq, Repr

/-- A plain object with string keys, as the list of its own properties in insertion
order. What a read finds on the prototype when the object has no own property of the name
is given by `readMember`; the numeric-key ordering rule of property enumeration is outside
the model. -/
abbrev JsObject (α : Type) := List (String × α)

/-- The own property `k` of `o`, `none` when `o` has no own property of that name: the
value of `o[k]` for every `k` that names no member of the prototype. -/
def objGet {α : Type} : JsObject α → String → Option α
  | [], _ => none
  | (k1, v) :: rest, k => if k1 = k then some v else objGet rest k

/-- Property write `o[k] = v`: an existing property keeps its place, a new one is added last. -/
def objSet {α : Type} : JsObject α → String → α → JsObject α
  | [], k, v => [(k, v)]
  | (k1, v1) :: rest, k, v => if k1 = k then (k, v) :: rest else (k1, v1) :: objSet rest k v

/-- The keys listed by `Object.keys(o)`. -/
def objKeys {α : Type} (o : JsObject α) : List String :=
  o.map Prod.fst

/-- The helper `getDotColorForCount`. -/
def getDotColorForCount (count : Nat) : String :=
  if count ≥ 4 then colors.error
  else if count ≥ 2 then colors.warning
  else colors.success

/-- The names of the members of `Object.prototype` (ECMA-262, 20.1.3 and B.2.2), which
every object written `{}` inherits. All of them are functions, but `__proto__`, an
accessor that reads as the prototype object itself. -/
def objectPrototypeKeys : List String :=
  ["constructor", "hasOwnProperty", "isPrototypeOf", "propertyIsEnumerable",
   "toLocaleString", "toString", "valueOf", "__proto__", "__defineGetter__",
   "__defineSetter__", "__lookupGetter__", "__lookupSetter__"]

/-- What the read `o[k]` finds on an object written `{}`: an own property, a member
inherited from `Object.prototype` (a function or an object, hence truthy, and neither an
array nor a number), or nothing (`undefined`). -/
inductive Member (α : Type) where
  | own (value : α)
  | inherited
  | missing
  deriving DecidableEq, Repr

/-- The read `o[k]` on an object written `{}`. -/
def readMember {α : Type} (o : JsObject α) (k : String) : Member α :=
  match objGet o k with
  | some v => Member.own v
  | none => if k ∈ objectPrototypeKeys then Member.inherited else Member.missing

/-- One step of the `reduce` in `updateCalendarData`: create the date's array when
`acc[date]` is falsy, then push the appointment onto `acc[date]`. When the date names a
member of `Object.prototype`, `acc[date]` is that member: it is truthy, so no array is
created, and it has no `push`, so the call throws a `TypeError` (the error of the result
is the name of the exception). -/
def groupStep (acc : JsObject (List Appointment)) (appointment : Appointment) :
    Except String (JsObject (List Appointment)) :=
  let date := appointment.date
  let acc1 :=
    match readMember acc date with
    | Member.missing => objSet acc date []
    | _ => acc
  match readMember acc1 date with
  | Member.own arr => Except.ok (objSet acc1 date (arr ++ [appointment]))
  | _ => Except.error "TypeError"

/-- The object `appointmentsByDate` of `updateCalendarData`, or the exception that ends
the `reduce`. -/
def appointmentsByDate (allAppointments : List Appointment) :
    Except String (JsObject (List Appointment)) :=
  allAppointments.foldlM groupStep []

/-- A call of `updateCalendarData`: the object `newCalendarData` that it passes to
`setCalendarData`, or the exception that ends the call before it gets there. -/
def updateCalendarDataRun (allAppointments : List Appointment) :
    Except String (JsObject CalendarEntry) :=
  match appointmentsByDate allAppointments with
  | Except.error e => Except.error e
  | Except.ok byDate =>
    Except.ok ((objKeys byDate).foldl (fun newCalendarData date =>
      let appointmentCount := ((objGet byDate date).getD []).length
      objSet newCalendarData date
        { marked := true
          dotColor := getDotColorForCount appointmentCount
          appointmentCount := appointmentCount }) [])

/-- The step `groupStep` on own properties alone: what it does for a date that names no
member of `Object.prototype` (`groupStep_eq`). -/
def groupStepOwn (acc : JsObject (List Appointment)) (appointment : Appointment) :
    JsObject (List Appointment) :=
  let date := appointment.date
  let acc1 := if (objGet acc date).isNone then objSet acc date [] else acc
  objSet acc1 date ((objGet acc1 date).getD [] ++ [appointment])

/-- The object `appointmentsByDate` of `updateCalendarData` on own properties alone. -/
def appointmentsByDateOwn (allAppointments : List Appointment) :
    JsObject (List Appointment) :=
  allAppointments.foldl groupStepOwn []

/-- The object `newCalendarData` that `updateCalendarData` passes to `setCalendarData`:
the result of every call that gets there, which is every call on a collection none of
whose dates names a member of `Object.prototype` (`updateCalendarDataRun_eq`; no
`YYYY-MM-DD` key does, `readDateKey_not_inherited`). The store below holds the index as
this function of the collection. -/
def updateCalendarData (allAppointments : List Appointment) : JsObject CalendarEntry :=
  let byDate := appointmentsByDateOwn allAppointments
  (objKeys byDate).foldl (fun newCalendarData date =>
    let appointmentCount := ((objGet byDate date).getD []).length
    objSet newCalendarData date
      { marked := true
        dotColor := getDotColorForCount appointmentCount
        appointmentCount := appointmentCount }) []

/-- The constant `initialCalendarData` of `AppContext.js`. -/
def initialCalendarData : JsObject CalendarEntry :=
  [ ("2025-08-08", { marked := true, dotColor := colors.error, appointmentCount := 3 }),
    ("2025-08-09", { marked := true, dotColor := colors.warning, appointmentCount := 2 }),
    ("2025-08-10", { marked := true, dotColor := colors.success, appointmentCount := 1 }),
    ("2025-08-12", { marked := true, dotColor := colors.warning, appointmentCount := 2 }),
    ("2025-08-15", { marked := true, dotColor := colors.success, appointmentCount := 1 }) ]

/-! ## The store as a state machine -/

/-- The two `useState` cells of the provider that the index depends on, and whether the
effect `useEffect(() => updateCalendarData(), [allAppointments])` is scheduled and has
not run yet (after mounting, and after every change of `allAppointments`). -/
structure Store where
  allAppointments : List Appointment
  calendarData : JsObject CalendarEntry
  effectPending : Bool
  deriving DecidableEq, Repr

/-- The store at the first render: both cells hold their initial constants and the effect
of the mount has not run yet. -/
def initialStore : Store :=
  { allAppointments := initialAppointments
    calendarData := initialCalendarData
    effectPending := true }

/-- What can happen to the store: a call of one of the four mutations, a direct call of
`updateCalendarData` made from a render that shows the current collection (the function
is exported, though no screen calls it), or the run of the pending effect. -/
inductive Action where
  | add (now : Nat) (rand36 : String) (data : AppointmentData)
  | updateStatus (appointmentId newStatus : String)
  | addNote (appointmentId note : String)
  | delete (appointmentId : String)
  | recompute
  | runEffect
  deriving DecidableEq, Repr

/-- One transition of the store. A mutation replaces `allAppointments` by a new array, which
schedules the effect; the effect (only when scheduled) and a direct call both store the
index computed from the collection. `dateParse` is the engine's reading of the time
strings that the sort of `addAppointment` compares. -/
def step (dateParse : String → Option Int) (s : Store) : Action → Store
  | .add now rand36 data =>
    { s with allAppointments := (addAppointment dateParse now rand36 data s.allAppointments).2
             effectPending := true }
  | .updateStatus appointmentId newStatus =>
    { s with allAppointments := updateAppointmentStatus appointmentId newStatus s.allAppointments
             effectPending := true }
  | .addNote appointmentId note =>
    { s with allAppointments := addAppointmentNote appointmentId note s.allAppointments
             effectPending := true }
  | .delete appointmentId =>
    { s with allAppointments := deleteAppointment appointmentId s.allAppointments
             effectPending := true }
  | .recompute =>
    { s with calendarData := updateCalendarData s.allAppointments }
  | .runEffect =>
    if s.effectPending then
      { s with calendarData := updateCalendarData s.allAppointments
               effectPending := false }
    else s

/-- The store after a sequence of transitions from the first render. -/
def run (dateParse : String → Option Int) (actions : List Action) : Store :=
  actions.foldl (step dateParse) initialStore

/-! ## Strings as JavaScript reads them -/

/-- The UTF-16 code units of a character: one unit below `U+10000`, a surrogate pair
from there on. -/
def utf16Units (c : Char) : List Nat :=
  if c.toNat < 65536 then [c.toNat]
  else [55296 + (c.toNat - 65536) / 1024, 56320 + (c.toNat - 65536) % 1024]

/-- The UTF-16 code units of a sequence of characters. -/
def utf16 : List Char → List Nat
  | [] => []
  | c :: cs => utf16Units c ++ utf16 cs

/-- The property `s.length`: the number of UTF-16 code units of `s`. -/
def jsLength (s : String) : Nat :=
  (utf16 s.data).length

/-- Lexicographic order on code unit sequences, a proper prefix coming first. -/
def codeUnitsLt : List Nat → List Nat → Bool
  | [], [] => false
  | [], _ :: _ => true
  | _ :: _, [] => false
  | a :: as, b :: bs => decide (a < b) || (decide (a = b) && codeUnitsLt as bs)

/-- The comparison `s < t` of two strings (and `t > s`): code unit by code unit. -/
def jsStringLt (s t : String) : Bool :=
  codeUnitsLt (utf16 s.data) (utf16 t.data)

/-- The characters that `String.prototype.trim` removes: the white space and line
terminator code points of ECMAScript. -/
def isJsWhiteSpace (c : Char) : Bool :=
  decide (c.toNat ∈ [9, 10, 11, 12, 13, 32, 160, 5760, 8232, 8233, 8239, 8287, 12288, 65279])
    || (decide (8192 ≤ c.toNat) && decide (c.toNat ≤ 8202))

/-- The method `s.trim()`. -/
def jsTrim (s : String) : String :=
  String.mk ((s.data.dropWhile isJsWhiteSpace).reverse.dropWhile isJsWhiteSpace).reverse

/-- The class `\d` of a regular expression without the unicode flag: `0` to `9`. -/
def isDigitChar (c : Char) : Bool :=
  (digitVal c).isSome

/-! ## The query layer -/

/-- The function `getFilteredAppointments`. `today` is the value `getTodaysDate()` returns
during the call; `filter` is the argument, `none` when it is omitted, in which case the
default parameter takes the value of the state cell `appointmentFilter`. -/
def getFilteredAppointments (today : String) (appointmentFilter : String)
    (filter : Option String) (allAppointments : List Appointment) : List Appointment :=
  let f := match filter with
    | some v => v
    | none => appointmentFilter
  if f = "today" then allAppointments.filter (fun apt => decide (apt.date = today))
  else if f = "upcoming" then allAppointments.filter (fun apt => jsStringLt today apt.date)
  else if f = "past" then allAppointments.filter (fun apt => jsStringLt apt.date today)
  else if f = "all" then allAppointments
  else allAppointments

/-- The values of a `new Set(values)`, in insertion order: each distinct value once. -/
def jsSet (values : List String) : List String :=
  values.foldl (fun seen v => if v ∈ seen then seen else seen ++ [v]) []

/-- The object returned by `getTodayStats`. -/
structure TodayStats where
  todayAppointments : Nat
  totalPatients : Nat
  completedToday : Nat
  pendingToday : Nat
  confirmedToday : Nat
  deriving DecidableEq, Repr

/-- The function `getTodayStats`. `today` is the value `getTodaysDate()` returns during the
call, and `toLowerCase` is `String.prototype.toLowerCase`, whose case mapping is the
engine's. -/
def getTodayStats (toLowerCase : String → String) (today : String)
    (allAppointments : List Appointment) : TodayStats :=
  let todayAppointments := allAppointments.filter (fun apt => decide (apt.date = today))
  let completedToday := todayAppointments.filter (fun apt => decide (apt.status = "completed"))
  let uniquePatients := jsSet (allAppointments.map (fun apt => toLowerCase apt.patientName))
  { todayAppointments := todayAppointments.length
    totalPatients := uniquePatients.length
    completedToday := completedToday.length
    pendingToday := (todayAppointments.filter (fun apt => decide (apt.status = "pending"))).length
    confirmedToday :=
      (todayAppointments.filter (fun apt => decide (apt.status = "confirmed"))).length }

/-- Lower-casing of the letters `A` to `Z` only, which is what `toLowerCase` does on a
string without other cased letters. -/
def asciiToLowerCase (s : String) : String :=
  String.mk (s.data.map Char.toLower)

/-- The object returned by `getAppointmentStats`. -/
structure AppointmentStats where
  total : Nat
  completed : Nat
  pending : Nat
  confirmed : Nat
  cancelled : Nat
  deriving DecidableEq, Repr

/-- The function `getAppointmentStats`. -/
def getAppointmentStats (allAppointments : List Appointment) : AppointmentStats :=
  let totalAppointments := allAppointments.length
  let completedAppointments :=
    (allAppointments.filter (fun apt => decide (apt.status = "completed"))).length
  let pendingAppointments :=
    (allAppointments.filter (fun apt => decide (apt.status = "pending"))).length
  let confirmedAppointments :=
    (allAppointments.filter (fun apt => decide (apt.status = "confirmed"))).length
  let cancelledAppointments :=
    (allAppointments.filter (fun apt => decide (apt.status = "cancelled"))).length
  { total := totalAppointments
    completed := completedAppointments
    pending := pendingAppointments
    confirmed := confirmedAppointments
    cancelled := cancelledAppointments }

/-- The function `checkAppointmentConflict`; `excludeId` is `none` for `null`, which is
also the default of the parameter. A string id is never `null`. -/
def checkAppointmentConflict (date time : String) (excludeId : Option String)
    (allAppointments : List Appointment) : Bool :=
  allAppointments.any (fun apt =>
    decide (apt.date = date) &&
    decide (apt.time = time) &&
    decide (some apt.id ≠ excludeId) &&
    decide (apt.status ≠ "cancelled"))

/-- The constant `allTimeSlots` of `getAvailableTimeSlots`. -/
def allTimeSlots : List String :=
  [ "09:00 AM", "09:30 AM", "10:00 AM", "10:30 AM", "11:00 AM", "11:30 AM",
    "12:00 PM", "12:30 PM", "02:00 PM", "02:30 PM", "03:00 PM", "03:30 PM",
    "04:00 PM", "04:30 PM", "05:00 PM", "05:30 PM" ]

/-- The function `getAvailableTimeSlots`. -/
def getAvailableTimeSlots (date : String) (allAppointments : List Appointment) :
    List String :=
  let bookedSlots :=
    (allAppointments.filter (fun apt =>
      decide (apt.date = date) && decide (apt.status ≠ "cancelled"))).map (fun apt => apt.time)
  allTimeSlots.filter (fun slot => !decide (slot ∈ bookedSlots))

/-! ## Field validation of the booking form (`AddAppointmentScreen.js`) -/

/-- The test `/^[6-9]\d{9}$/.test(s)`: exactly ten characters, the first from `6` to `9`,
the other nine digits. -/
def matchesMobilePattern (s : String) : Bool :=
  match s.data with
  | [c0, c1, c2, c3, c4, c5, c6, c7, c8, c9] =>
    (decide (c0 = '6') || decide (c0 = '7') || decide (c0 = '8') || decide (c0 = '9')) &&
    [c1, c2, c3, c4, c5, c6, c7, c8, c9].all isDigitChar
  | _ => false

/-- The function `validateContactNumber`: `none` is `null`, no error. -/
def validateContactNumber (contact : String) : Option String :=
  let cleanContact := String.mk (contact.data.filter isDigitChar)
  if jsLength cleanContact = 0 then some "Contact number is required"
  else if jsLength cleanContact ≠ 10 then some "Contact number must be exactly 10 digits"
  else if !matchesMobilePattern cleanContact then
    some "Enter a valid Indian mobile number (starting with 6-9)"
  else none

/-- The function `validatePatientName`: `none` is `null`, no error. The empty string is
the only falsy string. -/
def validatePatientName (name : String) : Option String :=
  if jsTrim name = "" then some "Patient name is required"
  else if jsLength (jsTrim name) < 2 then some "Patient name must be at least 2 characters"
  else none

/-- The function `validateIssue`: `none` is `null`, no error. -/
def validateIssue (issue : String) : Option String :=
  if jsTrim issue = "" then some "Medical issue/reason is required"
  else if jsLength (jsTrim issue) < 5 then
    some "Please provide more details about the medical issue"
  else none

/-! ## The booking form (`AddAppointmentScreen.js`) -/

/-- The state `formData` of the booking form. The two `Date` objects are given by their
time values, in milliseconds since the epoch (the pickers only produce valid dates). -/
structure FormData where
  patientName : String
  contact : String
  issue : String
  date : Int
  time : Int
  status : String
  deriving DecidableEq, Repr

/-- What the platform supplies during one run of `validateForm` and `handleSubmit`: the
clock readings, the offset of local time from UTC in milliseconds (taken as constant over
the day), the random number drawn by `addAppointment`, the text that
`toLocaleTimeString('en-US', ...)` gives for a time value, and the engine's reading of
the time strings that the sort of `addAppointment` compares. -/
structure SubmitEnv where
  validateNow : Int
  offsetMs : Int
  submitNow : Nat
  addNow : Nat
  rand36 : String
  toLocaleTimeString : Int → String
  dateParse : String → Option Int

/-- The value of `new Date().setHours(0, 0, 0, 0)`: the time value of the local midnight
that starts the local day of `now`. -/
def localMidnight (now offsetMs : Int) : Int :=
  (now + offsetMs) / 86400000 * 86400000 - offsetMs

/-- The civil date (year, month, day) of a day number relative to 1970-01-01, in the
proleptic Gregorian calendar. -/
def civilFromDays (days : Int) : Int × Nat × Nat :=
  let z := days + 719468
  let era := z / 146097
  let doe := z - era * 146097
  let yoe := (doe - doe / 1460 + doe / 36524 - doe / 146096) / 365
  let y := yoe + era * 400
  let doy := doe - (365 * yoe + yoe / 4 - yoe / 100)
  let mp := (5 * doy + 2) / 153
  let d := doy - (153 * mp + 2) / 5 + 1
  let m := if mp < 10 then mp + 3 else mp - 9
  (if m ≤ 2 then y + 1 else y, m.toNat, d.toNat)

/-- The last two decimal digits of a number, as characters. -/
def twoDigits (n : Nat) : List Char :=
  [Nat.digitChar (n / 10 % 10), Nat.digitChar (n % 10)]

/-- The year of an ISO date string: four digits from 0 to 9999, otherwise a sign and
six digits. -/
def isoYear (y : Int) : List Char :=
  if 0 ≤ y ∧ y ≤ 9999 then twoDigits (y.toNat / 100) ++ twoDigits y.toNat
  else (if y < 0 then '-' else '+') ::
    (twoDigits (y.natAbs / 10000) ++ twoDigits (y.natAbs / 100) ++ twoDigits y.natAbs)

/-- The value of `d.toISOString().split('T')[0]` for a date of time value `t`: its UTC
calendar date, as `YYYY-MM-DD`. -/
def utcDateKey (t : Int) : String :=
  let ymd := civilFromDays (t / 86400000)
  String.mk (isoYear ymd.1 ++ '-' :: twoDigits ymd.2.1 ++ '-' :: twoDigits ymd.2.2)

/-- The function `validateForm`: the mapping passed to `setErrors` and the value
returned. An error message is a non-empty string, hence truthy. -/
def validateForm (formData : FormData) (env : SubmitEnv) : JsObject String × Bool :=
  let newErrors : JsObject String := []
  let nameError := validatePatientName formData.patientName
  let newErrors := match nameError with
    | some message => objSet newErrors "patientName" message
    | none => newErrors
  let contactError := validateContactNumber formData.contact
  let newErrors := match contactError with
    | some message => objSet newErrors "contact" message
    | none => newErrors
  let issueError := validateIssue formData.issue
  let newErrors := match issueError with
    | some message => objSet newErrors "issue" message
    | none => newErrors
  let newErrors :=
    if formData.date < localMidnight env.validateNow env.offsetMs then
      objSet newErrors "date" "Please select a future date"
    else newErrors
  (newErrors, if (objKeys newErrors).length > 0 then false else true)

/-- The record that `handleSubmit` passes to `addAppointment`. -/
def submittedData (formData : FormData) (env : SubmitEnv) : AppointmentData :=
  { id := some (numberToString env.submitNow)
    patientName := jsTrim formData.patientName
    contact := formData.contact
    issue := jsTrim formData.issue
    date := utcDateKey formData.date
    time := env.toLocaleTimeString formData.time
    status := formData.status
    notes := "" }

/-- The effect of `handleSubmit` on the appointment collection: nothing when
`validateForm` returns false, the `addAppointment` of the submitted record otherwise. -/
def handleSubmit (formData : FormData) (env : SubmitEnv)
    (allAppointments : List Appointment) : List Appointment :=
  if !(validateForm formData env).2 then allAppointments
  else (addAppointment env.dateParse env.addNow env.rand36 (submittedData formData env)
    allAppointments).2

/-- The handler `updateContact`: the value stored in `formData.contact` for a typed text,
its digits cut to ten characters. -/
def updateContact (value : String) : String :=
  String.mk ((value.data.filter isDigitChar).take 10)

/-! ## The context hook, the date utilities and the calendar screen -/

/-- The hook `useApp`: `context` is the value of `useContext(AppContext)`, `none` when no
provider is above the caller (the context has no default value); a provider's value is
an object, hence truthy. The error is the message of the `Error` thrown. -/
def useApp {α : Type} (context : Option α) : Except String α :=
  match context with
  | none => Except.error "useApp must be used within an AppProvider"
  | some value => Except.ok value

/-- The function `getDateStatus` of `utils/dateUtils.js`. -/
def getDateStatus (appointmentCount : Nat) : String :=
  if appointmentCount = 0 then "available"
  else if appointmentCount ≤ 2 then "partial"
  else "booked"

/-- The colour `colors.js` gives to a status name of `getDateStatus`: `colors.available`,
`colors.partial` and `colors.booked` (`none` for any other name). -/
def statusColor (status : String) : Option String :=
  if status = "available" then some "#28B463"
  else if status = "partial" then some "#F39C12"
  else if status = "booked" then some "#E74C3C"
  else none

/-- The function `getAppointmentsForDate`. -/
def getAppointmentsForDate (date : String) (allAppointments : List Appointment) :
    List Appointment :=
  allAppointments.filter (fun apt => decide (apt.date = date))

/-- The palette entry `colors.primary`. -/
def colorsPrimary : String := "#2E86C1"

/-- An entry of the object returned by `getMarkedDates`; `none` is a property that is
missing or `undefined`. -/
structure MarkedEntry where
  marked : Option Bool
  dotColor : Option String
  selectedColor : Option String
  selected : Bool
  deriving DecidableEq, Repr

/-- A value stored in the object `appointmentCounts` of the calendar screen: a number, or
the text that `+ 1` makes of a member inherited from `Object.prototype` (the source text
of a function followed by `1`), which reads as `NaN` in every comparison with a number. -/
inductive CountValue where
  | number (n : Nat)
  | text
  deriving DecidableEq, Repr

/-- The comparison `count >= k` of the calendar screen; false for a text. -/
def CountValue.ge (count : CountValue) (k : Nat) : Bool :=
  match count with
  | CountValue.number n => decide (n ≥ k)
  | CountValue.text => false

/-- The comparison `count <= k` of the calendar screen; false for a text. -/
def CountValue.le (count : CountValue) (k : Nat) : Bool :=
  match count with
  | CountValue.number n => decide (n ≤ k)
  | CountValue.text => false

/-- The comparison `count < k` of the calendar screen; false for a text. -/
def CountValue.lt (count : CountValue) (k : Nat) : Bool :=
  match count with
  | CountValue.number n => decide (n < k)
  | CountValue.text => false

/-- One step of the counting loop of the calendar screen:
`appointmentCounts[apt.date] = (appointmentCounts[apt.date] || 0) + 1`. A number is
incremented and a missing property starts at 1; a text, or a member inherited from
`Object.prototype`, is truthy and `+ 1` appends to its text; the assignment of a text to
`__proto__` is ignored, any other assignment makes or updates an own property. -/
def countStep (appointmentCounts : JsObject CountValue) (apt : Appointment) :
    JsObject CountValue :=
  match readMember appointmentCounts apt.date with
  | Member.own (CountValue.number n) =>
    objSet appointmentCounts apt.date (CountValue.number (n + 1))
  | Member.own CountValue.text => objSet appointmentCounts apt.date CountValue.text
  | Member.inherited =>
    if apt.date = "__proto__" then appointmentCounts
    else objSet appointmentCounts apt.date CountValue.text
  | Member.missing => objSet appointmentCounts apt.date (CountValue.number 1)

/-- The object `appointmentCounts` of the calendar screen. -/
def appointmentCounts (allAppointments : List Appointment) : JsObject CountValue :=
  allAppointments.foldl countStep []

/-- The counting step on an object of numbers read through its own properties alone: what
`countStep` does for a date that names no member of `Object.prototype`
(`countStep_numbers`). -/
def countStepOwn (appointmentCounts : JsObject Nat) (apt : Appointment) : JsObject Nat :=
  objSet appointmentCounts apt.date ((objGet appointmentCounts apt.date).getD 0 + 1)

/-- The object `appointmentCounts` of the calendar screen on own properties alone. -/
def appointmentCountsOwn (allAppointments : List Appointment) : JsObject Nat :=
  allAppointments.foldl countStepOwn []

/-- An object of numbers as an object of stored values. -/
def numberValues (o : JsObject Nat) : JsObject CountValue :=
  o.map (fun p => (p.1, CountValue.number p.2))

/-- The function `getMarkedDates` of the calendar screen. The keys of `appointmentCounts`
are own properties; `!marked[selectedDate]` is false for an own entry and for a member
inherited from `Object.prototype`. -/
def getMarkedDates (selectedDate : String) (allAppointments : List Appointment) :
    JsObject MarkedEntry :=
  let counts := appointmentCounts allAppointments
  let marked := (objKeys counts).foldl (fun marked date =>
    let count := (objGet counts date).getD (CountValue.number 0)
    let color :=
      if count.ge 4 = true then colors.error
      else if count.ge 2 = true then colors.warning
      else colors.success
    objSet marked date
      { marked := some true
        dotColor := some color
        selectedColor := if date = selectedDate then some colorsPrimary else none
        selected := decide (date = selectedDate) }) []
  match readMember marked selectedDate with
  | Member.missing =>
    objSet marked selectedDate
      { marked := none, dotColor := none, selectedColor := some colorsPrimary, selected := true }
  | _ => marked

/-- The object `legendCounts` of the calendar screen; `partly` is its property
`partial`. -/
structure LegendCounts where
  available : Nat
  partly : Nat
  booked : Nat
  deriving DecidableEq, Repr

/-- The constant `legendCounts` of the calendar screen, computed from
`Object.values(appointmentCounts)`. -/
def legendCounts (allAppointments : List Appointment) : LegendCounts :=
  let values := (appointmentCounts allAppointments).map Prod.snd
  { available := (values.filter (fun count => count.le 1)).length
    partly := (values.filter (fun count => count.ge 2 && count.lt 4)).length
    booked := (values.filter (fun count => count.ge 4)).length }

/-! ## Concrete inputs used to exercise the statements -/

/-- A first call of `addAppointment`, as made by the booking form. -/
def exampleCall1 : AddCall :=
  { now := 1754640000000
    rand36 := "0.4fzyo82mvyr"
    data := { id := some "1754640000000", patientName := "Asha Rao", time := "09:00 AM",
              date := "2025-08-11", issue := "Fever and chills", status := "confirmed",
              notes := "", contact := "9876543210" } }

/-- A later call, one second after `exampleCall1`. -/
def exampleCall2 : AddCall :=
  { now := 1754640001000
    rand36 := "0.k3x9q0a7bcd"
    data := { id := some "1754640001000", patientName := "Ravi Nair", time := "02:30 PM",
              date := "2025-08-08", issue := "Back pain for a week", status := "pending",
              notes := "", contact := "9876543211" } }

/-- A call made in the same millisecond as `exampleCall1` and drawing the same random
number. -/
def exampleCall3 : AddCall :=
  { now := 1754640000000
    rand36 := "0.4fzyo82mvyr"
    data := { id := some "1754640000000", patientName := "Ravi Nair", time := "09:30 AM",
              date := "2025-08-11", issue := "Back pain for a week", status := "confirmed",
              notes := "", contact := "9876543211" } }

/-- A call for 08:00 AM on 2025-08-08, a day on which the seeded collection has records at
09:00 AM, 10:30 AM and 11:15 AM. -/
def earlyCall : AddCall :=
  { now := 1754640002000
    rand36 := "0.9d2k1p5xwqz"
    data := { id := some "1754640002000", patientName := "Ravi Nair", time := "08:00 AM",
              date := "2025-08-08", issue := "Back pain for a week", status := "pending",
              notes := "", contact := "9876543211" } }

/-- Two records whose date is the name of a member of `Object.prototype`. -/
def inheritedNameRecords : List Appointment :=
  [ { id := "301", patientName := "Meera Joshi", time := "09:00 AM", date := "constructor",
      issue := "Migraine", status := "confirmed", notes := "", contact := "9812345670" },
    { id := "302", patientName := "Karan Shah", time := "10:00 AM", date := "constructor",
      issue := "Sore throat", status := "confirmed", notes := "", contact := "9812345671" } ]

/-- The third seeded record. -/
def seedRecord3 : Appointment :=
  { id := "3", patientName := "Sunita Devi", time := "11:15 AM", date := "2025-08-08",
    issue := "Blood Pressure Check", status := "completed",
    notes := "BP: 140/90. Advised lifestyle changes.", contact := "+91 9876543212" }

/-- A confirmed appointment on 2025-08-08 at 09:00 AM. -/
def conflictA : Appointment :=
  { id := "101", patientName := "Meera Joshi", time := "09:00 AM", date := "2025-08-08",
    issue := "Migraine", status := "confirmed", notes := "", contact := "9812345670" }

/-- A second confirmed appointment in the same slot as `conflictA`. -/
def conflictB : Appointment :=
  { id := "102", patientName := "Karan Shah", time := "09:00 AM", date := "2025-08-08",
    issue := "Sore throat", status := "confirmed", notes := "", contact := "9812345671" }

/-- An appointment on 2025-08-08 whose time is written without the leading zero. -/
def unpaddedRecord : Appointment :=
  { id := "103", patientName := "Neha Verma", time := "9:00 AM", date := "2025-08-08",
    issue := "Ear infection", status := "confirmed", notes := "", contact := "9812345672" }

/-- A day with bookings at 09:00 AM and 02:00 PM and a cancelled one at 10:00 AM, and a
later day whose only booking is cancelled. -/
def exampleBookings : List Appointment :=
  [ { id := "201", patientName := "Priya Sharma", time := "09:00 AM", date := "2025-08-12",
      issue := "Regular Checkup", status := "confirmed", notes := "", contact := "9876543210" },
    { id := "202", patientName := "PRIYA SHARMA", time := "10:00 AM", date := "2025-08-12",
      issue := "Follow-up visit", status := "cancelled", notes := "", contact := "9876543210" },
    { id := "203", patientName := "Amit Singh", time := "02:00 PM", date := "2025-08-12",
      issue := "Fever and Cough", status := "pending", notes := "", contact := "9876543211" },
    { id := "204", patientName := "Amit Singh", time := "11:00 AM", date := "2025-08-15",
      issue := "Fever and Cough", status := "cancelled", notes := "", contact := "9876543211" } ]

/-- The text of a time value on the 12-hour clock of a zone `offsetMs` ahead of UTC, as
`hh:mm AM` or `hh:mm PM` with a plain space: what `toLocaleTimeString('en-US', ...)` with
two-digit hour and minute is taken to return in the examples. -/
def enUsTimeText (offsetMs t : Int) : String :=
  let minutes := ((t + offsetMs) / 60000 % 1440).toNat
  let hour24 := minutes / 60
  let hour12 := if hour24 % 12 = 0 then 12 else hour24 % 12
  String.mk (twoDigits hour12 ++ ':' :: twoDigits (minutes % 60)
    ++ [' ', if hour24 < 12 then 'A' else 'P', 'M'])

/-- A form opened at 05:28 on 9 August 2025 in a zone five and a half hours ahead of UTC
(23:58 UTC on 8 August), with the date left as it was when the form opened. -/
def straddlingForm : FormData :=
  { patientName := "Asha Rao", contact := "9876543210", issue := "Fever and chills",
    date := 1754697480000, time := 1754697480000, status := "pending" }

/-- The submission of `straddlingForm` five minutes later, at 05:33 local time (00:03 UTC
on 9 August). -/
def straddlingEnv : SubmitEnv :=
  { validateNow := 1754697780000
    offsetMs := 19800000
    submitNow := 1754697780000
    addNow := 1754697780000
    rand36 := "0.4fzyo82mvyr"
    toLocaleTimeString := enUsTimeText 19800000
    dateParse := clockDateParse 19800000 }

/-- A form with a one-letter name, a nine-digit contact and a date one day back. -/
def failingForm : FormData :=
  { patientName := "A", contact := "987654321", issue := "Fever and chills",
    date := 1754611080000, time := 1754697480000, status := "pending" }

/-! ## Insertion sort on a domain where the order is total and transitive -/

theorem pairwise_orderedInsert_of {α : Type} (r : α → α → Prop) [DecidableRel r]
    (P : α → Prop) (htot : ∀ a b, P a → P b → r a b ∨ r b a)
    (htrans : ∀ a b c, P a → P b → P c → r a b → r b c → r a c)
    (a : α) (ha : P a) (l : List α) (hP : ∀ x ∈ l, P x) (hs : l.Pairwise r) :
    (l.orderedInsert r a).Pairwise r := by
  induction l with
  | nil => simp
  | cons b l ih =>
    have hb : P b := hP b (List.mem_cons_self _ _)
    have hl : ∀ x ∈ l, P x := fun x hx => hP x (List.mem_cons_of_mem _ hx)
    obtain ⟨hbl, hsl⟩ := List.pairwise_cons.1 hs
    by_cases h : r a b
    · simp only [List.orderedInsert, if_pos h]
      refine List.pairwise_cons.2 ⟨?_, hs⟩
      intro c hc
      rcases List.mem_cons.1 hc with hcb | hcl
      · rw [hcb]; exact h
      · exact htrans a b c ha hb (hl c hcl) h (hbl c hcl)
    · simp only [List.orderedInsert, if_neg h]
      refine List.pairwise_cons.2 ⟨?_, ih hl hsl⟩
      intro c hc
      rcases (List.mem_orderedInsert r).1 hc with hca | hcl
      · rw [hca]; exact (htot a b ha hb).resolve_left h
      · exact hbl c hcl

theorem pairwise_insertionSort_of {α : Type} (r : α → α → Prop) [DecidableRel r]
    (P : α → Prop) (htot : ∀ a b, P a → P b → r a b ∨ r b a)
    (htrans : ∀ a b c, P a → P b → P c → r a b → r b c → r a c)
    (l : List α) (hP : ∀ x ∈ l, P x) : (l.insertionSort r).Pairwise r := by
  induction l with
  | nil => simp
  | cons b l ih =>
    have hl : ∀ x ∈ l, P x := fun x hx => hP x (List.mem_cons_of_mem _ hx)
    simp only [List.insertionSort]
    refine pairwise_orderedInsert_of r P htot htrans b (hP b (List.mem_cons_self _ _)) _ ?_ (ih hl)
    intro x hx
    exact hl x ((List.mem_insertionSort r).1 hx)

/-! ## Day numbers follow the calendar -/

theorem dayFromYear_succ (y : Nat) :
    dayFromYear (y + 1) = dayFromYear y + 365 + (if isLeapYear y = true then 1 else 0) := by
  unfold dayFromYear isLeapYear
  push_cast
  split_ifs with h <;> simp at h <;> omega

theorem dayFromYear_lt (y z : Nat) (h : y < z) :
    dayFromYear y + 365 + (if isLeapYear y = true then 1 else 0) ≤ dayFromYear z := by
  induction z, h using Nat.le_induction with
  | base => exact le_of_eq (dayFromYear_succ y).symm
  | succ n _ ih =>
    rw [dayFromYear_succ n]
    split_ifs <;> omega

theorem daysBeforeMonth_succ (y m : Nat) (hm : 1 ≤ m) :
    daysBeforeMonth y (m + 1) = daysBeforeMonth y m + daysInMonth y m := by
  obtain ⟨k, rfl⟩ : ∃ k, m = k + 1 := ⟨m - 1, by omega⟩
  simp [daysBeforeMonth, List.range_succ]

theorem daysBeforeMonth_mono (y m n : Nat) (h : m ≤ n) :
    daysBeforeMonth y m ≤ daysBeforeMonth y n := by
  induction n, h using Nat.le_induction with
  | base => exact le_refl _
  | succ k hk ih =>
    rcases Nat.eq_zero_or_pos k with h0 | hpos
    · subst h0
      have : m = 0 := by omega
      subst this
      simp [daysBeforeMonth]
    · rw [daysBeforeMonth_succ y k hpos]
      omega

theorem daysBeforeMonth_thirteen (y : Nat) :
    daysBeforeMonth y 13 = 365 + (if isLeapYear y = true then 1 else 0) := by
  cases h : isLeapYear y <;> simp [daysBeforeMonth, List.range_succ, daysInMonth, h]

theorem dayNumber_lt_of_dateLt (p q : Nat × Nat × Nat) (hp : IsCalendarDate p)
    (hq : IsCalendarDate q) (h : dateLt p q) :
    dayNumber p.1 p.2.1 p.2.2 < dayNumber q.1 q.2.1 q.2.2 := by
  obtain ⟨y, m, d⟩ := p
  obtain ⟨z, n, e⟩ := q
  simp only [IsCalendarDate] at hp hq
  simp only [dateLt] at h
  have hsucc := daysBeforeMonth_succ y m hp.1
  have h13 := daysBeforeMonth_mono y (m + 1) 13 (by omega)
  have hyear := daysBeforeMonth_thirteen y
  simp only [dayNumber]
  rcases h with hyz | ⟨hyz, hmn | ⟨hmn, hde⟩⟩
  · have := dayFromYear_lt y z hyz
    split_ifs at this hyear <;> omega
  · subst hyz
    have := daysBeforeMonth_mono y (m + 1) n (by omega)
    omega
  · subst hyz
    subst hmn
    omega

theorem dateLt_trichotomy (p q : Nat × Nat × Nat) : dateLt p q ∨ p = q ∨ dateLt q p := by
  obtain ⟨y, m, d⟩ := p
  obtain ⟨z, n, e⟩ := q
  simp only [dateLt, Prod.mk.injEq]
  omega

theorem dateLt_irrefl (p : Nat × Nat × Nat) : ¬ dateLt p p := by
  obtain ⟨y, m, d⟩ := p
  simp only [dateLt]
  omega

theorem dayNumber_lt_iff (p q : Nat × Nat × Nat) (hp : IsCalendarDate p)
    (hq : IsCalendarDate q) :
    dayNumber p.1 p.2.1 p.2.2 < dayNumber q.1 q.2.1 q.2.2 ↔ dateLt p q := by
  constructor
  · intro h
    rcases dateLt_trichotomy p q with h1 | h1 | h1
    · exact h1
    · subst h1; omega
    · have := dayNumber_lt_of_dateLt q p hq hp h1
      omega
  · exact dayNumber_lt_of_dateLt p q hp hq

theorem dayNumber_eq_iff (p q : Nat × Nat × Nat) (hp : IsCalendarDate p)
    (hq : IsCalendarDate q) :
    dayNumber p.1 p.2.1 p.2.2 = dayNumber q.1 q.2.1 q.2.2 ↔ p = q := by
  constructor
  · intro h
    rcases dateLt_trichotomy p q with h1 | h1 | h1
    · have := dayNumber_lt_of_dateLt p q hp hq h1
      omega
    · exact h1
    · have := dayNumber_lt_of_dateLt q p hq hp h1
      omega
  · intro h
    rw [h]

/-! ## The comparator on well-formed records -/

theorem parseDateKey_eq_some (s : String) (p : Nat × Nat × Nat) (h : parseDateKey s = some p) :
    IsCalendarDate p := by
  unfold parseDateKey at h
  cases hr : readDateKey s with
  | none => simp [hr] at h
  | some q =>
    simp only [hr] at h
    split_ifs at h with hq
    cases h
    exact hq

theorem chronoKey_eq_some (a : Appointment) (k : (Nat × Nat × Nat) × Nat)
    (h : chronoKey a = some k) :
    parseDateKey a.date = some k.1 ∧ parseTimeOfDay a.time = some k.2 := by
  unfold chronoKey at h
  cases hd : parseDateKey a.date with
  | none => simp [hd] at h
  | some d =>
    cases ht : parseTimeOfDay a.time with
    | none => simp [hd, ht] at h
    | some t =>
      simp only [hd, ht, Option.some.injEq] at h
      subst h
      exact ⟨rfl, rfl⟩

theorem clockDateParse_reads (offsetMs : Int) : ReadsClockTime (clockDateParse offsetMs) := by
  refine ⟨-offsetMs, ?_⟩
  intro t mins ht
  have hdata : ("1970-01-01 " ++ t).data = "1970-01-01 ".data ++ t.data :=
    String.data_append _ _
  have hpre : "1970-01-01 ".data.isPrefixOf ("1970-01-01 " ++ t).data = true := by
    rw [hdata, List.isPrefixOf_iff_prefix]
    exact List.prefix_append _ _
  have hdrop : String.mk (("1970-01-01 " ++ t).data.drop 11) = t := by
    rw [hdata]
    have h11 : "1970-01-01 ".data.length = 11 := by decide
    rw [← h11, List.drop_left]
  unfold clockDateParse
  rw [if_pos hpre, hdrop, ht]
  show some (_ - _) = some (_ + _)
  congr 1
  omega

theorem sortLE_iff (dateParse : String → Option Int) (hread : ReadsClockTime dateParse)
    (a b : Appointment) (ka kb : (Nat × Nat × Nat) × Nat)
    (ha : chronoKey a = some ka) (hb : chronoKey b = some kb) :
    sortLE dateParse a b ↔ (dateLt ka.1 kb.1 ∨ (ka.1 = kb.1 ∧ ka.2 ≤ kb.2)) := by
  obtain ⟨base, hbase⟩ := hread
  obtain ⟨hda, hta⟩ := chronoKey_eq_some a ka ha
  obtain ⟨hdb, htb⟩ := chronoKey_eq_some b kb hb
  have hva := parseDateKey_eq_some _ _ hda
  have hvb := parseDateKey_eq_some _ _ hdb
  have hlt := dayNumber_lt_iff ka.1 kb.1 hva hvb
  have heq := dayNumber_eq_iff ka.1 kb.1 hva hvb
  have hirr := dateLt_irrefl ka.1
  have hclockA := hbase a.time ka.2 hta
  have hclockB := hbase b.time kb.2 htb
  have hcmp : compareAppointments dateParse a b =
      if dayNumber ka.1.1 ka.1.2.1 ka.1.2.2 = dayNumber kb.1.1 kb.1.2.1 kb.1.2.2
      then some ((base + (ka.2 : Int) * 60000) - (base + (kb.2 : Int) * 60000))
      else some (dayNumber ka.1.1 ka.1.2.1 ka.1.2.2 * 86400000
        - dayNumber kb.1.1 kb.1.2.1 kb.1.2.2 * 86400000) := by
    unfold compareAppointments
    simp only [dateValue, timeValue, hda, hdb, hclockA, hclockB, Option.map_some', jsSub]
    by_cases hz : dayNumber ka.1.1 ka.1.2.1 ka.1.2.2 = dayNumber kb.1.1 kb.1.2.1 kb.1.2.2
    · simp [hz]
    · have hne : dayNumber ka.1.1 ka.1.2.1 ka.1.2.2 * 86400000
          - dayNumber kb.1.1 kb.1.2.1 kb.1.2.2 * 86400000 ≠ 0 := by omega
      simp [hz, hne]
  unfold sortLE
  rw [hcmp]
  by_cases hz : dayNumber ka.1.1 ka.1.2.1 ka.1.2.2 = dayNumber kb.1.1 kb.1.2.1 kb.1.2.2
  · have hpq : ka.1 = kb.1 := heq.1 hz
    rw [if_pos hz]
    show ((base + (ka.2 : Int) * 60000) - (base + (kb.2 : Int) * 60000) ≤ 0) ↔ _
    rw [hpq] at hirr
    constructor
    · intro h
      right
      refine ⟨hpq, ?_⟩
      omega
    · rintro (h | ⟨_, h⟩)
      · rw [hpq] at h
        exact absurd h hirr
      · omega
  · rw [if_neg hz]
    show (dayNumber ka.1.1 ka.1.2.1 ka.1.2.2 * 86400000
        - dayNumber kb.1.1 kb.1.2.1 kb.1.2.2 * 86400000 ≤ 0) ↔ _
    constructor
    · intro h
      left
      apply hlt.1
      omega
    · rintro (h | ⟨h, _⟩)
      · have := hlt.2 h
        omega
      · exact absurd (heq.2 h) hz

theorem sortLE_total_of (dateParse : String → Option Int) (hread : ReadsClockTime dateParse)
    (a b : Appointment) (ha : (chronoKey a).isSome = true)
    (hb : (chronoKey b).isSome = true) : sortLE dateParse a b ∨ sortLE dateParse b a := by
  obtain ⟨ka, hka⟩ := Option.isSome_iff_exists.1 ha
  obtain ⟨kb, hkb⟩ := Option.isSome_iff_exists.1 hb
  rw [sortLE_iff dateParse hread a b ka kb hka hkb, sortLE_iff dateParse hread b a kb ka hkb hka]
  rcases dateLt_trichotomy ka.1 kb.1 with h | h | h
  · exact Or.inl (Or.inl h)
  · rcases Nat.le_total ka.2 kb.2 with ht | ht
    · exact Or.inl (Or.inr ⟨h, ht⟩)
    · exact Or.inr (Or.inr ⟨h.symm, ht⟩)
  · exact Or.inr (Or.inl h)

theorem dateLt_trans (p q r : Nat × Nat × Nat) (h1 : dateLt p q) (h2 : dateLt q r) :
    dateLt p r := by
  obtain ⟨y, m, d⟩ := p
  obtain ⟨z, n, e⟩ := q
  obtain ⟨w, o, f⟩ := r
  simp only [dateLt] at *
  omega

theorem sortLE_trans_of (dateParse : String → Option Int) (hread : ReadsClockTime dateParse)
    (a b c : Appointment) (ha : (chronoKey a).isSome = true)
    (hb : (chronoKey b).isSome = true) (hc : (chronoKey c).isSome = true)
    (hab : sortLE dateParse a b) (hbc : sortLE dateParse b c) : sortLE dateParse a c := by
  obtain ⟨ka, hka⟩ := Option.isSome_iff_exists.1 ha
  obtain ⟨kb, hkb⟩ := Option.isSome_iff_exists.1 hb
  obtain ⟨kc, hkc⟩ := Option.isSome_iff_exists.1 hc
  rw [sortLE_iff dateParse hread a b ka kb hka hkb] at hab
  rw [sortLE_iff dateParse hread b c kb kc hkb hkc] at hbc
  rw [sortLE_iff dateParse hread a c ka kc hka hkc]
  rcases hab with h1 | ⟨h1, t1⟩
  · rcases hbc with h2 | ⟨h2, _⟩
    · exact Or.inl (dateLt_trans _ _ _ h1 h2)
    · rw [← h2]; exact Or.inl h1
  · rcases hbc with h2 | ⟨h2, t2⟩
    · rw [h1]; exact Or.inl h2
    · exact Or.inr ⟨h1.trans h2, le_trans t1 t2⟩

theorem chronoLE_of_sortLE (dateParse : String → Option Int) (hread : ReadsClockTime dateParse)
    (a b : Appointment) (ha : (chronoKey a).isSome = true)
    (hb : (chronoKey b).isSome = true) (h : sortLE dateParse a b) : chronoLE a b := by
  obtain ⟨ka, hka⟩ := Option.isSome_iff_exists.1 ha
  obtain ⟨kb, hkb⟩ := Option.isSome_iff_exists.1 hb
  rw [sortLE_iff dateParse hread a b ka kb hka hkb] at h
  unfold chronoLE
  simp only [hka, hkb]
  exact h

/-- On a collection of well-formed records, and with an engine that reads the time
strings as clock times, the sort of `addAppointment` returns a list in chronological
order. -/
theorem sortAppointments_chrono (dateParse : String → Option Int)
    (hread : ReadsClockTime dateParse) (l : List Appointment)
    (hl : ∀ a ∈ l, (chronoKey a).isSome = true) :
    (sortAppointments dateParse l).Pairwise chronoLE := by
  have hs := pairwise_insertionSort_of (sortLE dateParse)
    (fun a => (chronoKey a).isSome = true)
    (sortLE_total_of dateParse hread) (sortLE_trans_of dateParse hread) l hl
  refine List.Pairwise.imp_of_mem ?_ hs
  intro a b ha hb hab
  exact chronoLE_of_sortLE dateParse hread a b
    (hl a ((List.mem_insertionSort (sortLE dateParse)).1 ha))
    (hl b ((List.mem_insertionSort (sortLE dateParse)).1 hb)) hab

theorem chronoKey_newAppointment (now : Nat) (rand36 : String) (d : AppointmentData)
    (h : WellFormedData d) : (chronoKey (newAppointment now rand36 d)).isSome = true := by
  obtain ⟨h1, h2⟩ := h
  obtain ⟨p, hp⟩ := Option.isSome_iff_exists.1 h1
  obtain ⟨t, ht⟩ := Option.isSome_iff_exists.1 h2
  simp [chronoKey, newAppointment, hp, ht]

theorem mem_addAppointment (dateParse : String → Option Int) (now : Nat) (rand36 : String)
    (d : AppointmentData) (prev : List Appointment) (x : Appointment) :
    x ∈ (addAppointment dateParse now rand36 d prev).2
      ↔ x ∈ prev ∨ x = newAppointment now rand36 d := by
  simp [addAppointment, sortAppointments]

theorem addAppointments_chrono (dateParse : String → Option Int)
    (hread : ReadsClockTime dateParse) (calls : List AddCall) (init : List Appointment)
    (hinit : ∀ a ∈ init, (chronoKey a).isSome = true)
    (hsorted : init.Pairwise chronoLE)
    (hcalls : ∀ c ∈ calls, WellFormedData c.data) :
    (addAppointments dateParse calls init).Pairwise chronoLE := by
  induction calls generalizing init with
  | nil => simpa [addAppointments] using hsorted
  | cons c cs ih =>
    have hc := hcalls c (List.mem_cons_self _ _)
    have hcs : ∀ c1 ∈ cs, WellFormedData c1.data :=
      fun c1 h1 => hcalls c1 (List.mem_cons_of_mem _ h1)
    have hmem : ∀ a ∈ init ++ [newAppointment c.now c.rand36 c.data],
        (chronoKey a).isSome = true := by
      intro a ha
      rcases List.mem_append.1 ha with h | h
      · exact hinit a h
      · rw [List.mem_singleton.1 h]; exact chronoKey_newAppointment _ _ _ hc
    have hstep : ∀ a ∈ (addAppointment dateParse c.now c.rand36 c.data init).2,
        (chronoKey a).isSome = true := by
      intro a ha
      rcases (mem_addAppointment _ _ _ _ _ _).1 ha with h | h
      · exact hinit a h
      · rw [h]; exact chronoKey_newAppointment _ _ _ hc
    exact ih _ hstep (sortAppointments_chrono dateParse hread _ hmem) hcs

theorem initialAppointments_chronoKey :
    ∀ a ∈ initialAppointments, (chronoKey a).isSome = true := by
  decide

theorem initialAppointments_chrono : initialAppointments.Pairwise chronoLE := by
  decide

/-- The order of the collection depends on the engine's reading of the time strings. On
an engine that rejects them both time values are `NaN`, the comparator returns `NaN` for two
records of one day, and the 08:00 AM record of `earlyCall` stays where it was appended:
after the 11:15 AM record of its day. On an engine that reads them it goes first. -/
theorem addAppointment_engine_reading :
    WellFormedData earlyCall.data ∧
    ((addAppointment strictDateParse earlyCall.now earlyCall.rand36 earlyCall.data
        initialAppointments).2.map (fun a => (a.date, a.time))).take 4
      = [("2025-08-08", "09:00 AM"), ("2025-08-08", "10:30 AM"), ("2025-08-08", "11:15 AM"),
         ("2025-08-08", "08:00 AM")] ∧
    ¬ (addAppointment strictDateParse earlyCall.now earlyCall.rand36 earlyCall.data
        initialAppointments).2.Pairwise chronoLE ∧
    ((addAppointment (clockDateParse 19800000) earlyCall.now earlyCall.rand36 earlyCall.data
        initialAppointments).2.map (fun a => (a.date, a.time))).take 4
      = [("2025-08-08", "08:00 AM"), ("2025-08-08", "09:00 AM"), ("2025-08-08", "10:30 AM"),
         ("2025-08-08", "11:15 AM")] := by
  decide

/-! ## Ids -/

theorem digitChar_inj : ∀ a, a < 10 → ∀ b, b < 10 → Nat.digitChar a = Nat.digitChar b → a = b := by
  decide

theorem numberToString_data (n : Nat) (hn : n ≠ 0) :
    (numberToString n).data = (Nat.digits 10 n).reverse.map Nat.digitChar := by
  simp [numberToString, hn]

theorem numberToString_length (n : Nat) (h1 : 10 ^ 12 ≤ n) (h2 : n < 10 ^ 13) :
    (numberToString n).data.length = 13 := by
  have hn : n ≠ 0 := by omega
  rw [numberToString_data n hn]
  simp only [List.length_map, List.length_reverse]
  have hlt := Nat.lt_base_pow_length_digits (b := 10) (m := n) (by norm_num)
  have hle := Nat.base_pow_length_digits_le 10 n (by norm_num) hn
  have h3 : 12 < (Nat.digits 10 n).length := by
    by_contra hc
    have : 10 ^ (Nat.digits 10 n).length ≤ 10 ^ 12 :=
      Nat.pow_le_pow_right (by norm_num) (by omega)
    omega
  have h4 : (Nat.digits 10 n).length < 14 := by
    by_contra hc
    have : 10 ^ 14 ≤ 10 ^ (Nat.digits 10 n).length :=
      Nat.pow_le_pow_right (by norm_num) (by omega)
    omega
  omega

theorem numberToString_inj (m n : Nat) (hm : m ≠ 0) (hn : n ≠ 0)
    (h : numberToString m = numberToString n) : m = n := by
  have hd : (numberToString m).data = (numberToString n).data := by rw [h]
  rw [numberToString_data m hm, numberToString_data n hn] at hd
  have hinj : ∀ (l1 l2 : List Nat), (∀ x ∈ l1, x < 10) → (∀ x ∈ l2, x < 10) →
      l1.map Nat.digitChar = l2.map Nat.digitChar → l1 = l2 := by
    intro l1
    induction l1 with
    | nil => intro l2 _ _ h; cases l2 with
      | nil => rfl
      | cons b l2 => simp at h
    | cons a l1 ih => intro l2 h1 h2 h; cases l2 with
      | nil => simp at h
      | cons b l2 =>
        simp only [List.map_cons, List.cons.injEq] at h
        have hab := digitChar_inj a (h1 a (List.mem_cons_self _ _)) b
          (h2 b (List.mem_cons_self _ _)) h.1
        rw [hab, ih l2 (fun x hx => h1 x (List.mem_cons_of_mem _ hx))
          (fun x hx => h2 x (List.mem_cons_of_mem _ hx)) h.2]
  have hrev := hinj _ _ (fun x hx => Nat.digits_lt_base (by norm_num) (List.mem_reverse.1 hx))
    (fun x hx => Nat.digits_lt_base (by norm_num) (List.mem_reverse.1 hx)) hd
  exact Nat.digits.injective 10 (List.reverse_injective hrev)

theorem generateId_inj (m n : Nat) (r s : String)
    (hm1 : 10 ^ 12 ≤ m) (hm2 : m < 10 ^ 13) (hn1 : 10 ^ 12 ≤ n) (hn2 : n < 10 ^ 13)
    (h : generateId m r = generateId n s) : m = n ∧ substr2_9 r = substr2_9 s := by
  have hd : (generateId m r).data = (generateId n s).data := by rw [h]
  simp only [generateId, String.data_append] at hd
  have hlen : (numberToString m).data.length = (numberToString n).data.length := by
    rw [numberToString_length m hm1 hm2, numberToString_length n hn1 hn2]
  obtain ⟨h1, h2⟩ := List.append_inj hd hlen
  refine ⟨numberToString_inj m n (by omega) (by omega) (String.ext h1), String.ext h2⟩

theorem generateId_length (n : Nat) (r : String) (h1 : 10 ^ 12 ≤ n) (h2 : n < 10 ^ 13) :
    13 ≤ (generateId n r).data.length := by
  simp only [generateId, String.data_append, List.length_append]
  have := numberToString_length n h1 h2
  omega

theorem ids_addAppointment (dateParse : String → Option Int) (now : Nat) (rand36 : String)
    (d : AppointmentData) (prev : List Appointment) :
    ((addAppointment dateParse now rand36 d prev).2.map (fun a => a.id)).Perm
      (prev.map (fun a => a.id) ++ [generateId now rand36]) := by
  have h := (List.perm_insertionSort (sortLE dateParse)
    (prev ++ [newAppointment now rand36 d])).map (fun a => a.id)
  simpa [addAppointment, sortAppointments, newAppointment] using h

theorem ids_addAppointments (dateParse : String → Option Int) (calls : List AddCall)
    (init : List Appointment) :
    ((addAppointments dateParse calls init).map (fun a => a.id)).Perm
      (init.map (fun a => a.id) ++ returnedIds calls) := by
  induction calls generalizing init with
  | nil => simp [addAppointments, returnedIds]
  | cons c cs ih =>
    have h1 := ih (addAppointment dateParse c.now c.rand36 c.data init).2
    have h2 := (ids_addAppointment dateParse c.now c.rand36 c.data init).append_right
      (returnedIds cs)
    have h3 := h1.trans h2
    simpa [addAppointments, returnedIds] using h3


theorem returnedIds_nodup (calls : List AddCall)
    (hrange : ∀ c ∈ calls, 10 ^ 12 ≤ c.now ∧ c.now < 10 ^ 13)
    (hpairs : (calls.map (fun c => (c.now, substr2_9 c.rand36))).Nodup) :
    (returnedIds calls).Nodup := by
  have hcalls : calls.Nodup := List.Nodup.of_map _ hpairs
  unfold returnedIds
  refine List.Nodup.map_on ?_ hcalls
  intro x hx y hy hxy
  obtain ⟨h1, h2⟩ := generateId_inj x.now y.now x.rand36 y.rand36 (hrange x hx).1 (hrange x hx).2
    (hrange y hy).1 (hrange y hy).2 hxy
  exact List.inj_on_of_nodup_map hpairs hx hy (by simp [h1, h2])

theorem returnedIds_not_seed (calls : List AddCall)
    (hrange : ∀ c ∈ calls, 10 ^ 12 ≤ c.now ∧ c.now < 10 ^ 13) :
    ∀ i ∈ returnedIds calls, i ∉ initialAppointments.map (fun a => a.id) := by
  intro i hi hseed
  obtain ⟨c, hc, rfl⟩ := List.mem_map.1 hi
  have hlen := generateId_length c.now c.rand36 (hrange c hc).1 (hrange c hc).2
  have hshort : ∀ j ∈ initialAppointments.map (fun a => a.id), j.data.length = 1 := by
    decide
  have := hshort _ hseed
  omega


/-! ## Deleting from a collection with unique ids -/

theorem length_filter_ne_of_nodup (appointmentId : String) (l : List Appointment)
    (hnd : (l.map (fun a => a.id)).Nodup) (hmem : appointmentId ∈ l.map (fun a => a.id)) :
    (l.filter (fun apt => decide (apt.id ≠ appointmentId))).length + 1 = l.length := by
  induction l with
  | nil => simp at hmem
  | cons b l ih =>
    simp only [List.map_cons, List.nodup_cons] at hnd
    by_cases hb : b.id = appointmentId
    · have hall : ∀ a ∈ l, a.id ≠ appointmentId := by
        intro a ha h
        apply hnd.1
        rw [hb, ← h]
        exact List.mem_map_of_mem _ ha
      have hfilter : l.filter (fun apt => decide (apt.id ≠ appointmentId)) = l := by
        rw [List.filter_eq_self]
        intro a ha
        simp [hall a ha]
      rw [List.filter_cons_of_neg (by simp [hb]), hfilter]
      simp
    · have hm : appointmentId ∈ l.map (fun a => a.id) := by
        simp only [List.map_cons, List.mem_cons] at hmem
        rcases hmem with h | h
        · exact absurd h.symm hb
        · exact h
      have := ih hnd.2 hm
      rw [List.filter_cons_of_pos (by simp [hb])]
      simp only [List.length_cons]
      omega


/-! ## Objects as association lists -/

theorem objGet_objSet_same {α : Type} (o : JsObject α) (k : String) (v : α) :
    objGet (objSet o k v) k = some v := by
  induction o with
  | nil => simp [objSet, objGet]
  | cons p o ih =>
    obtain ⟨k1, v1⟩ := p
    by_cases h : k1 = k
    · simp [objSet, objGet, h]
    · simp [objSet, objGet, h, ih]

theorem objGet_objSet_ne {α : Type} (o : JsObject α) (k d : String) (v : α) (hd : d ≠ k) :
    objGet (objSet o k v) d = objGet o d := by
  induction o with
  | nil => simp [objSet, objGet, Ne.symm hd]
  | cons p o ih =>
    obtain ⟨k1, v1⟩ := p
    by_cases h : k1 = k
    · have h1 : ¬ k1 = d := fun e => hd (e ▸ h)
      simp [objSet, objGet, h, h1, Ne.symm hd]
    · by_cases h2 : k1 = d
      · subst h2
        simp [objSet, objGet, h]
      · simp [objSet, objGet, h, h2, ih]

theorem mem_objKeys_iff {α : Type} (o : JsObject α) (d : String) :
    d ∈ objKeys o ↔ (objGet o d).isSome = true := by
  induction o with
  | nil => simp [objKeys, objGet]
  | cons p o ih =>
    obtain ⟨k1, v1⟩ := p
    by_cases h : k1 = d
    · simp [objKeys, objGet, h]
    · have h' : ¬ d = k1 := fun e => h e.symm
      simp only [objKeys, List.map_cons, List.mem_cons, h', false_or, objGet, h, if_false]
      exact ih

theorem objKeys_objSet {α : Type} (o : JsObject α) (k : String) (v : α) :
    objKeys (objSet o k v) = if k ∈ objKeys o then objKeys o else objKeys o ++ [k] := by
  induction o with
  | nil => simp [objSet, objKeys]
  | cons p o ih =>
    obtain ⟨k1, v1⟩ := p
    by_cases h : k1 = k
    · simp [objSet, objKeys, h]
    · have h' : ¬ k = k1 := fun e => h e.symm
      have ih' : List.map Prod.fst (objSet o k v) =
          if k ∈ List.map Prod.fst o then List.map Prod.fst o else List.map Prod.fst o ++ [k] := ih
      simp only [objSet, h, if_false, objKeys, List.map_cons, List.mem_cons, h', false_or, ih']
      split_ifs <;> simp

theorem objKeys_objSet_nodup {α : Type} (o : JsObject α) (k : String) (v : α)
    (h : (objKeys o).Nodup) : (objKeys (objSet o k v)).Nodup := by
  rw [objKeys_objSet]
  split_ifs with hk
  · exact h
  · rw [List.nodup_append]
    refine ⟨h, List.nodup_singleton k, ?_⟩
    intro a ha hk'
    rw [List.mem_singleton] at hk'
    exact hk (hk' ▸ ha)

/-! ## The grouping pass of `updateCalendarData` -/

theorem objGet_groupStepOwn (acc : JsObject (List Appointment)) (apt : Appointment) (d : String) :
    objGet (groupStepOwn acc apt) d =
      if d = apt.date then some ((objGet acc d).getD [] ++ [apt]) else objGet acc d := by
  unfold groupStepOwn
  by_cases hd : d = apt.date
  · subst hd
    simp only [if_true, objGet_objSet_same]
    cases hg : objGet acc apt.date with
    | none => simp [objGet_objSet_same]
    | some arr => simp [hg]
  · simp only [hd, if_false]
    rw [objGet_objSet_ne _ _ _ _ hd]
    split_ifs
    · rw [objGet_objSet_ne _ _ _ _ hd]
    · rfl

theorem objGet_foldl_groupStepOwn (l : List Appointment) (acc : JsObject (List Appointment))
    (d : String) :
    objGet (l.foldl groupStepOwn acc) d =
      if (objGet acc d).isSome = true ∨ d ∈ l.map (fun a => a.date) then
        some ((objGet acc d).getD [] ++ l.filter (fun a => decide (a.date = d)))
      else none := by
  induction l generalizing acc with
  | nil =>
    cases h : objGet acc d <;> simp [h]
  | cons a l ih =>
    simp only [List.foldl_cons]
    rw [ih, objGet_groupStepOwn]
    by_cases hd : d = a.date
    · subst hd
      simp
    · have hd' : ¬ a.date = d := fun e => hd e.symm
      simp [hd, hd']

theorem objGet_appointmentsByDateOwn (l : List Appointment) (d : String) :
    objGet (appointmentsByDateOwn l) d =
      if d ∈ l.map (fun a => a.date) then some (l.filter (fun a => decide (a.date = d)))
      else none := by
  unfold appointmentsByDateOwn
  rw [objGet_foldl_groupStepOwn]
  simp [objGet]

/-! ## The indexing pass -/

theorem objGet_foldl_objSet {α : Type} (f : String → α) (ks : List String) (o : JsObject α)
    (d : String) :
    objGet (ks.foldl (fun acc k => objSet acc k (f k)) o) d =
      if d ∈ ks then some (f d) else objGet o d := by
  induction ks generalizing o with
  | nil => simp
  | cons k ks ih =>
    simp only [List.foldl_cons]
    rw [ih]
    by_cases hmem : d ∈ ks
    · simp [hmem]
    · by_cases hk : d = k
      · subst hk
        simp [hmem, objGet_objSet_same]
      · simp [hmem, hk, objGet_objSet_ne _ _ _ _ hk]

theorem objKeys_foldl_objSet_nodup {α : Type} (f : String → α) (ks : List String)
    (o : JsObject α) (h : (objKeys o).Nodup) :
    (objKeys (ks.foldl (fun acc k => objSet acc k (f k)) o)).Nodup := by
  induction ks generalizing o with
  | nil => exact h
  | cons k ks ih =>
    simp only [List.foldl_cons]
    exact ih _ (objKeys_objSet_nodup _ _ _ h)

theorem objGet_updateCalendarData (l : List Appointment) (d : String) :
    objGet (updateCalendarData l) d =
      if d ∈ l.map (fun a => a.date) then
        some { marked := true
               dotColor := getDotColorForCount (l.filter (fun a => decide (a.date = d))).length
               appointmentCount := (l.filter (fun a => decide (a.date = d))).length }
      else none := by
  unfold updateCalendarData
  simp only []
  rw [objGet_foldl_objSet (fun date =>
    ({ marked := true
       dotColor := getDotColorForCount ((objGet (appointmentsByDateOwn l) date).getD []).length
       appointmentCount := ((objGet (appointmentsByDateOwn l) date).getD []).length } :
      CalendarEntry))]
  have hk : d ∈ objKeys (appointmentsByDateOwn l) ↔ d ∈ l.map (fun a => a.date) := by
    rw [mem_objKeys_iff, objGet_appointmentsByDateOwn]
    split_ifs with h <;> simp [h]
  by_cases hd : d ∈ l.map (fun a => a.date)
  · rw [if_pos (hk.2 hd), if_pos hd, objGet_appointmentsByDateOwn, if_pos hd]
    rfl
  · rw [if_neg (fun h => hd (hk.1 h)), if_neg hd]
    rfl


/-! ## The store invariant -/

theorem step_settled (dateParse : String → Option Int) (s : Store) (a : Action)
    (h : s.effectPending = false → s.calendarData = updateCalendarData s.allAppointments) :
    (step dateParse s a).effectPending = false →
      (step dateParse s a).calendarData
        = updateCalendarData (step dateParse s a).allAppointments := by
  cases a with
  | add now rand36 data => intro hp; simp [step] at hp
  | updateStatus i st => intro hp; simp [step] at hp
  | addNote i n => intro hp; simp [step] at hp
  | delete i => intro hp; simp [step] at hp
  | recompute => intro _; simp [step]
  | runEffect =>
    intro hp
    cases hs : s.effectPending with
    | true => simp [step, hs]
    | false =>
      simp only [step, hs] at hp ⊢
      exact h hs

theorem foldl_step_settled (dateParse : String → Option Int) (actions : List Action)
    (s : Store)
    (h : s.effectPending = false → s.calendarData = updateCalendarData s.allAppointments) :
    (actions.foldl (step dateParse) s).effectPending = false →
      (actions.foldl (step dateParse) s).calendarData
        = updateCalendarData (actions.foldl (step dateParse) s).allAppointments := by
  induction actions generalizing s with
  | nil => exact h
  | cons a rest ih =>
    simp only [List.foldl_cons]
    exact ih (step dateParse s a) (step_settled dateParse s a h)

/-! ## Code units -/

theorem char_toNat_valid (c : Char) : c.toNat < 55296 ∨ (57343 < c.toNat ∧ c.toNat < 1114112) :=
  c.valid

theorem char_toNat_inj (c d : Char) (h : c.toNat = d.toNat) : c = d := by
  rw [← Char.ofNat_toNat c, ← Char.ofNat_toNat d, h]

theorem utf16Units_ne_nil (c : Char) : utf16Units c ≠ [] := by
  unfold utf16Units
  split_ifs <;> simp

theorem utf16_inj (cs ds : List Char) (h : utf16 cs = utf16 ds) : cs = ds := by
  induction cs generalizing ds with
  | nil =>
    cases ds with
    | nil => rfl
    | cons d ds =>
      have hd := utf16Units_ne_nil d
      simp only [utf16] at h
      cases hu : utf16Units d with
      | nil => exact absurd hu hd
      | cons u us => rw [hu] at h; simp at h
  | cons c cs ih =>
    cases ds with
    | nil =>
      have hc := utf16Units_ne_nil c
      simp only [utf16] at h
      cases hu : utf16Units c with
      | nil => exact absurd hu hc
      | cons u us => rw [hu] at h; simp at h
    | cons d ds =>
      have hvc := char_toNat_valid c
      have hvd := char_toNat_valid d
      simp only [utf16, utf16Units] at h
      by_cases hc : c.toNat < 65536 <;> by_cases hd : d.toNat < 65536
      · simp only [hc, hd, if_true, List.singleton_append, List.cons.injEq] at h
        rw [char_toNat_inj c d h.1, ih ds h.2]
      · simp only [hc, hd, if_true, if_false, List.singleton_append, List.cons_append,
          List.nil_append, List.cons.injEq] at h
        omega
      · simp only [hc, hd, if_true, if_false, List.singleton_append, List.cons_append,
          List.nil_append, List.cons.injEq] at h
        omega
      · simp only [hc, hd, if_false, List.cons_append, List.nil_append,
          List.cons.injEq] at h
        obtain ⟨h1, h2, h3⟩ := h
        have hcd : c.toNat = d.toNat := by omega
        rw [char_toNat_inj c d hcd, ih ds h3]

theorem codeUnitsLt_irrefl (a : List Nat) : codeUnitsLt a a = false := by
  induction a with
  | nil => rfl
  | cons x xs ih => simp [codeUnitsLt, ih]

theorem codeUnitsLt_asymm (a b : List Nat) (h : codeUnitsLt a b = true) :
    codeUnitsLt b a = false := by
  induction a generalizing b with
  | nil => cases b <;> simp [codeUnitsLt] at h ⊢
  | cons x xs ih =>
    cases b with
    | nil => simp [codeUnitsLt] at h
    | cons y ys =>
      simp only [codeUnitsLt, Bool.or_eq_true, Bool.and_eq_true, decide_eq_true_eq] at h
      rcases h with h | ⟨h1, h2⟩
      · have h3 : ¬ y < x := by omega
        have h4 : ¬ y = x := by omega
        simp [codeUnitsLt, h3, h4]
      · subst h1
        simp [codeUnitsLt, ih ys h2]

theorem codeUnitsLt_total (a b : List Nat) (h1 : codeUnitsLt a b = false)
    (h2 : codeUnitsLt b a = false) : a = b := by
  induction a generalizing b with
  | nil => cases b with
    | nil => rfl
    | cons y ys => simp [codeUnitsLt] at h1
  | cons x xs ih =>
    cases b with
    | nil => simp [codeUnitsLt] at h2
    | cons y ys =>
      simp only [codeUnitsLt, Bool.or_eq_false_iff, Bool.and_eq_false_iff,
        decide_eq_false_iff_not] at h1 h2
      have hxy : x = y := by omega
      subst hxy
      have t1 : codeUnitsLt xs ys = false := by
        rcases h1.2 with h | h
        · exact absurd rfl h
        · exact h
      have t2 : codeUnitsLt ys xs = false := by
        rcases h2.2 with h | h
        · exact absurd rfl h
        · exact h
      rw [ih ys t1 t2]

theorem jsStringLt_irrefl (s : String) : jsStringLt s s = false :=
  codeUnitsLt_irrefl _

theorem jsStringLt_asymm (s t : String) (h : jsStringLt s t = true) : jsStringLt t s = false :=
  codeUnitsLt_asymm _ _ h

theorem jsStringLt_total (s t : String) (h1 : jsStringLt s t = false)
    (h2 : jsStringLt t s = false) : s = t :=
  String.ext (utf16_inj _ _ (codeUnitsLt_total _ _ h1 h2))

/-- Exactly one of `d = t`, `t < d`, `d < t` holds between two strings. -/
theorem jsString_trichotomy (d t : String) :
    (d = t ∧ jsStringLt t d = false ∧ jsStringLt d t = false) ∨
    (d ≠ t ∧ jsStringLt t d = true ∧ jsStringLt d t = false) ∨
    (d ≠ t ∧ jsStringLt t d = false ∧ jsStringLt d t = true) := by
  by_cases h : d = t
  · subst h
    exact Or.inl ⟨rfl, jsStringLt_irrefl d, jsStringLt_irrefl d⟩
  · cases h1 : jsStringLt t d with
    | true => exact Or.inr (Or.inl ⟨h, rfl, jsStringLt_asymm t d h1⟩)
    | false =>
      cases h2 : jsStringLt d t with
      | true => exact Or.inr (Or.inr ⟨h, rfl, rfl⟩)
      | false => exact absurd (jsStringLt_total d t h2 h1) h


/-! ## Filters -/

theorem filter_lengths (today : String) (l : List Appointment) :
    (l.filter (fun apt => decide (apt.date = today))).length
      + (l.filter (fun apt => jsStringLt today apt.date)).length
      + (l.filter (fun apt => jsStringLt apt.date today)).length = l.length := by
  induction l with
  | nil => rfl
  | cons a l ih =>
    rcases jsString_trichotomy a.date today with ⟨h1, h2, h3⟩ | ⟨h1, h2, h3⟩ | ⟨h1, h2, h3⟩
    · simp only [List.filter_cons, h1, h2, h3, decide_True, if_true, List.length_cons]
      simp only [h1] at h2
      simp only [h2, Bool.false_eq_true, if_false]
      omega
    · simp only [List.filter_cons, h1, h2, h3, decide_False, if_true, List.length_cons,
        Bool.false_eq_true, if_false]
      omega
    · simp only [List.filter_cons, h1, h2, h3, decide_False, if_true, List.length_cons,
        Bool.false_eq_true, if_false]
      omega


/-! ## Sets of strings -/

theorem foldl_insert_spec (l : List String) (seen : List String) (h : seen.Nodup) :
    (l.foldl (fun seen v => if v ∈ seen then seen else seen ++ [v]) seen).Nodup ∧
    ∀ x, x ∈ l.foldl (fun seen v => if v ∈ seen then seen else seen ++ [v]) seen ↔
      x ∈ seen ∨ x ∈ l := by
  induction l generalizing seen with
  | nil => simp [h]
  | cons v l ih =>
    simp only [List.foldl_cons]
    by_cases hv : v ∈ seen
    · simp only [hv, if_true]
      obtain ⟨h1, h2⟩ := ih seen h
      refine ⟨h1, ?_⟩
      intro x
      rw [h2, List.mem_cons]
      constructor
      · rintro (hx | hx)
        · exact Or.inl hx
        · exact Or.inr (Or.inr hx)
      · rintro (hx | hx | hx)
        · exact Or.inl hx
        · exact Or.inl (hx ▸ hv)
        · exact Or.inr hx
    · simp only [hv, if_false]
      have hnd : (seen ++ [v]).Nodup := by
        rw [List.nodup_append]
        refine ⟨h, List.nodup_singleton v, ?_⟩
        intro a ha hav
        rw [List.mem_singleton] at hav
        exact hv (hav ▸ ha)
      obtain ⟨h1, h2⟩ := ih (seen ++ [v]) hnd
      refine ⟨h1, ?_⟩
      intro x
      rw [h2, List.mem_append, List.mem_singleton, List.mem_cons]
      constructor
      · rintro ((hx | hx) | hx)
        · exact Or.inl hx
        · exact Or.inr (Or.inl hx)
        · exact Or.inr (Or.inr hx)
      · rintro (hx | hx | hx)
        · exact Or.inl (Or.inl hx)
        · exact Or.inl (Or.inr hx)
        · exact Or.inr hx

theorem jsSet_length (l : List String) : (jsSet l).length = l.toFinset.card := by
  obtain ⟨h1, h2⟩ := foldl_insert_spec l [] List.nodup_nil
  have hset : (jsSet l).toFinset = l.toFinset := by
    ext x
    simp only [List.mem_toFinset]
    unfold jsSet
    rw [h2]
    simp
  rw [← hset]
  exact (List.toFinset_card_of_nodup h1).symm


/-! ## Counting by status -/

theorem status_counts (l : List Appointment)
    (h : ∀ a ∈ l, a.status = "completed" ∨ a.status = "pending" ∨ a.status = "confirmed" ∨
      a.status = "cancelled") :
    (l.filter (fun apt => decide (apt.status = "completed"))).length
      + (l.filter (fun apt => decide (apt.status = "pending"))).length
      + (l.filter (fun apt => decide (apt.status = "confirmed"))).length
      + (l.filter (fun apt => decide (apt.status = "cancelled"))).length = l.length := by
  induction l with
  | nil => rfl
  | cons a l ih =>
    have hl := ih (fun x hx => h x (List.mem_cons_of_mem _ hx))
    rcases h a (List.mem_cons_self _ _) with hs | hs | hs | hs <;>
      simp [List.filter_cons, hs] <;> omega


/-! ## Lengths -/

theorem isDigitChar_toNat (c : Char) (h : isDigitChar c = true) : c.toNat < 65536 := by
  unfold isDigitChar digitVal at h
  split_ifs at h with h0 h1 h2 h3 h4 h5 h6 h7 h8 h9
  all_goals first
    | (subst_vars; decide)
    | simp at h

theorem utf16_length_digits (cs : List Char) (h : ∀ c ∈ cs, isDigitChar c = true) :
    (utf16 cs).length = cs.length := by
  induction cs with
  | nil => rfl
  | cons c cs ih =>
    have hc := isDigitChar_toNat c (h c (List.mem_cons_self _ _))
    simp [utf16, utf16Units, hc, ih (fun x hx => h x (List.mem_cons_of_mem _ hx))]

theorem jsLength_eq_zero (s : String) : jsLength s = 0 ↔ s = "" := by
  constructor
  · intro h
    apply String.ext
    cases hd : s.data with
    | nil => rfl
    | cons c cs =>
      unfold jsLength at h
      rw [hd] at h
      simp only [utf16, List.length_append] at h
      have := utf16Units_ne_nil c
      have hl : (utf16Units c).length = 0 := by omega
      exact absurd (List.length_eq_zero.1 hl) this
  · intro h
    subst h
    rfl

theorem jsTrim_of_whitespace (s : String) (h : ∀ c ∈ s.data, isJsWhiteSpace c = true) :
    jsTrim s = "" := by
  unfold jsTrim
  have : s.data.dropWhile isJsWhiteSpace = [] := by
    rw [List.dropWhile_eq_nil_iff]
    exact h
  rw [this]
  rfl

/-! ## The contact rule -/

theorem matchesMobilePattern_iff (cs : List Char) (hall : ∀ c ∈ cs, isDigitChar c = true)
    (hlen : cs.length = 10) :
    matchesMobilePattern (String.mk cs) = true ↔
      ∃ c rest, cs = c :: rest ∧ (c = '6' ∨ c = '7' ∨ c = '8' ∨ c = '9') := by
  rcases cs with _ | ⟨c0, _ | ⟨c1, _ | ⟨c2, _ | ⟨c3, _ | ⟨c4, _ | ⟨c5, _ | ⟨c6, _ | ⟨c7,
    _ | ⟨c8, _ | ⟨c9, _ | ⟨c10, r⟩⟩⟩⟩⟩⟩⟩⟩⟩⟩⟩ <;> simp at hlen
  have h1 := hall c1 (by simp)
  have h2 := hall c2 (by simp)
  have h3 := hall c3 (by simp)
  have h4 := hall c4 (by simp)
  have h5 := hall c5 (by simp)
  have h6 := hall c6 (by simp)
  have h7 := hall c7 (by simp)
  have h8 := hall c8 (by simp)
  have h9 := hall c9 (by simp)
  simp [matchesMobilePattern, h1, h2, h3, h4, h5, h6, h7, h8, h9, or_assoc]


/-! ## The booking form -/

theorem validateForm_errors (formData : FormData) (env : SubmitEnv) :
    objGet (validateForm formData env).1 "patientName"
      = validatePatientName formData.patientName ∧
    objGet (validateForm formData env).1 "contact"
      = validateContactNumber formData.contact ∧
    objGet (validateForm formData env).1 "issue" = validateIssue formData.issue ∧
    objGet (validateForm formData env).1 "date"
      = (if formData.date < localMidnight env.validateNow env.offsetMs
          then some "Please select a future date" else none) ∧
    (∀ k ∈ objKeys (validateForm formData env).1,
      k = "patientName" ∨ k = "contact" ∨ k = "issue" ∨ k = "date") := by
  unfold validateForm
  cases validatePatientName formData.patientName <;>
    cases validateContactNumber formData.contact <;>
    cases validateIssue formData.issue <;>
    by_cases hd : formData.date < localMidnight env.validateNow env.offsetMs <;>
    simp [hd, objSet, objGet, objKeys]

theorem validateForm_result (formData : FormData) (env : SubmitEnv) :
    ((validateForm formData env).2 = true ↔ (validateForm formData env).1 = []) ∧
    ((validateForm formData env).2 = true ↔
      validatePatientName formData.patientName = none ∧
      validateContactNumber formData.contact = none ∧
      validateIssue formData.issue = none ∧
      ¬ formData.date < localMidnight env.validateNow env.offsetMs) := by
  unfold validateForm
  cases validatePatientName formData.patientName <;>
    cases validateContactNumber formData.contact <;>
    cases validateIssue formData.issue <;>
    by_cases hd : formData.date < localMidnight env.validateNow env.offsetMs <;>
    simp [hd, objSet, objKeys]

theorem validateContactNumber_eq_none_iff (contact : String) :
    validateContactNumber contact = none ↔
      (contact.data.filter isDigitChar).length = 10 ∧
      ∃ c rest, contact.data.filter isDigitChar = c :: rest ∧
        (c = '6' ∨ c = '7' ∨ c = '8' ∨ c = '9') := by
  have hall : ∀ c ∈ contact.data.filter isDigitChar, isDigitChar c = true :=
    fun c hc => (List.mem_filter.1 hc).2
  have hlen : jsLength (String.mk (contact.data.filter isDigitChar))
      = (contact.data.filter isDigitChar).length := utf16_length_digits _ hall
  unfold validateContactNumber
  simp only [hlen]
  by_cases h0 : (contact.data.filter isDigitChar).length = 0
  · simp [h0]
  · by_cases h10 : (contact.data.filter isDigitChar).length = 10
    · have hm := matchesMobilePattern_iff _ hall h10
      simp only [h10, if_false, ne_eq, not_true_eq_false, true_and]
      rw [← hm]
      cases matchesMobilePattern (String.mk (contact.data.filter isDigitChar)) <;> simp
    · simp [h0, h10]

theorem updateContact_accepted (value : String)
    (h : validateContactNumber (updateContact value) = none) :
    (updateContact value).data.length = 10 ∧
    (∀ c ∈ (updateContact value).data, isDigitChar c = true) ∧
    ∃ c rest, (updateContact value).data = c :: rest ∧
      (c = '6' ∨ c = '7' ∨ c = '8' ∨ c = '9') := by
  have hall : ∀ c ∈ (updateContact value).data, isDigitChar c = true := by
    intro c hc
    exact (List.mem_filter.1 (List.mem_of_mem_take hc)).2
  have hfilter : (updateContact value).data.filter isDigitChar = (updateContact value).data :=
    List.filter_eq_self.2 hall
  have h2 := (validateContactNumber_eq_none_iff (updateContact value)).1 h
  rw [hfilter] at h2
  exact ⟨h2.1, hall, h2.2⟩

/-! ## Slots and conflicts -/

theorem mem_getAvailableTimeSlots (date slot : String) (all : List Appointment) :
    slot ∈ getAvailableTimeSlots date all ↔
      slot ∈ allTimeSlots ∧
        ¬ ∃ a ∈ all, a.date = date ∧ a.status ≠ "cancelled" ∧ a.time = slot := by
  simp only [getAvailableTimeSlots, List.mem_filter, Bool.not_eq_true', decide_eq_false_iff_not,
    List.mem_map, Bool.and_eq_true, decide_eq_true_eq]
  constructor
  · rintro ⟨h1, h2⟩
    refine ⟨h1, ?_⟩
    rintro ⟨a, ha, hd, hs, ht⟩
    exact h2 ⟨a, ⟨ha, hd, hs⟩, ht⟩
  · rintro ⟨h1, h2⟩
    refine ⟨h1, ?_⟩
    rintro ⟨a, ⟨ha, hd, hs⟩, ht⟩
    exact h2 ⟨a, ha, hd, hs, ht⟩

theorem checkAppointmentConflict_eq_true (date time : String) (excludeId : Option String)
    (all : List Appointment) :
    checkAppointmentConflict date time excludeId all = true ↔
      ∃ a ∈ all, a.date = date ∧ a.time = time ∧ some a.id ≠ excludeId ∧
        a.status ≠ "cancelled" := by
  simp only [checkAppointmentConflict, List.any_eq_true, Bool.and_eq_true, decide_eq_true_eq]
  constructor
  · rintro ⟨a, ha, ⟨⟨⟨h1, h2⟩, h3⟩, h4⟩⟩
    exact ⟨a, ha, h1, h2, h3, h4⟩
  · rintro ⟨a, ha, h1, h2, h3, h4⟩
    exact ⟨a, ha, ⟨⟨⟨h1, h2⟩, h3⟩, h4⟩⟩

/-! ## Date keys as strings -/

theorem digitVal_eq_some (c : Char) (a : Nat) (h : digitVal c = some a) :
    c.toNat = a + 48 ∧ a < 10 := by
  unfold digitVal at h
  split_ifs at h with h0 h1 h2 h3 h4 h5 h6 h7 h8 h9 <;>
    simp only [Option.some.injEq, reduceCtorEq] at h <;> subst_vars <;> decide

theorem readDateKey_eq_some (s : String) (p : Nat × Nat × Nat) (h : readDateKey s = some p) :
    ∃ a b c d e f g i : Nat,
      utf16 s.data = [a + 48, b + 48, c + 48, d + 48, 45, e + 48, f + 48, 45, g + 48, i + 48] ∧
      a < 10 ∧ b < 10 ∧ c < 10 ∧ d < 10 ∧ e < 10 ∧ f < 10 ∧ g < 10 ∧ i < 10 ∧
      p = (1000 * a + 100 * b + 10 * c + d, 10 * e + f, 10 * g + i) := by
  unfold readDateKey at h
  split at h
  · rename_i y1 y2 y3 y4 m1 m2 d1 d2 hdata
    split at h
    · rename_i a b c d e f g i ha hb hc hd he hf hg hi
      simp only [Option.some.injEq] at h
      obtain ⟨ha1, ha2⟩ := digitVal_eq_some _ _ ha
      obtain ⟨hb1, hb2⟩ := digitVal_eq_some _ _ hb
      obtain ⟨hc1, hc2⟩ := digitVal_eq_some _ _ hc
      obtain ⟨hd1, hd2⟩ := digitVal_eq_some _ _ hd
      obtain ⟨he1, he2⟩ := digitVal_eq_some _ _ he
      obtain ⟨hf1, hf2⟩ := digitVal_eq_some _ _ hf
      obtain ⟨hg1, hg2⟩ := digitVal_eq_some _ _ hg
      obtain ⟨hi1, hi2⟩ := digitVal_eq_some _ _ hi
      refine ⟨a, b, c, d, e, f, g, i, ?_, ha2, hb2, hc2, hd2, he2, hf2, hg2, hi2, h.symm⟩
      rw [hdata]
      have hdash : ('-' : Char).toNat = 45 := by decide
      simp only [utf16, utf16Units, ha1, hb1, hc1, hd1, he1, hf1, hg1, hi1, hdash]
      have k : ∀ n : Nat, n < 10 → n + 48 < 65536 := fun n hn => by omega
      simp [k a ha2, k b hb2, k c hc2, k d hd2, k e he2, k f hf2, k g hg2, k i hi2]
    · simp at h
  · simp at h

theorem jsStringLt_dateKey (s t : String) (p q : Nat × Nat × Nat)
    (hs : readDateKey s = some p) (ht : readDateKey t = some q) :
    jsStringLt s t = true ↔ dateLt p q := by
  obtain ⟨a, b, c, d, e, f, g, i, hu, ha, hb, hc, hd, he, hf, hg, hi, rfl⟩ :=
    readDateKey_eq_some s p hs
  obtain ⟨a', b', c', d', e', f', g', i', hu', ha', hb', hc', hd', he', hf', hg', hi', rfl⟩ :=
    readDateKey_eq_some t q ht
  unfold jsStringLt
  rw [hu, hu']
  simp only [codeUnitsLt, dateLt, Bool.or_eq_true, Bool.and_eq_true, decide_eq_true_eq,
    Bool.or_false, Bool.and_false, lt_self_iff_false, decide_False, Bool.false_or,
    decide_True, Bool.true_and]
  omega

theorem dateKey_eq_iff (s t : String) (p q : Nat × Nat × Nat)
    (hs : readDateKey s = some p) (ht : readDateKey t = some q) :
    s = t ↔ p = q := by
  constructor
  · intro h
    subst h
    rw [hs] at ht
    exact Option.some.inj ht
  · intro h
    subst h
    rcases jsString_trichotomy s t with ⟨h1, _, _⟩ | ⟨_, h2, _⟩ | ⟨_, _, h3⟩
    · exact h1
    · exact absurd ((jsStringLt_dateKey t s p p ht hs).1 h2) (dateLt_irrefl p)
    · exact absurd ((jsStringLt_dateKey s t p p hs ht).1 h3) (dateLt_irrefl p)

/-! ## The order of the keys -/

theorem foldl_insert_of_nodup (ks seen : List String) (h : (seen ++ ks).Nodup) :
    ks.foldl (fun seen v => if v ∈ seen then seen else seen ++ [v]) seen = seen ++ ks := by
  induction ks generalizing seen with
  | nil => simp
  | cons k ks ih =>
    have hk : k ∉ seen := by
      intro hmem
      have := List.nodup_append.1 h
      exact this.2.2 hmem (List.mem_cons_self _ _)
    simp only [List.foldl_cons, hk, if_false]
    rw [ih (seen ++ [k]) (by simpa using h)]
    simp

theorem jsSet_nodup (l : List String) : (jsSet l).Nodup :=
  (foldl_insert_spec l [] List.nodup_nil).1

theorem mem_jsSet (l : List String) (x : String) : x ∈ jsSet l ↔ x ∈ l := by
  have := (foldl_insert_spec l [] List.nodup_nil).2 x
  simpa [jsSet] using this

theorem jsSet_of_nodup (ks : List String) (h : ks.Nodup) : jsSet ks = ks := by
  have := foldl_insert_of_nodup ks [] (by simpa using h)
  simpa [jsSet] using this

theorem objKeys_groupStepOwn (acc : JsObject (List Appointment)) (a : Appointment) :
    objKeys (groupStepOwn acc a)
      = if a.date ∈ objKeys acc then objKeys acc else objKeys acc ++ [a.date] := by
  unfold groupStepOwn
  by_cases h : a.date ∈ objKeys acc
  · have hs : (objGet acc a.date).isSome = true := (mem_objKeys_iff acc a.date).1 h
    have hn : (objGet acc a.date).isNone = false := by
      cases hg : objGet acc a.date <;> simp [hg] at hs ⊢
    simp only [hn, Bool.false_eq_true, if_false, objKeys_objSet, h, if_true]
  · have hs : ¬ (objGet acc a.date).isSome = true := fun hh => h ((mem_objKeys_iff acc a.date).2 hh)
    have hn : (objGet acc a.date).isNone = true := by
      cases hg : objGet acc a.date <;> simp [hg] at hs ⊢
    simp only [hn, if_true, objKeys_objSet, h, if_false]
    simp

theorem objKeys_countStepOwn (acc : JsObject Nat) (a : Appointment) :
    objKeys (countStepOwn acc a)
      = if a.date ∈ objKeys acc then objKeys acc else objKeys acc ++ [a.date] := by
  unfold countStepOwn
  exact objKeys_objSet _ _ _

theorem objKeys_foldl_groupStepOwn (l : List Appointment) (acc : JsObject (List Appointment)) :
    objKeys (l.foldl groupStepOwn acc)
      = (l.map (fun a => a.date)).foldl
          (fun seen v => if v ∈ seen then seen else seen ++ [v]) (objKeys acc) := by
  induction l generalizing acc with
  | nil => rfl
  | cons a l ih =>
    simp only [List.foldl_cons, List.map_cons]
    rw [ih, objKeys_groupStepOwn]

theorem objKeys_foldl_countStepOwn (l : List Appointment) (acc : JsObject Nat) :
    objKeys (l.foldl countStepOwn acc)
      = (l.map (fun a => a.date)).foldl
          (fun seen v => if v ∈ seen then seen else seen ++ [v]) (objKeys acc) := by
  induction l generalizing acc with
  | nil => rfl
  | cons a l ih =>
    simp only [List.foldl_cons, List.map_cons]
    rw [ih, objKeys_countStepOwn]

theorem objKeys_foldl_objSet {α : Type} (f : String → α) (ks : List String) (o : JsObject α) :
    objKeys (ks.foldl (fun acc k => objSet acc k (f k)) o)
      = ks.foldl (fun seen v => if v ∈ seen then seen else seen ++ [v]) (objKeys o) := by
  induction ks generalizing o with
  | nil => rfl
  | cons k ks ih =>
    simp only [List.foldl_cons]
    rw [ih, objKeys_objSet]

theorem objKeys_appointmentsByDateOwn (l : List Appointment) :
    objKeys (appointmentsByDateOwn l) = jsSet (l.map (fun a => a.date)) := by
  unfold appointmentsByDateOwn jsSet
  rw [objKeys_foldl_groupStepOwn]
  rfl

theorem objKeys_appointmentCountsOwn (l : List Appointment) :
    objKeys (appointmentCountsOwn l) = jsSet (l.map (fun a => a.date)) := by
  unfold appointmentCountsOwn jsSet
  rw [objKeys_foldl_countStepOwn]
  rfl

theorem objKeys_updateCalendarData (l : List Appointment) :
    objKeys (updateCalendarData l) = jsSet (l.map (fun a => a.date)) := by
  unfold updateCalendarData
  simp only []
  rw [objKeys_foldl_objSet (fun date =>
    ({ marked := true
       dotColor := getDotColorForCount ((objGet (appointmentsByDateOwn l) date).getD []).length
       appointmentCount := ((objGet (appointmentsByDateOwn l) date).getD []).length } :
      CalendarEntry))]
  rw [objKeys_appointmentsByDateOwn]
  exact jsSet_of_nodup _ (jsSet_nodup _)

/-! ## An object is determined by its keys and its reads -/

theorem objGet_of_mem {α : Type} (o : JsObject α) (h : (objKeys o).Nodup) (k : String) (v : α)
    (hm : (k, v) ∈ o) : objGet o k = some v := by
  induction o with
  | nil => simp at hm
  | cons p o ih =>
    obtain ⟨k1, v1⟩ := p
    simp only [objKeys, List.map_cons, List.nodup_cons] at h
    rcases List.mem_cons.1 hm with heq | hmem
    · simp only [Prod.mk.injEq] at heq
      obtain ⟨rfl, rfl⟩ := heq
      simp [objGet]
    · have hne : k1 ≠ k := by
        rintro rfl
        exact h.1 (List.mem_map.2 ⟨(k1, v), hmem, rfl⟩)
      simp only [objGet, hne, if_false]
      exact ih h.2 hmem

theorem obj_eq_map_keys {α : Type} (o : JsObject α) (h : (objKeys o).Nodup) (f : String → α)
    (hf : ∀ k ∈ objKeys o, objGet o k = some (f k)) :
    o = (objKeys o).map (fun k => (k, f k)) := by
  have hpoint : ∀ p ∈ o, p = (p.1, f p.1) := by
    intro p hp
    have h1 := objGet_of_mem o h p.1 p.2 hp
    have h2 := hf p.1 (List.mem_map.2 ⟨p, hp, rfl⟩)
    rw [h1] at h2
    exact Prod.ext rfl (Option.some.inj h2)
  unfold objKeys
  rw [List.map_map]
  conv_lhs => rw [← List.map_id o]
  exact List.map_congr_left hpoint

theorem length_filter_date (l : List Appointment) (d : String) :
    (l.filter (fun a => decide (a.date = d))).length = (l.map (fun a => a.date)).count d := by
  induction l with
  | nil => rfl
  | cons a l ih =>
    by_cases h : a.date = d
    · simp [List.filter_cons, h, ih]
    · simp [List.filter_cons, h, ih, List.count_cons]

/-- The index as a function of the dates of the collection alone. -/
theorem updateCalendarData_eq (l : List Appointment) :
    updateCalendarData l = (jsSet (l.map (fun a => a.date))).map (fun d =>
      (d, ({ marked := true
             dotColor := getDotColorForCount ((l.map (fun a => a.date)).count d)
             appointmentCount := (l.map (fun a => a.date)).count d } : CalendarEntry))) := by
  have hk := objKeys_updateCalendarData l
  have hnd : (objKeys (updateCalendarData l)).Nodup := by
    rw [hk]; exact jsSet_nodup _
  have := obj_eq_map_keys (updateCalendarData l) hnd (fun d =>
      ({ marked := true
         dotColor := getDotColorForCount ((l.map (fun a => a.date)).count d)
         appointmentCount := (l.map (fun a => a.date)).count d } : CalendarEntry)) (by
    intro k hkmem
    rw [hk, mem_jsSet] at hkmem
    rw [objGet_updateCalendarData, if_pos hkmem, length_filter_date])
  rw [hk] at this
  exact this

theorem sum_count_jsSet (dates : List String) :
    ((jsSet dates).map (fun d => dates.count d)).sum = dates.length := by
  have hperm : (jsSet dates).Perm dates.dedup := by
    rw [List.perm_ext_iff_of_nodup (jsSet_nodup dates) (List.nodup_dedup dates)]
    intro x
    rw [mem_jsSet, List.mem_dedup]
  rw [(hperm.map _).sum_eq]
  exact List.sum_map_count_dedup_eq_length dates


/-! ## The counting pass of the calendar screen -/

theorem objGet_countStepOwn (acc : JsObject Nat) (apt : Appointment) (d : String) :
    objGet (countStepOwn acc apt) d =
      if d = apt.date then some ((objGet acc d).getD 0 + 1) else objGet acc d := by
  unfold countStepOwn
  by_cases hd : d = apt.date
  · subst hd
    simp [objGet_objSet_same]
  · simp only [hd, if_false]
    exact objGet_objSet_ne _ _ _ _ hd

theorem objGet_foldl_countStepOwn (l : List Appointment) (acc : JsObject Nat) (d : String) :
    objGet (l.foldl countStepOwn acc) d =
      if (objGet acc d).isSome = true ∨ d ∈ l.map (fun a => a.date) then
        some ((objGet acc d).getD 0 + (l.map (fun a => a.date)).count d)
      else none := by
  induction l generalizing acc with
  | nil =>
    cases h : objGet acc d <;> simp [h]
  | cons a l ih =>
    simp only [List.foldl_cons]
    rw [ih, objGet_countStepOwn]
    by_cases hd : d = a.date
    · subst hd
      simp [List.count_cons]
      omega
    · have hd' : ¬ a.date = d := fun e => hd e.symm
      simp [hd, hd', List.count_cons]

theorem objGet_appointmentCountsOwn (l : List Appointment) (d : String) :
    objGet (appointmentCountsOwn l) d =
      if d ∈ l.map (fun a => a.date) then some ((l.map (fun a => a.date)).count d)
      else none := by
  unfold appointmentCountsOwn
  rw [objGet_foldl_countStepOwn]
  simp [objGet]

theorem three_way_lengths (values : List Nat) :
    (values.filter (fun count => decide (count ≤ 1))).length
      + (values.filter (fun count => decide (count ≥ 2) && decide (count < 4))).length
      + (values.filter (fun count => decide (count ≥ 4))).length = values.length := by
  induction values with
  | nil => rfl
  | cons v vs ih =>
    simp only [ge_iff_le] at ih ⊢
    by_cases h1 : v ≤ 1
    · have h2 : ¬ 2 ≤ v := by omega
      have h4 : ¬ 4 ≤ v := by omega
      simp only [List.filter_cons, h1, h2, h4, decide_True, decide_False, Bool.false_and,
        if_true, Bool.false_eq_true, if_false, List.length_cons]
      omega
    · by_cases h4 : 4 ≤ v
      · have h2 : 2 ≤ v := by omega
        have h3 : ¬ v < 4 := by omega
        simp only [List.filter_cons, h1, h2, h3, h4, decide_True, decide_False, Bool.and_false,
          if_true, Bool.false_eq_true, if_false, List.length_cons]
        omega
      · have h2 : 2 ≤ v := by omega
        have h3 : v < 4 := by omega
        simp only [List.filter_cons, h1, h2, h3, h4, decide_True, decide_False, Bool.and_self,
          if_true, Bool.false_eq_true, if_false, List.length_cons]
        omega

theorem length_eq_length_objKeys {α : Type} (o : JsObject α) : o.length = (objKeys o).length := by
  simp [objKeys]

/-! ## Members inherited from `Object.prototype` -/

theorem readMember_of_some {α : Type} (o : JsObject α) (k : String) (v : α)
    (h : objGet o k = some v) : readMember o k = Member.own v := by
  simp [readMember, h]

theorem readMember_of_none {α : Type} (o : JsObject α) (k : String)
    (h : objGet o k = none) (hk : k ∉ objectPrototypeKeys) :
    readMember o k = Member.missing := by
  simp [readMember, h, hk]

theorem readMember_inherited {α : Type} (o : JsObject α) (k : String)
    (h : objGet o k = none) (hk : k ∈ objectPrototypeKeys) :
    readMember o k = Member.inherited := by
  simp [readMember, h, hk]

/-- No `YYYY-MM-DD` key is the name of a member of `Object.prototype`. -/
theorem readDateKey_not_inherited (d : String) (h : (readDateKey d).isSome = true) :
    d ∉ objectPrototypeKeys := by
  intro hmem
  have hall : ∀ k ∈ objectPrototypeKeys, readDateKey k = none := by decide
  rw [hall d hmem] at h
  exact absurd h (by decide)

theorem groupStep_eq (acc : JsObject (List Appointment)) (apt : Appointment)
    (h : apt.date ∉ objectPrototypeKeys) :
    groupStep acc apt = Except.ok (groupStepOwn acc apt) := by
  unfold groupStep groupStepOwn
  cases hg : objGet acc apt.date with
  | none =>
    simp only [readMember_of_none acc apt.date hg h, hg, Option.isNone_none, if_true,
      readMember_of_some _ _ _ (objGet_objSet_same acc apt.date []), objGet_objSet_same,
      Option.getD_some]
  | some arr =>
    simp only [readMember_of_some acc apt.date arr hg, Option.isNone_some, hg,
      Option.getD_some, Bool.false_eq_true, if_false]

theorem groupStep_throws (acc : JsObject (List Appointment)) (apt : Appointment)
    (h : apt.date ∈ objectPrototypeKeys) (hacc : objGet acc apt.date = none) :
    groupStep acc apt = Except.error "TypeError" := by
  unfold groupStep
  simp only [readMember_inherited acc apt.date hacc h]

theorem foldlM_groupStep (l : List Appointment) (acc : JsObject (List Appointment))
    (hacc : ∀ k ∈ objKeys acc, k ∉ objectPrototypeKeys) :
    l.foldlM groupStep acc =
      if ∀ a ∈ l, a.date ∉ objectPrototypeKeys then Except.ok (l.foldl groupStepOwn acc)
      else Except.error "TypeError" := by
  induction l generalizing acc with
  | nil => simp [pure, Except.pure]
  | cons a l ih =>
    rw [List.foldlM_cons]
    by_cases ha : a.date ∈ objectPrototypeKeys
    · have hnone : objGet acc a.date = none := by
        cases hg : objGet acc a.date with
        | none => rfl
        | some v =>
          have hk : a.date ∈ objKeys acc := (mem_objKeys_iff acc a.date).2 (by simp [hg])
          exact absurd ha (hacc _ hk)
      rw [groupStep_throws acc a ha hnone]
      have hneg : ¬ ∀ b ∈ a :: l, b.date ∉ objectPrototypeKeys :=
        fun hall => hall a (List.mem_cons_self _ _) ha
      rw [if_neg hneg]
      rfl
    · rw [groupStep_eq acc a ha]
      have hkeys : ∀ k ∈ objKeys (groupStepOwn acc a), k ∉ objectPrototypeKeys := by
        intro k hk
        rw [objKeys_groupStepOwn] at hk
        split_ifs at hk with hmem
        · exact hacc k hk
        · rcases List.mem_append.1 hk with h1 | h1
          · exact hacc k h1
          · rw [List.mem_singleton.1 h1]; exact ha
      have hstep := ih (groupStepOwn acc a) hkeys
      show l.foldlM groupStep (groupStepOwn acc a) = _
      rw [hstep, List.foldl_cons]
      by_cases hall : ∀ b ∈ l, b.date ∉ objectPrototypeKeys
      · have hall2 : ∀ b ∈ a :: l, b.date ∉ objectPrototypeKeys := by
          intro b hb
          rcases List.mem_cons.1 hb with h1 | h1
          · rw [h1]; exact ha
          · exact hall b h1
        rw [if_pos hall, if_pos hall2]
      · have hall2 : ¬ ∀ b ∈ a :: l, b.date ∉ objectPrototypeKeys :=
          fun h2 => hall (fun b hb => h2 b (List.mem_cons_of_mem _ hb))
        rw [if_neg hall, if_neg hall2]

theorem appointmentsByDate_eq (l : List Appointment) :
    appointmentsByDate l =
      if ∀ a ∈ l, a.date ∉ objectPrototypeKeys then Except.ok (appointmentsByDateOwn l)
      else Except.error "TypeError" := by
  unfold appointmentsByDate appointmentsByDateOwn
  exact foldlM_groupStep l [] (by simp [objKeys])

/-- A call of `updateCalendarData` returns the index `updateCalendarData` when no date of
the collection names a member of `Object.prototype`, and throws a `TypeError` when one
does. -/
theorem updateCalendarDataRun_eq (l : List Appointment) :
    updateCalendarDataRun l =
      if ∀ a ∈ l, a.date ∉ objectPrototypeKeys then Except.ok (updateCalendarData l)
      else Except.error "TypeError" := by
  unfold updateCalendarDataRun
  rw [appointmentsByDate_eq]
  split_ifs <;> rfl

/-- On two records dated `constructor` the call of `updateCalendarData` throws, the
calendar screen stores a text for the date, gives it the colour `colors.success`, and
counts it in no legend entry. -/
theorem inheritedNameRecords_run :
    updateCalendarDataRun inheritedNameRecords = Except.error "TypeError" ∧
    appointmentCounts inheritedNameRecords = [("constructor", CountValue.text)] ∧
    (objGet (getMarkedDates "2025-08-20" inheritedNameRecords) "constructor").map
      (fun e => e.dotColor) = some (some colors.success) ∧
    legendCounts inheritedNameRecords = { available := 0, partly := 0, booked := 0 } := by
  refine ⟨?_, by decide, by decide, by decide⟩
  rw [updateCalendarDataRun_eq, if_neg (by decide)]

/-! ## The counting pass on dates that name no inherited member -/

theorem objGet_numberValues (o : JsObject Nat) (k : String) :
    objGet (numberValues o) k = (objGet o k).map CountValue.number := by
  induction o with
  | nil => rfl
  | cons p o ih =>
    obtain ⟨k1, v1⟩ := p
    by_cases h : k1 = k
    · simp [numberValues, objGet, h]
    · have ih' : objGet (List.map (fun p => (p.1, CountValue.number p.2)) o) k
          = (objGet o k).map CountValue.number := ih
      simp [numberValues, objGet, h, ih']

theorem objSet_numberValues (o : JsObject Nat) (k : String) (n : Nat) :
    objSet (numberValues o) k (CountValue.number n) = numberValues (objSet o k n) := by
  induction o with
  | nil => rfl
  | cons p o ih =>
    obtain ⟨k1, v1⟩ := p
    by_cases h : k1 = k
    · simp [numberValues, objSet, h]
    · have ih' : objSet (List.map (fun p => (p.1, CountValue.number p.2)) o) k
          (CountValue.number n)
          = List.map (fun p => (p.1, CountValue.number p.2)) (objSet o k n) := ih
      simp [numberValues, objSet, h, ih']

theorem objKeys_numberValues (o : JsObject Nat) : objKeys (numberValues o) = objKeys o := by
  simp [numberValues, objKeys, Function.comp_def]

theorem countStep_numbers (o : JsObject Nat) (apt : Appointment)
    (h : apt.date ∉ objectPrototypeKeys) :
    countStep (numberValues o) apt = numberValues (countStepOwn o apt) := by
  unfold countStep countStepOwn
  cases hg : objGet o apt.date with
  | none =>
    have hn : objGet (numberValues o) apt.date = none := by
      rw [objGet_numberValues, hg]; rfl
    simp only [readMember_of_none _ _ hn h, Option.getD_none, Nat.zero_add,
      objSet_numberValues]
  | some n =>
    have hn : objGet (numberValues o) apt.date = some (CountValue.number n) := by
      rw [objGet_numberValues, hg]; rfl
    simp only [readMember_of_some _ _ _ hn, Option.getD_some, objSet_numberValues]

theorem foldl_countStep_numbers (l : List Appointment) (o : JsObject Nat)
    (h : ∀ a ∈ l, a.date ∉ objectPrototypeKeys) :
    l.foldl countStep (numberValues o) = numberValues (l.foldl countStepOwn o) := by
  induction l generalizing o with
  | nil => rfl
  | cons a l ih =>
    simp only [List.foldl_cons]
    rw [countStep_numbers o a (h a (List.mem_cons_self _ _))]
    exact ih _ (fun b hb => h b (List.mem_cons_of_mem _ hb))

theorem appointmentCounts_eq (l : List Appointment)
    (h : ∀ a ∈ l, a.date ∉ objectPrototypeKeys) :
    appointmentCounts l = numberValues (appointmentCountsOwn l) := by
  unfold appointmentCounts appointmentCountsOwn
  exact foldl_countStep_numbers l [] h

theorem objGet_selected_fallback (marked : JsObject MarkedEntry) (selectedDate d : String)
    (x : MarkedEntry) (h : (objGet marked d).isSome = true) :
    objGet (match readMember marked selectedDate with
      | Member.missing => objSet marked selectedDate x
      | _ => marked) d = objGet marked d := by
  cases hsel : objGet marked selectedDate with
  | some v => rw [readMember_of_some _ _ _ hsel]
  | none =>
    by_cases hk : selectedDate ∈ objectPrototypeKeys
    · rw [readMember_inherited _ _ hsel hk]
    · rw [readMember_of_none _ _ hsel hk]
      have hne : d ≠ selectedDate := by
        rintro rfl
        rw [hsel] at h
        exact absurd h (by decide)
      exact objGet_objSet_ne _ _ _ _ hne

theorem objGet_getMarkedDates (selectedDate : String) (l : List Appointment) (d : String)
    (h : ∀ a ∈ l, a.date ∉ objectPrototypeKeys) (hd : d ∈ l.map (fun a => a.date)) :
    objGet (getMarkedDates selectedDate l) d =
      some { marked := some true
             dotColor := some (getDotColorForCount ((l.map (fun a => a.date)).count d))
             selectedColor := if d = selectedDate then some colorsPrimary else none
             selected := decide (d = selectedDate) } := by
  have hkey : d ∈ objKeys (numberValues (appointmentCountsOwn l)) := by
    rw [objKeys_numberValues, objKeys_appointmentCountsOwn, mem_jsSet]; exact hd
  have hcount : objGet (numberValues (appointmentCountsOwn l)) d
      = some (CountValue.number ((l.map (fun a => a.date)).count d)) := by
    rw [objGet_numberValues, objGet_appointmentCountsOwn, if_pos hd]; rfl
  have hcolor : ∀ n : Nat,
      (if (CountValue.number n).ge 4 = true then colors.error
        else if (CountValue.number n).ge 2 = true then colors.warning
        else colors.success) = getDotColorForCount n := by
    intro n
    simp [CountValue.ge, getDotColorForCount]
  have hinner : objGet ((objKeys (numberValues (appointmentCountsOwn l))).foldl
      (fun marked date =>
        objSet marked date
          ({ marked := some true
             dotColor := some (
               if ((objGet (numberValues (appointmentCountsOwn l)) date).getD
                    (CountValue.number 0)).ge 4 = true then colors.error
               else if ((objGet (numberValues (appointmentCountsOwn l)) date).getD
                    (CountValue.number 0)).ge 2 = true then colors.warning
               else colors.success)
             selectedColor := if date = selectedDate then some colorsPrimary else none
             selected := decide (date = selectedDate) } : MarkedEntry)) []) d =
      some { marked := some true
             dotColor := some (getDotColorForCount ((l.map (fun a => a.date)).count d))
             selectedColor := if d = selectedDate then some colorsPrimary else none
             selected := decide (d = selectedDate) } := by
    rw [objGet_foldl_objSet (fun date =>
        ({ marked := some true
           dotColor := some (
             if ((objGet (numberValues (appointmentCountsOwn l)) date).getD
                  (CountValue.number 0)).ge 4 = true then colors.error
             else if ((objGet (numberValues (appointmentCountsOwn l)) date).getD
                  (CountValue.number 0)).ge 2 = true then colors.warning
             else colors.success)
           selectedColor := if date = selectedDate then some colorsPrimary else none
           selected := decide (date = selectedDate) } : MarkedEntry)), if_pos hkey, hcount,
      Option.getD_some, hcolor]
  unfold getMarkedDates
  simp only []
  rw [appointmentCounts_eq l h, objGet_selected_fallback _ _ _ _ (by rw [hinner]; rfl)]
  exact hinner

theorem three_way_values (values : List Nat) :
    ((values.map CountValue.number).filter (fun count => count.le 1)).length
      + ((values.map CountValue.number).filter (fun count => count.ge 2 && count.lt 4)).length
      + ((values.map CountValue.number).filter (fun count => count.ge 4)).length
      = values.length := by
  have hf : ∀ p : CountValue → Bool,
      ((values.map CountValue.number).filter p).length
        = (values.filter (fun n => p (CountValue.number n))).length := by
    intro p
    rw [List.filter_map, List.length_map]
    rfl
  rw [hf, hf, hf]
  exact three_way_lengths values

theorem legendCounts_sum (l : List Appointment)
    (h : ∀ a ∈ l, a.date ∉ objectPrototypeKeys) :
    (legendCounts l).available + (legendCounts l).partly + (legendCounts l).booked
      = (updateCalendarData l).length := by
  unfold legendCounts
  simp only []
  rw [appointmentCounts_eq l h]
  have hv : (numberValues (appointmentCountsOwn l)).map Prod.snd
      = ((appointmentCountsOwn l).map Prod.snd).map CountValue.number := by
    simp [numberValues, Function.comp_def]
  rw [hv, three_way_values, List.length_map,
    length_eq_length_objKeys (appointmentCountsOwn l),
    length_eq_length_objKeys (updateCalendarData l), objKeys_appointmentCountsOwn,
    objKeys_updateCalendarData]

/-! ## Verified properties -/

/-- C1 (sort invariant). On an engine whose `Date` reads `1970-01-01 hh:mm AM/PM` as that
time of the reference day (`ReadsClockTime`; the string is not an ISO date-time, and its
reading is the engine's own): starting from the seeded collection, after every sequence of
`addAppointment` calls whose dates are `YYYY-MM-DD` calendar dates and whose times are
`hh:mm AM/PM` display times, the collection is in non-decreasing lexicographic order of
(calendar date, minutes since midnight); this holds after each call of the sequence, that
is, for each of its prefixes. The order `chronoLE` is read off the date and time strings
and does not depend on the engine. -/
theorem sort_invariant (dateParse : String → Option Int) (hread : ReadsClockTime dateParse)
    (calls : List AddCall) (h : ∀ c ∈ calls, WellFormedData c.data) (n : Nat) :
    (addAppointments dateParse (calls.take n) initialAppointments).Pairwise chronoLE :=
  addAppointments_chrono dateParse hread (calls.take n) initialAppointments
    initialAppointments_chronoKey initialAppointments_chrono
    (fun c hc => h c (List.mem_of_mem_take hc))

/-- C1 at three concrete well-formed calls, on an engine that reads the time strings in a
zone five and a half hours ahead of UTC: the second call lands in the middle of the seeded
collection, and the third, for 08:00 AM on 2025-08-08, goes before the three seeded records
of that day, which only the comparison of the times can decide. -/
theorem sort_invariant_witness :
    ReadsClockTime (clockDateParse 19800000) ∧
    (∀ c ∈ [exampleCall1, exampleCall2, earlyCall], WellFormedData c.data) ∧
    (addAppointments (clockDateParse 19800000) ([exampleCall1, exampleCall2, earlyCall].take 3)
      initialAppointments).Pairwise chronoLE :=
  ⟨clockDateParse_reads 19800000, by decide,
    sort_invariant (clockDateParse 19800000) (clockDateParse_reads 19800000)
      [exampleCall1, exampleCall2, earlyCall] (by decide) 3⟩

/-- C2. For every collection and every argument, `addAppointment` inserts, with no
condition on the collection (so also when the slot is already taken): the new collection
is a permutation of the old one plus exactly one record, that record has the fields of
the argument other than `id`, its `id` is the generated one whatever `id` the argument
carried, and the generated id is the value returned. -/
theorem addAppointment_inserts (dateParse : String → Option Int) (now : Nat) (rand36 : String)
    (appointmentData : AppointmentData) (prev : List Appointment) :
    (addAppointment dateParse now rand36 appointmentData prev).2.Perm
      (prev ++ [{ id := generateId now rand36
                  patientName := appointmentData.patientName
                  time := appointmentData.time
                  date := appointmentData.date
                  issue := appointmentData.issue
                  status := appointmentData.status
                  notes := appointmentData.notes
                  contact := appointmentData.contact }]) ∧
    (addAppointment dateParse now rand36 appointmentData prev).2.length = prev.length + 1 ∧
    (addAppointment dateParse now rand36 appointmentData prev).1 = generateId now rand36 := by
  refine ⟨?_, ?_, rfl⟩
  · exact List.perm_insertionSort (sortLE dateParse) _
  · simp [addAppointment, sortAppointments, List.length_insertionSort]

/-- C3, refuted as stated. Two `addAppointment` calls made in the same millisecond that
draw the same random number return the same id, and the collection then holds two
records with that id. -/
theorem id_uniqueness_counterexample :
    ¬ (returnedIds [exampleCall1, exampleCall3]).Nodup ∧
    ¬ ((addAppointments (clockDateParse 19800000) [exampleCall1, exampleCall3]
        initialAppointments).map (fun a => a.id)).Nodup := by
  constructor
  · simp [returnedIds, exampleCall1, exampleCall3]
  · rw [(ids_addAppointments _ _ _).nodup_iff]
    simp [returnedIds, List.nodup_append, exampleCall1, exampleCall3]

/-- C3, amended. For every sequence of `addAppointment` calls on the seeded collection
whose clock readings have thirteen digits and whose (clock reading, random suffix) pairs
are pairwise distinct, the returned ids are pairwise distinct, none of them is a seeded
id, and the collection holds no two records with the same id. -/
theorem id_uniqueness (dateParse : String → Option Int) (calls : List AddCall)
    (hrange : ∀ c ∈ calls, 10 ^ 12 ≤ c.now ∧ c.now < 10 ^ 13)
    (hpairs : (calls.map (fun c => (c.now, substr2_9 c.rand36))).Nodup) :
    (returnedIds calls).Nodup ∧
    (∀ i ∈ returnedIds calls, i ∉ initialAppointments.map (fun a => a.id)) ∧
    ((addAppointments dateParse calls initialAppointments).map (fun a => a.id)).Nodup := by
  have h1 := returnedIds_nodup calls hrange hpairs
  have h2 := returnedIds_not_seed calls hrange
  refine ⟨h1, h2, ?_⟩
  rw [(ids_addAppointments _ _ _).nodup_iff, List.nodup_append]
  refine ⟨by decide, h1, ?_⟩
  intro i hi hr
  exact h2 i hr hi

/-- C3 amended, at two concrete calls one second apart. -/
theorem id_uniqueness_witness :
    (∀ c ∈ [exampleCall1, exampleCall2], 10 ^ 12 ≤ c.now ∧ c.now < 10 ^ 13) ∧
    ([exampleCall1, exampleCall2].map (fun c => (c.now, substr2_9 c.rand36))).Nodup ∧
    ((returnedIds [exampleCall1, exampleCall2]).Nodup ∧
     (∀ i ∈ returnedIds [exampleCall1, exampleCall2],
        i ∉ initialAppointments.map (fun a => a.id)) ∧
     ((addAppointments (clockDateParse 19800000) [exampleCall1, exampleCall2]
        initialAppointments).map (fun a => a.id)).Nodup) :=
  ⟨by decide, by decide,
    id_uniqueness (clockDateParse 19800000) [exampleCall1, exampleCall2] (by decide)
      (by decide)⟩

/-- C4. For every collection, id and status, `updateAppointmentStatus` returns a
collection of the same length in which, position by position, a record whose id is the
given one has the new status and all its other fields unchanged, and a record with
another id is unchanged. -/
theorem updateAppointmentStatus_frame (appointmentId newStatus : String)
    (l : List Appointment) :
    (updateAppointmentStatus appointmentId newStatus l).length = l.length ∧
    ∀ (i : Nat) (a : Appointment), l[i]? = some a →
      ∃ b, (updateAppointmentStatus appointmentId newStatus l)[i]? = some b ∧
        (a.id = appointmentId →
          b.status = newStatus ∧ b.id = a.id ∧ b.patientName = a.patientName ∧
          b.contact = a.contact ∧ b.issue = a.issue ∧ b.date = a.date ∧ b.time = a.time ∧
          b.notes = a.notes) ∧
        (a.id ≠ appointmentId → b = a) := by
  refine ⟨by simp [updateAppointmentStatus], ?_⟩
  intro i a ha
  refine ⟨if a.id = appointmentId then { a with status := newStatus } else a, ?_, ?_, ?_⟩
  · simp [updateAppointmentStatus, List.getElem?_map, ha]
  · intro h
    simp [h]
  · intro h
    simp [h]

/-- C4 at the seeded collection: `updateAppointmentStatus('3', 'cancelled')` at the
position of record `'3'`. -/
theorem updateAppointmentStatus_frame_witness :
    initialAppointments[2]? = some seedRecord3 ∧
    ∃ b, (updateAppointmentStatus "3" "cancelled" initialAppointments)[2]? = some b ∧
      (seedRecord3.id = "3" →
        b.status = "cancelled" ∧ b.id = seedRecord3.id ∧
        b.patientName = seedRecord3.patientName ∧ b.contact = seedRecord3.contact ∧
        b.issue = seedRecord3.issue ∧ b.date = seedRecord3.date ∧
        b.time = seedRecord3.time ∧ b.notes = seedRecord3.notes) ∧
      (seedRecord3.id ≠ "3" → b = seedRecord3) :=
  ⟨by decide,
   (updateAppointmentStatus_frame "3" "cancelled" initialAppointments).2 2 seedRecord3
     (by decide)⟩

/-- C5. For every collection, id and note, `addAppointmentNote` returns a collection of
the same length in which, position by position, a record whose id is the given one has
exactly the given string as its notes and all its other fields unchanged, and a record
with another id is unchanged. -/
theorem addAppointmentNote_frame (appointmentId note : String) (l : List Appointment) :
    (addAppointmentNote appointmentId note l).length = l.length ∧
    ∀ (i : Nat) (a : Appointment), l[i]? = some a →
      ∃ b, (addAppointmentNote appointmentId note l)[i]? = some b ∧
        (a.id = appointmentId →
          b.notes = note ∧ b.id = a.id ∧ b.patientName = a.patientName ∧
          b.contact = a.contact ∧ b.issue = a.issue ∧ b.date = a.date ∧ b.time = a.time ∧
          b.status = a.status) ∧
        (a.id ≠ appointmentId → b = a) := by
  refine ⟨by simp [addAppointmentNote], ?_⟩
  intro i a ha
  refine ⟨if a.id = appointmentId then { a with notes := note } else a, ?_, ?_, ?_⟩
  · simp [addAppointmentNote, List.getElem?_map, ha]
  · intro h
    simp [h]
  · intro h
    simp [h]

/-- C5 at the seeded collection: `addAppointmentNote('3', 'BP stable')` at the position
of record `'3'`. -/
theorem addAppointmentNote_frame_witness :
    initialAppointments[2]? = some seedRecord3 ∧
    ∃ b, (addAppointmentNote "3" "BP stable" initialAppointments)[2]? = some b ∧
      (seedRecord3.id = "3" →
        b.notes = "BP stable" ∧ b.id = seedRecord3.id ∧
        b.patientName = seedRecord3.patientName ∧ b.contact = seedRecord3.contact ∧
        b.issue = seedRecord3.issue ∧ b.date = seedRecord3.date ∧
        b.time = seedRecord3.time ∧ b.status = seedRecord3.status) ∧
      (seedRecord3.id ≠ "3" → b = seedRecord3) :=
  ⟨by decide,
   (addAppointmentNote_frame "3" "BP stable" initialAppointments).2 2 seedRecord3
     (by decide)⟩

/-- C6. When no record of the collection carries the given id, `updateAppointmentStatus`,
`addAppointmentNote` and `deleteAppointment` each return the collection itself, same
records in the same order; all three are total functions, so no call fails. -/
theorem lookup_miss_noop (appointmentId s n : String) (l : List Appointment)
    (hmiss : ∀ a ∈ l, a.id ≠ appointmentId) :
    updateAppointmentStatus appointmentId s l = l ∧
    addAppointmentNote appointmentId n l = l ∧
    deleteAppointment appointmentId l = l := by
  refine ⟨?_, ?_, ?_⟩
  · unfold updateAppointmentStatus
    conv_rhs => rw [← List.map_id l]
    refine List.map_congr_left ?_
    intro a ha
    simp [hmiss a ha]
  · unfold addAppointmentNote
    conv_rhs => rw [← List.map_id l]
    refine List.map_congr_left ?_
    intro a ha
    simp [hmiss a ha]
  · unfold deleteAppointment
    rw [List.filter_eq_self]
    intro a ha
    simp [hmiss a ha]

/-- C6 at the seeded collection and the unknown id `'42'`. -/
theorem lookup_miss_noop_witness :
    (∀ a ∈ initialAppointments, a.id ≠ "42") ∧
    (updateAppointmentStatus "42" "completed" initialAppointments = initialAppointments ∧
     addAppointmentNote "42" "BP stable" initialAppointments = initialAppointments ∧
     deleteAppointment "42" initialAppointments = initialAppointments) :=
  ⟨by decide, lookup_miss_noop "42" "completed" "BP stable" initialAppointments (by decide)⟩

/-- C7. For every collection and id, `deleteAppointment` returns exactly the records
whose id differs from the given one, in their original relative order: the result is a
sublist of the collection, no record with that id remains, every other record remains,
and when ids are unique and the id is present the length decreases by exactly one. -/
theorem deleteAppointment_spec (appointmentId : String) (l : List Appointment) :
    deleteAppointment appointmentId l = l.filter (fun apt => decide (apt.id ≠ appointmentId)) ∧
    (deleteAppointment appointmentId l).Sublist l ∧
    (∀ a ∈ deleteAppointment appointmentId l, a.id ≠ appointmentId) ∧
    (∀ a ∈ l, a.id ≠ appointmentId → a ∈ deleteAppointment appointmentId l) ∧
    ((l.map (fun a => a.id)).Nodup → appointmentId ∈ l.map (fun a => a.id) →
      (deleteAppointment appointmentId l).length + 1 = l.length) := by
  refine ⟨rfl, List.filter_sublist l, ?_, ?_, ?_⟩
  · intro a ha
    simpa using (List.mem_filter.1 ha).2
  · intro a ha hne
    exact List.mem_filter.2 ⟨ha, by simpa using hne⟩
  · intro hnd hmem
    exact length_filter_ne_of_nodup appointmentId l hnd hmem

/-- C7 at the seeded collection, whose ids are unique, and the present id `'3'`. -/
theorem deleteAppointment_spec_witness :
    (initialAppointments.map (fun a => a.id)).Nodup ∧
    "3" ∈ initialAppointments.map (fun a => a.id) ∧
    (deleteAppointment "3" initialAppointments).length + 1 = initialAppointments.length :=
  ⟨by decide, by decide,
   (deleteAppointment_spec "3" initialAppointments).2.2.2.2 (by decide) (by decide)⟩

/-- C8. For every collection none of whose dates names a member of `Object.prototype`
(every collection of `YYYY-MM-DD` keys is one), the call of `updateCalendarData` returns
an index whose keys are exactly the dates that occur in the collection, each key once; the
entry of such a date is marked, counts the records of that date whatever their status,
and has the dot colour that `getDotColorForCount` gives to that count; a date that does
not occur has no entry. -/
theorem updateCalendarData_spec (l : List Appointment)
    (hdates : ∀ a ∈ l, a.date ∉ objectPrototypeKeys) :
    ∃ calendar, updateCalendarDataRun l = Except.ok calendar ∧
      (∀ d, d ∈ objKeys calendar ↔ d ∈ l.map (fun a => a.date)) ∧
      (objKeys calendar).Nodup ∧
      (∀ d, d ∈ l.map (fun a => a.date) →
        objGet calendar d =
          some { marked := true
                 dotColor :=
                   getDotColorForCount (l.filter (fun a => decide (a.date = d))).length
                 appointmentCount := (l.filter (fun a => decide (a.date = d))).length }) ∧
      (∀ d, d ∉ l.map (fun a => a.date) → objGet calendar d = none) := by
  refine ⟨updateCalendarData l, ?_, ?_, ?_, ?_, ?_⟩
  · rw [updateCalendarDataRun_eq, if_pos hdates]
  · intro d
    rw [mem_objKeys_iff, objGet_updateCalendarData]
    split_ifs with h <;> simp [h]
  · unfold updateCalendarData
    exact objKeys_foldl_objSet_nodup _ _ _ (by simp [objKeys])
  · intro d hd
    rw [objGet_updateCalendarData, if_pos hd]
  · intro d hd
    rw [objGet_updateCalendarData, if_neg hd]

/-- C8 at the seeded collection, whose dates are `YYYY-MM-DD` keys. -/
theorem updateCalendarData_spec_witness :
    (∀ a ∈ initialAppointments, a.date ∉ objectPrototypeKeys) ∧
    ∃ calendar, updateCalendarDataRun initialAppointments = Except.ok calendar ∧
      (∀ d, d ∈ objKeys calendar ↔ d ∈ initialAppointments.map (fun a => a.date)) ∧
      (objKeys calendar).Nodup ∧
      (∀ d, d ∈ initialAppointments.map (fun a => a.date) →
        objGet calendar d =
          some { marked := true
                 dotColor := getDotColorForCount
                   (initialAppointments.filter (fun a => decide (a.date = d))).length
                 appointmentCount :=
                   (initialAppointments.filter (fun a => decide (a.date = d))).length }) ∧
      (∀ d, d ∉ initialAppointments.map (fun a => a.date) → objGet calendar d = none) :=
  ⟨by decide, updateCalendarData_spec initialAppointments (by decide)⟩

/-- C9 (density classification). For every count, `getDotColorForCount` returns
`colors.error` exactly when the count is at least 4, `colors.warning` exactly when it is
2 or 3, and `colors.success` exactly when it is below 2; so 4 is fully booked, 3 and 2
are partially booked and 1 is available. -/
theorem getDotColorForCount_spec (count : Nat) :
    (getDotColorForCount count = colors.error ↔ count ≥ 4) ∧
    (getDotColorForCount count = colors.warning ↔ 2 ≤ count ∧ count < 4) ∧
    (getDotColorForCount count = colors.success ↔ count < 2) ∧
    getDotColorForCount 4 = colors.error ∧ getDotColorForCount 3 = colors.warning ∧
    getDotColorForCount 2 = colors.warning ∧ getDotColorForCount 1 = colors.success := by
  have h1 : colors.error ≠ colors.warning := by decide
  have h2 : colors.error ≠ colors.success := by decide
  have h3 : colors.warning ≠ colors.success := by decide
  refine ⟨?_, ?_, ?_, by decide, by decide, by decide, by decide⟩
  · unfold getDotColorForCount
    split_ifs with ha hb
    · simp [ha]
    · simp [h1.symm, ha]
    · simp [h2.symm, ha]
  · unfold getDotColorForCount
    split_ifs with ha hb
    · simp only [h1, false_iff]; omega
    · simp only [true_iff]; omega
    · simp only [h3.symm, false_iff]; omega
  · unfold getDotColorForCount
    split_ifs with ha hb
    · simp only [h2, false_iff]; omega
    · simp only [h3, false_iff]; omega
    · simp only [true_iff]; omega

/-- C10, refuted as stated. At the first render the cached index is not the one
`updateCalendarData` computes from the seeded collection, and after the mount effect has
run, a `deleteAppointment('6')` leaves a state whose cached index still has the entry of
the deleted record's date. -/
theorem calendar_cache_counterexample :
    (run (clockDateParse 19800000) []).calendarData
      ≠ updateCalendarData (run (clockDateParse 19800000) []).allAppointments ∧
    objGet (run (clockDateParse 19800000) []).calendarData "2025-08-12" ≠ none ∧
    "2025-08-12" ∉ (run (clockDateParse 19800000) []).allAppointments.map (fun a => a.date) ∧
    (run (clockDateParse 19800000) [Action.runEffect, Action.delete "6"]).calendarData
      ≠ updateCalendarData
          (run (clockDateParse 19800000)
            [Action.runEffect, Action.delete "6"]).allAppointments ∧
    objGet (run (clockDateParse 19800000) [Action.runEffect, Action.delete "6"]).calendarData
      "2025-08-10" ≠ none ∧
    "2025-08-10" ∉
      (run (clockDateParse 19800000)
        [Action.runEffect, Action.delete "6"]).allAppointments.map (fun a => a.date) := by
  decide

/-- C10, amended. Whatever the engine's reading of the time strings, in every reachable
state of the store in which no run of the effect is pending, the cached index equals the
index that `updateCalendarData` computes from the current collection; and from every
reachable state the run of the effect leads to such a state. -/
theorem calendar_cache_settled (dateParse : String → Option Int) (actions : List Action) :
    ((run dateParse actions).effectPending = false →
      (run dateParse actions).calendarData
        = updateCalendarData (run dateParse actions).allAppointments) ∧
    (step dateParse (run dateParse actions) Action.runEffect).effectPending = false ∧
    (step dateParse (run dateParse actions) Action.runEffect).calendarData
      = updateCalendarData
          (step dateParse (run dateParse actions) Action.runEffect).allAppointments := by
  have hinv : (run dateParse actions).effectPending = false →
      (run dateParse actions).calendarData
        = updateCalendarData (run dateParse actions).allAppointments :=
    foldl_step_settled dateParse actions initialStore (by decide)
  have hp : (step dateParse (run dateParse actions) Action.runEffect).effectPending
      = false := by
    cases hs : (run dateParse actions).effectPending <;> simp [step, hs]
  exact ⟨hinv, hp, step_settled dateParse (run dateParse actions) Action.runEffect hinv hp⟩

/-- C10 amended, at the state reached by the mount effect, an `addAppointment` call and
the effect that follows it. -/
theorem calendar_cache_settled_witness :
    (run (clockDateParse 19800000) [Action.runEffect,
          Action.add exampleCall1.now exampleCall1.rand36 exampleCall1.data,
          Action.runEffect]).effectPending = false ∧
    (run (clockDateParse 19800000) [Action.runEffect,
          Action.add exampleCall1.now exampleCall1.rand36 exampleCall1.data,
          Action.runEffect]).calendarData
      = updateCalendarData
          (run (clockDateParse 19800000) [Action.runEffect,
                Action.add exampleCall1.now exampleCall1.rand36 exampleCall1.data,
                Action.runEffect]).allAppointments :=
  ⟨by simp [run, step],
   (calendar_cache_settled (clockDateParse 19800000) [Action.runEffect,
      Action.add exampleCall1.now exampleCall1.rand36 exampleCall1.data,
      Action.runEffect]).1 (by simp [run, step])⟩

/-- C11 (idempotence of calendar recomputation). For every store state, a second run of
`updateCalendarData` right after a first one, with no change of the collection in
between, yields the same index as the first and the same state; a run leaves the
appointment collection as it was and stores the index computed from it. -/
theorem recompute_idempotent (dateParse : String → Option Int) (s : Store) :
    (step dateParse (step dateParse s Action.recompute) Action.recompute).calendarData
      = (step dateParse s Action.recompute).calendarData ∧
    step dateParse (step dateParse s Action.recompute) Action.recompute
      = step dateParse s Action.recompute ∧
    (step dateParse s Action.recompute).allAppointments = s.allAppointments ∧
    (step dateParse s Action.recompute).calendarData
      = updateCalendarData s.allAppointments := by
  simp [step]


/-- C12 (filter partition). For every collection and every fixed `today` key, each record
of the collection is in exactly one of the results of `getFilteredAppointments` for
`'today'`, `'upcoming'` and `'past'`; the three results are pairwise disjoint, their
lengths sum to the length of the collection, and each holds records of the collection
only. -/
theorem filter_partition (today appointmentFilter : String) (all : List Appointment) :
    (∀ a ∈ all,
      (a ∈ getFilteredAppointments today appointmentFilter (some "today") all ∧
        a ∉ getFilteredAppointments today appointmentFilter (some "upcoming") all ∧
        a ∉ getFilteredAppointments today appointmentFilter (some "past") all) ∨
      (a ∉ getFilteredAppointments today appointmentFilter (some "today") all ∧
        a ∈ getFilteredAppointments today appointmentFilter (some "upcoming") all ∧
        a ∉ getFilteredAppointments today appointmentFilter (some "past") all) ∨
      (a ∉ getFilteredAppointments today appointmentFilter (some "today") all ∧
        a ∉ getFilteredAppointments today appointmentFilter (some "upcoming") all ∧
        a ∈ getFilteredAppointments today appointmentFilter (some "past") all)) ∧
    (getFilteredAppointments today appointmentFilter (some "today") all).Disjoint
      (getFilteredAppointments today appointmentFilter (some "upcoming") all) ∧
    (getFilteredAppointments today appointmentFilter (some "today") all).Disjoint
      (getFilteredAppointments today appointmentFilter (some "past") all) ∧
    (getFilteredAppointments today appointmentFilter (some "upcoming") all).Disjoint
      (getFilteredAppointments today appointmentFilter (some "past") all) ∧
    (getFilteredAppointments today appointmentFilter (some "today") all).length
      + (getFilteredAppointments today appointmentFilter (some "upcoming") all).length
      + (getFilteredAppointments today appointmentFilter (some "past") all).length
      = all.length ∧
    (∀ a, a ∈ getFilteredAppointments today appointmentFilter (some "today") all ∨
        a ∈ getFilteredAppointments today appointmentFilter (some "upcoming") all ∨
        a ∈ getFilteredAppointments today appointmentFilter (some "past") all → a ∈ all) := by
  have hT : getFilteredAppointments today appointmentFilter (some "today") all
      = all.filter (fun apt => decide (apt.date = today)) := by
    simp [getFilteredAppointments]
  have hU : getFilteredAppointments today appointmentFilter (some "upcoming") all
      = all.filter (fun apt => jsStringLt today apt.date) := by
    simp [getFilteredAppointments]
  have hP : getFilteredAppointments today appointmentFilter (some "past") all
      = all.filter (fun apt => jsStringLt apt.date today) := by
    simp [getFilteredAppointments]
  rw [hT, hU, hP]
  refine ⟨?_, ?_, ?_, ?_, filter_lengths today all, ?_⟩
  · intro a ha
    simp only [List.mem_filter, ha, true_and, decide_eq_true_eq]
    rcases jsString_trichotomy a.date today with ⟨h1, h2, h3⟩ | ⟨h1, h2, h3⟩ | ⟨h1, h2, h3⟩
    · exact Or.inl ⟨h1, by simp [h2], by simp [h3]⟩
    · exact Or.inr (Or.inl ⟨h1, h2, by simp [h3]⟩)
    · exact Or.inr (Or.inr ⟨h1, by simp [h2], h3⟩)
  · intro a h1 h2
    simp only [List.mem_filter, decide_eq_true_eq] at h1 h2
    rcases jsString_trichotomy a.date today with ⟨_, k2, _⟩ | ⟨k1, _, _⟩ | ⟨_, k2, _⟩
    · rw [k2] at h2; exact absurd h2.2 (by simp)
    · exact k1 h1.2
    · rw [k2] at h2; exact absurd h2.2 (by simp)
  · intro a h1 h2
    simp only [List.mem_filter, decide_eq_true_eq] at h1 h2
    rcases jsString_trichotomy a.date today with ⟨_, _, k3⟩ | ⟨k1, _, _⟩ | ⟨k1, _, _⟩
    · rw [k3] at h2; exact absurd h2.2 (by simp)
    · exact k1 h1.2
    · exact k1 h1.2
  · intro a h1 h2
    simp only [List.mem_filter] at h1 h2
    have := jsStringLt_asymm _ _ h1.2
    rw [this] at h2
    exact absurd h2.2 (by simp)
  · intro a h
    simp only [List.mem_filter] at h
    rcases h with h | h | h <;> exact h.1


/-- C12 at the seeded collection with `2025-08-09` as today, for the third seeded
record. -/
theorem filter_partition_witness :
    seedRecord3 ∈ initialAppointments ∧
    ((seedRecord3 ∈ getFilteredAppointments "2025-08-09" "today" (some "today")
          initialAppointments ∧
        seedRecord3 ∉ getFilteredAppointments "2025-08-09" "today" (some "upcoming")
          initialAppointments ∧
        seedRecord3 ∉ getFilteredAppointments "2025-08-09" "today" (some "past")
          initialAppointments) ∨
      (seedRecord3 ∉ getFilteredAppointments "2025-08-09" "today" (some "today")
          initialAppointments ∧
        seedRecord3 ∈ getFilteredAppointments "2025-08-09" "today" (some "upcoming")
          initialAppointments ∧
        seedRecord3 ∉ getFilteredAppointments "2025-08-09" "today" (some "past")
          initialAppointments) ∨
      (seedRecord3 ∉ getFilteredAppointments "2025-08-09" "today" (some "today")
          initialAppointments ∧
        seedRecord3 ∉ getFilteredAppointments "2025-08-09" "today" (some "upcoming")
          initialAppointments ∧
        seedRecord3 ∈ getFilteredAppointments "2025-08-09" "today" (some "past")
          initialAppointments)) :=
  ⟨by decide,
   (filter_partition "2025-08-09" "today" initialAppointments).1 seedRecord3 (by decide)⟩

/-- C13. For every collection and fixed `today` key, `getFilteredAppointments` returns, in
collection order, the records whose date equals the key for `'today'`, those whose date is
greater than the key in string order for `'upcoming'`, those whose date is less for
`'past'`, and the whole collection for `'all'` and for every other filter value. -/
theorem getFilteredAppointments_spec (today appointmentFilter : String)
    (all : List Appointment) :
    getFilteredAppointments today appointmentFilter (some "today") all
      = all.filter (fun apt => decide (apt.date = today)) ∧
    getFilteredAppointments today appointmentFilter (some "upcoming") all
      = all.filter (fun apt => jsStringLt today apt.date) ∧
    getFilteredAppointments today appointmentFilter (some "past") all
      = all.filter (fun apt => jsStringLt apt.date today) ∧
    getFilteredAppointments today appointmentFilter (some "all") all = all ∧
    (∀ f : String, f ≠ "today" → f ≠ "upcoming" → f ≠ "past" →
      getFilteredAppointments today appointmentFilter (some f) all = all) ∧
    (∀ f : String, (getFilteredAppointments today appointmentFilter (some f) all).Sublist all) := by
  refine ⟨by simp [getFilteredAppointments], by simp [getFilteredAppointments],
    by simp [getFilteredAppointments], by simp [getFilteredAppointments], ?_, ?_⟩
  · intro f h1 h2 h3
    simp [getFilteredAppointments, h1, h2, h3]
  · intro f
    simp only [getFilteredAppointments]
    split_ifs
    · exact List.filter_sublist _
    · exact List.filter_sublist _
    · exact List.filter_sublist _
    · exact List.Sublist.refl _
    · exact List.Sublist.refl _

/-- C13 at the seeded collection and the unrecognized filter value `'tomorrow'`. -/
theorem getFilteredAppointments_spec_witness :
    "tomorrow" ≠ "today" ∧ "tomorrow" ≠ "upcoming" ∧ "tomorrow" ≠ "past" ∧
    getFilteredAppointments "2025-08-09" "today" (some "tomorrow") initialAppointments
      = initialAppointments :=
  ⟨by decide, by decide, by decide,
   (getFilteredAppointments_spec "2025-08-09" "today" initialAppointments).2.2.2.2.1
     "tomorrow" (by decide) (by decide) (by decide)⟩

/-- C14. For every collection, date, time and `excludeId`, `checkAppointmentConflict` is
true exactly when some record has that date string, that time string, an id other than
`excludeId` and a status other than `'cancelled'`; times are compared as strings, so a
record at `'9:00 AM'` does not conflict with a query for `'09:00 AM'`. -/
theorem checkAppointmentConflict_iff (date time : String) (excludeId : Option String)
    (all : List Appointment) :
    (checkAppointmentConflict date time excludeId all = true ↔
      ∃ a ∈ all, a.date = date ∧ a.time = time ∧ some a.id ≠ excludeId ∧
        a.status ≠ "cancelled") ∧
    (∀ a : Appointment, a.time = "9:00 AM" →
      checkAppointmentConflict date "09:00 AM" excludeId [a] = false) := by
  constructor
  · simp only [checkAppointmentConflict, List.any_eq_true, Bool.and_eq_true, decide_eq_true_eq]
    constructor
    · rintro ⟨a, ha, ⟨⟨⟨h1, h2⟩, h3⟩, h4⟩⟩
      exact ⟨a, ha, h1, h2, h3, h4⟩
    · rintro ⟨a, ha, h1, h2, h3, h4⟩
      exact ⟨a, ha, ⟨⟨⟨h1, h2⟩, h3⟩, h4⟩⟩
  · intro a ha
    simp [checkAppointmentConflict, ha]


/-- C14 at a collection whose only record is booked at `'9:00 AM'`. -/
theorem checkAppointmentConflict_iff_witness :
    unpaddedRecord.time = "9:00 AM" ∧
    checkAppointmentConflict "2025-08-08" "09:00 AM" none [unpaddedRecord] = false :=
  ⟨by decide,
   (checkAppointmentConflict_iff "2025-08-08" "09:00 AM" none [unpaddedRecord]).2
     unpaddedRecord (by decide)⟩

/-- C15, refuted as stated. With two confirmed appointments on 2025-08-08 at 09:00 AM in
the collection, `checkAppointmentConflict('2025-08-08', '09:00 AM', null)` is true, and
after one of the two is cancelled it is still true, not false. -/
theorem conflict_scenario_counterexample :
    checkAppointmentConflict "2025-08-08" "09:00 AM" none [conflictA, conflictB] = true ∧
    ¬ (checkAppointmentConflict "2025-08-08" "09:00 AM" none
        (updateAppointmentStatus "101" "cancelled" [conflictA, conflictB]) = false) := by
  decide

/-- C15, amended. For a collection holding two appointments with distinct ids, the same
date and time and a status other than `'cancelled'`, `checkAppointmentConflict` for that
date and time is true; it is still true after either one of the two is cancelled, and it
is false once both are cancelled. -/
theorem conflict_after_cancelling (a b : Appointment) (date time : String)
    (had : a.date = date) (hat : a.time = time) (has : a.status ≠ "cancelled")
    (hbd : b.date = date) (hbt : b.time = time) (hbs : b.status ≠ "cancelled")
    (hid : a.id ≠ b.id) :
    checkAppointmentConflict date time none [a, b] = true ∧
    checkAppointmentConflict date time none
      (updateAppointmentStatus a.id "cancelled" [a, b]) = true ∧
    checkAppointmentConflict date time none
      (updateAppointmentStatus b.id "cancelled" [a, b]) = true ∧
    checkAppointmentConflict date time none
      (updateAppointmentStatus b.id "cancelled"
        (updateAppointmentStatus a.id "cancelled" [a, b])) = false := by
  have hid' : b.id ≠ a.id := fun h => hid h.symm
  refine ⟨?_, ?_, ?_, ?_⟩
  · simp [checkAppointmentConflict, had, hat, has]
  · simp [checkAppointmentConflict, updateAppointmentStatus, hid', hbd, hbt, hbs]
  · simp [checkAppointmentConflict, updateAppointmentStatus, hid, had, hat, has]
  · simp [checkAppointmentConflict, updateAppointmentStatus, hid, hid']


/-- C15 amended, at two confirmed appointments on 2025-08-08 at 09:00 AM. -/
theorem conflict_after_cancelling_witness :
    (conflictA.date = "2025-08-08" ∧ conflictA.time = "09:00 AM" ∧
      conflictA.status ≠ "cancelled" ∧ conflictB.date = "2025-08-08" ∧
      conflictB.time = "09:00 AM" ∧ conflictB.status ≠ "cancelled" ∧
      conflictA.id ≠ conflictB.id) ∧
    (checkAppointmentConflict "2025-08-08" "09:00 AM" none [conflictA, conflictB] = true ∧
      checkAppointmentConflict "2025-08-08" "09:00 AM" none
        (updateAppointmentStatus conflictA.id "cancelled" [conflictA, conflictB]) = true ∧
      checkAppointmentConflict "2025-08-08" "09:00 AM" none
        (updateAppointmentStatus conflictB.id "cancelled" [conflictA, conflictB]) = true ∧
      checkAppointmentConflict "2025-08-08" "09:00 AM" none
        (updateAppointmentStatus conflictB.id "cancelled"
          (updateAppointmentStatus conflictA.id "cancelled" [conflictA, conflictB]))
        = false) :=
  ⟨by decide,
   conflict_after_cancelling conflictA conflictB "2025-08-08" "09:00 AM" (by decide)
     (by decide) (by decide) (by decide) (by decide) (by decide) (by decide)⟩

/-- C16. For every collection and date, `getAvailableTimeSlots` returns the sixteen-slot
enumeration without exactly the slots that are the time of some non-cancelled record of
that date, the remaining slots in the order of the enumeration; with non-cancelled
bookings at `'09:00 AM'` and `'02:00 PM'` it returns the other fourteen slots in that
order, and when the date has no booking other than cancelled ones it returns all
sixteen. -/
theorem getAvailableTimeSlots_spec (date : String) (all : List Appointment) :
    (getAvailableTimeSlots date all).Sublist allTimeSlots ∧
    (∀ slot, slot ∈ getAvailableTimeSlots date all ↔
      slot ∈ allTimeSlots ∧
        ¬ ∃ a ∈ all, a.date = date ∧ a.status ≠ "cancelled" ∧ a.time = slot) ∧
    allTimeSlots.length = 16 ∧
    ((∀ slot ∈ allTimeSlots,
        (∃ a ∈ all, a.date = date ∧ a.status ≠ "cancelled" ∧ a.time = slot) ↔
          (slot = "09:00 AM" ∨ slot = "02:00 PM")) →
      getAvailableTimeSlots date all =
        [ "09:30 AM", "10:00 AM", "10:30 AM", "11:00 AM", "11:30 AM", "12:00 PM", "12:30 PM",
          "02:30 PM", "03:00 PM", "03:30 PM", "04:00 PM", "04:30 PM", "05:00 PM", "05:30 PM" ]) ∧
    ((∀ a ∈ all, a.date = date → a.status = "cancelled") →
      getAvailableTimeSlots date all = allTimeSlots) := by
  have hmem : ∀ slot, slot ∈ (all.filter (fun apt =>
        decide (apt.date = date) && decide (apt.status ≠ "cancelled"))).map (fun apt => apt.time)
      ↔ ∃ a ∈ all, a.date = date ∧ a.status ≠ "cancelled" ∧ a.time = slot := by
    intro slot
    simp only [List.mem_map, List.mem_filter, Bool.and_eq_true, decide_eq_true_eq]
    constructor
    · rintro ⟨a, ⟨ha, h1, h2⟩, h3⟩
      exact ⟨a, ha, h1, h2, h3⟩
    · rintro ⟨a, ha, h1, h2, h3⟩
      exact ⟨a, ⟨ha, h1, h2⟩, h3⟩
  refine ⟨List.filter_sublist _, ?_, rfl, ?_, ?_⟩
  · intro slot
    simp only [getAvailableTimeSlots, List.mem_filter, Bool.not_eq_true', decide_eq_false_iff_not,
      hmem]
  · intro h
    have hfilter : getAvailableTimeSlots date all
        = allTimeSlots.filter (fun slot => !decide (slot = "09:00 AM" ∨ slot = "02:00 PM")) := by
      unfold getAvailableTimeSlots
      apply List.filter_congr
      intro slot hslot
      have := h slot hslot
      rw [← hmem] at this
      simp only [this]
    rw [hfilter]
    decide
  · intro h
    unfold getAvailableTimeSlots
    rw [List.filter_eq_self]
    intro slot _
    simp only [Bool.not_eq_true', decide_eq_false_iff_not, hmem]
    rintro ⟨a, ha, h1, h2, _⟩
    exact h2 (h a ha h1)

/-- C16 at a day with bookings at 09:00 AM and 02:00 PM and a cancelled one at 10:00 AM,
and at a day whose only booking is cancelled. -/
theorem getAvailableTimeSlots_spec_witness :
    (∀ slot ∈ allTimeSlots,
      (∃ a ∈ exampleBookings, a.date = "2025-08-12" ∧ a.status ≠ "cancelled" ∧ a.time = slot) ↔
        (slot = "09:00 AM" ∨ slot = "02:00 PM")) ∧
    getAvailableTimeSlots "2025-08-12" exampleBookings =
      [ "09:30 AM", "10:00 AM", "10:30 AM", "11:00 AM", "11:30 AM", "12:00 PM", "12:30 PM",
        "02:30 PM", "03:00 PM", "03:30 PM", "04:00 PM", "04:30 PM", "05:00 PM", "05:30 PM" ] ∧
    (∀ a ∈ exampleBookings, a.date = "2025-08-15" → a.status = "cancelled") ∧
    getAvailableTimeSlots "2025-08-15" exampleBookings = allTimeSlots :=
  ⟨by decide,
   (getAvailableTimeSlots_spec "2025-08-12" exampleBookings).2.2.2.1 (by decide),
   by decide,
   (getAvailableTimeSlots_spec "2025-08-15" exampleBookings).2.2.2.2 (by decide)⟩

/-- C17. For every collection and fixed `today` key, `getTodayStats` returns the number of
records dated today, the numbers of those with status `'completed'`, `'pending'` and
`'confirmed'`, and as `totalPatients` the number of distinct lower-cased patient names of
the whole collection, whatever their date; two records whose names have the same lower
case, such as `'Priya Sharma'` and `'PRIYA SHARMA'`, count as one patient. -/
theorem getTodayStats_spec (toLowerCase : String → String) (today : String)
    (all : List Appointment) :
    (getTodayStats toLowerCase today all).todayAppointments
      = (all.filter (fun a => decide (a.date = today))).length ∧
    (getTodayStats toLowerCase today all).completedToday
      = (all.filter (fun a => decide (a.date = today ∧ a.status = "completed"))).length ∧
    (getTodayStats toLowerCase today all).pendingToday
      = (all.filter (fun a => decide (a.date = today ∧ a.status = "pending"))).length ∧
    (getTodayStats toLowerCase today all).confirmedToday
      = (all.filter (fun a => decide (a.date = today ∧ a.status = "confirmed"))).length ∧
    (getTodayStats toLowerCase today all).totalPatients
      = (all.map (fun a => toLowerCase a.patientName)).toFinset.card ∧
    (∀ a b : Appointment, toLowerCase a.patientName = toLowerCase b.patientName →
      (getTodayStats toLowerCase today [a, b]).totalPatients = 1) := by
  refine ⟨rfl, ?_, ?_, ?_, ?_, ?_⟩
  · simp [getTodayStats, List.filter_filter, Bool.and_comm]
  · simp [getTodayStats, List.filter_filter, Bool.and_comm]
  · simp [getTodayStats, List.filter_filter, Bool.and_comm]
  · simp only [getTodayStats]
    exact jsSet_length _
  · intro a b h
    simp [getTodayStats, jsSet, h]


/-- C17 at two records named `'Priya Sharma'` and `'PRIYA SHARMA'`. -/
theorem getTodayStats_spec_witness :
    asciiToLowerCase "Priya Sharma" = asciiToLowerCase "PRIYA SHARMA" ∧
    (getTodayStats asciiToLowerCase "2025-08-12"
      [{ conflictA with patientName := "Priya Sharma" },
       { conflictB with patientName := "PRIYA SHARMA" }]).totalPatients = 1 :=
  ⟨by decide,
   (getTodayStats_spec asciiToLowerCase "2025-08-12"
      [{ conflictA with patientName := "Priya Sharma" },
       { conflictB with patientName := "PRIYA SHARMA" }]).2.2.2.2.2
     { conflictA with patientName := "Priya Sharma" }
     { conflictB with patientName := "PRIYA SHARMA" } (by decide)⟩

/-- C18. For every collection, `getAppointmentStats` returns the length of the collection
as `total` and, for each of the four status values, the number of records with exactly
that status; when every record has one of the four values the four counts add up to
`total`. -/
theorem getAppointmentStats_spec (all : List Appointment) :
    (getAppointmentStats all).total = all.length ∧
    (getAppointmentStats all).completed
      = (all.filter (fun a => decide (a.status = "completed"))).length ∧
    (getAppointmentStats all).pending
      = (all.filter (fun a => decide (a.status = "pending"))).length ∧
    (getAppointmentStats all).confirmed
      = (all.filter (fun a => decide (a.status = "confirmed"))).length ∧
    (getAppointmentStats all).cancelled
      = (all.filter (fun a => decide (a.status = "cancelled"))).length ∧
    ((∀ a ∈ all, a.status = "completed" ∨ a.status = "pending" ∨ a.status = "confirmed" ∨
        a.status = "cancelled") →
      (getAppointmentStats all).completed + (getAppointmentStats all).pending
        + (getAppointmentStats all).confirmed + (getAppointmentStats all).cancelled
        = (getAppointmentStats all).total) := by
  refine ⟨rfl, rfl, rfl, rfl, rfl, ?_⟩
  intro h
  exact status_counts all h

/-- C18 at the seeded collection, whose statuses are all among the four values. -/
theorem getAppointmentStats_spec_witness :
    (∀ a ∈ initialAppointments, a.status = "completed" ∨ a.status = "pending" ∨
      a.status = "confirmed" ∨ a.status = "cancelled") ∧
    (getAppointmentStats initialAppointments).completed
      + (getAppointmentStats initialAppointments).pending
      + (getAppointmentStats initialAppointments).confirmed
      + (getAppointmentStats initialAppointments).cancelled
      = (getAppointmentStats initialAppointments).total :=
  ⟨by decide, (getAppointmentStats_spec initialAppointments).2.2.2.2.2 (by decide)⟩

/-- C19. For every input string, `validateContactNumber` returns no error exactly when the
digits of the string are ten in number and the first of them is 6, 7, 8 or 9; it returns
the `required` message when the string has no digit, the `exactly 10 digits` message
when it has digits but not ten, and the `starting with 6-9` message when it has ten
digits of which the first is 0 to 5. So `'12345'` gets the digit-count message,
`'5123456789'` the leading-digit message and `'9876543210'` passes. -/
theorem validateContactNumber_spec (contact : String) :
    (validateContactNumber contact = none ↔
      (contact.data.filter isDigitChar).length = 10 ∧
      ∃ c rest, contact.data.filter isDigitChar = c :: rest ∧
        (c = '6' ∨ c = '7' ∨ c = '8' ∨ c = '9')) ∧
    ((contact.data.filter isDigitChar).length = 0 →
      validateContactNumber contact = some "Contact number is required") ∧
    ((contact.data.filter isDigitChar).length ≠ 0 →
      (contact.data.filter isDigitChar).length ≠ 10 →
      validateContactNumber contact = some "Contact number must be exactly 10 digits") ∧
    ((contact.data.filter isDigitChar).length = 10 →
      (∃ c rest, contact.data.filter isDigitChar = c :: rest ∧
        (c = '0' ∨ c = '1' ∨ c = '2' ∨ c = '3' ∨ c = '4' ∨ c = '5')) →
      validateContactNumber contact
        = some "Enter a valid Indian mobile number (starting with 6-9)") ∧
    validateContactNumber "12345" = some "Contact number must be exactly 10 digits" ∧
    validateContactNumber "5123456789"
      = some "Enter a valid Indian mobile number (starting with 6-9)" ∧
    validateContactNumber "9876543210" = none := by
  have hall : ∀ c ∈ contact.data.filter isDigitChar, isDigitChar c = true :=
    fun c hc => (List.mem_filter.1 hc).2
  have hlen : jsLength (String.mk (contact.data.filter isDigitChar))
      = (contact.data.filter isDigitChar).length := utf16_length_digits _ hall
  refine ⟨?_, ?_, ?_, ?_, by decide, by decide, by decide⟩
  · unfold validateContactNumber
    simp only [hlen]
    by_cases h0 : (contact.data.filter isDigitChar).length = 0
    · simp [h0]
    · by_cases h10 : (contact.data.filter isDigitChar).length = 10
      · have hm := matchesMobilePattern_iff _ hall h10
        simp only [h10, if_false, ne_eq, not_true_eq_false, true_and]
        rw [← hm]
        cases matchesMobilePattern (String.mk (contact.data.filter isDigitChar)) <;> simp
      · simp [h0, h10]
  · intro h0
    unfold validateContactNumber
    simp [hlen, h0]
  · intro h0 h10
    unfold validateContactNumber
    simp [hlen, h0, h10]
  · intro h10 hfirst
    have hm := matchesMobilePattern_iff _ hall h10
    have hnot : matchesMobilePattern (String.mk (contact.data.filter isDigitChar)) = false := by
      rw [Bool.eq_false_iff]
      intro ht
      obtain ⟨c, rest, hc, hc6⟩ := hm.1 ht
      obtain ⟨d, rest2, hd, hd5⟩ := hfirst
      rw [hc] at hd
      simp only [List.cons.injEq] at hd
      obtain ⟨rfl, _⟩ := hd
      rcases hc6 with rfl | rfl | rfl | rfl <;> simp at hd5
    unfold validateContactNumber
    simp [hlen, h10, hnot]


/-- C19 at the input `'98765 4321'`, which has nine digits. -/
theorem validateContactNumber_spec_witness :
    ("98765 4321".data.filter isDigitChar).length ≠ 0 ∧
    ("98765 4321".data.filter isDigitChar).length ≠ 10 ∧
    validateContactNumber "98765 4321" = some "Contact number must be exactly 10 digits" :=
  ⟨by decide, by decide,
   (validateContactNumber_spec "98765 4321").2.2.1 (by decide) (by decide)⟩

/-- C20. For every input string, `validatePatientName` returns no error exactly when the
trimmed input has at least 2 characters and `validateIssue` exactly when it has at least
5, characters being counted as `length` counts them (UTF-16 code units); an input that is
empty or all white space, and only such an input, gets the `required` message of the
field, and a shorter non-empty trimmed input gets the length message. -/
theorem validateName_validateIssue_spec (input : String) :
    (validatePatientName input = none ↔ 2 ≤ jsLength (jsTrim input)) ∧
    (validateIssue input = none ↔ 5 ≤ jsLength (jsTrim input)) ∧
    (validatePatientName input = some "Patient name is required" ↔ jsTrim input = "") ∧
    (validateIssue input = some "Medical issue/reason is required" ↔ jsTrim input = "") ∧
    ((∀ c ∈ input.data, isJsWhiteSpace c = true) →
      validatePatientName input = some "Patient name is required" ∧
      validateIssue input = some "Medical issue/reason is required") ∧
    (jsTrim input ≠ "" → jsLength (jsTrim input) < 2 →
      validatePatientName input = some "Patient name must be at least 2 characters") ∧
    (jsTrim input ≠ "" → jsLength (jsTrim input) < 5 →
      validateIssue input = some "Please provide more details about the medical issue") := by
  have hz := jsLength_eq_zero (jsTrim input)
  refine ⟨?_, ?_, ?_, ?_, ?_, ?_, ?_⟩
  · unfold validatePatientName
    by_cases h : jsTrim input = ""
    · have := hz.2 h
      simp [h]
      rw [h] at this
      omega
    · by_cases h2 : jsLength (jsTrim input) < 2
      · simp [h, h2]
      · simp [h, h2]
        omega
  · unfold validateIssue
    by_cases h : jsTrim input = ""
    · have := hz.2 h
      simp [h]
      rw [h] at this
      omega
    · by_cases h2 : jsLength (jsTrim input) < 5
      · simp [h, h2]
      · simp [h, h2]
        omega
  · unfold validatePatientName
    by_cases h : jsTrim input = ""
    · simp [h]
    · by_cases h2 : jsLength (jsTrim input) < 2
      · simp [h, h2]
      · simp [h, h2]
  · unfold validateIssue
    by_cases h : jsTrim input = ""
    · simp [h]
    · by_cases h2 : jsLength (jsTrim input) < 5
      · simp [h, h2]
      · simp [h, h2]
  · intro hw
    have := jsTrim_of_whitespace input hw
    simp [validatePatientName, validateIssue, this]
  · intro h h2
    simp [validatePatientName, h, h2]
  · intro h h2
    simp [validateIssue, h, h2]

/-- C20 at an input made of a space, a tab and a space. -/
theorem validateName_validateIssue_spec_witness :
    (∀ c ∈ " \t ".data, isJsWhiteSpace c = true) ∧
    validatePatientName " \t " = some "Patient name is required" ∧
    validateIssue " \t " = some "Medical issue/reason is required" :=
  ⟨by decide, (validateName_validateIssue_spec " \t ").2.2.2.2.1 (by decide)⟩

/-- C21. For every form state, the error mapping that `validateForm` builds has, for each
of the fields `patientName`, `contact` and `issue`, exactly the message of the field's
validator (no entry when the validator returns no error), has the `date` entry exactly
when the chosen date is before the local midnight of today, and has no other key;
`validateForm` returns true exactly when the mapping is empty; `handleSubmit` returns the
collection unchanged when `validateForm` returns false, hence whenever a field fails,
and otherwise the collection that `addAppointment` produces. -/
theorem validateForm_spec (formData : FormData) (env : SubmitEnv)
    (all : List Appointment) :
    objGet (validateForm formData env).1 "patientName"
      = validatePatientName formData.patientName ∧
    objGet (validateForm formData env).1 "contact"
      = validateContactNumber formData.contact ∧
    objGet (validateForm formData env).1 "issue" = validateIssue formData.issue ∧
    objGet (validateForm formData env).1 "date"
      = (if formData.date < localMidnight env.validateNow env.offsetMs
          then some "Please select a future date" else none) ∧
    (∀ k ∈ objKeys (validateForm formData env).1,
      k = "patientName" ∨ k = "contact" ∨ k = "issue" ∨ k = "date") ∧
    ((validateForm formData env).2 = true ↔ (validateForm formData env).1 = []) ∧
    ((validateForm formData env).2 = false → handleSubmit formData env all = all) ∧
    ((validateForm formData env).2 = true →
      handleSubmit formData env all
        = (addAppointment env.dateParse env.addNow env.rand36
            (submittedData formData env) all).2) ∧
    ((validatePatientName formData.patientName ≠ none ∨
        validateContactNumber formData.contact ≠ none ∨
        validateIssue formData.issue ≠ none ∨
        formData.date < localMidnight env.validateNow env.offsetMs) →
      handleSubmit formData env all = all) := by
  obtain ⟨h1, h2, h3, h4, h5⟩ := validateForm_errors formData env
  obtain ⟨h6, h7⟩ := validateForm_result formData env
  refine ⟨h1, h2, h3, h4, h5, h6, ?_, ?_, ?_⟩
  · intro h
    simp [handleSubmit, h]
  · intro h
    simp [handleSubmit, h]
  · intro h
    have hf : (validateForm formData env).2 = false := by
      rw [Bool.eq_false_iff]
      intro ht
      obtain ⟨a, b, c, d⟩ := h7.1 ht
      rcases h with h | h | h | h
      · exact h a
      · exact h b
      · exact h c
      · exact d h
    simp [handleSubmit, hf]

/-- C21 at a form with a one-letter name, a nine-digit contact and a date one day
back. -/
theorem validateForm_spec_witness :
    (validateForm failingForm straddlingEnv).2 = false ∧
    handleSubmit failingForm straddlingEnv initialAppointments = initialAppointments :=
  ⟨by decide,
   (validateForm_spec failingForm straddlingEnv initialAppointments).2.2.2.2.2.2.1
     (by decide)⟩

/-- C22, refuted as stated. None of the six seeded records has a contact that
`validateContactNumber` accepts: each carries a `+91` prefix, twelve digits in all. -/
theorem contact_form_counterexample :
    seedRecord3 ∈ initialAppointments ∧
    seedRecord3.contact = "+91 9876543212" ∧
    validateContactNumber seedRecord3.contact
      = some "Contact number must be exactly 10 digits" ∧
    initialAppointments.map (fun a => (validateContactNumber a.contact).isSome)
      = [true, true, true, true, true, true] := by
  decide

/-- C22, amended. Every record of the collection that `handleSubmit` returns is either a
record of the collection it started from or the submitted record, whose contact is the
form's contact and is accepted by `validateContactNumber`; and a contact typed through
`updateContact` that `validateContactNumber` accepts consists of exactly ten digits, the
first of them 6, 7, 8 or 9. -/
theorem contact_form_invariant (formData : FormData) (env : SubmitEnv)
    (all : List Appointment) :
    (∀ a ∈ handleSubmit formData env all,
      a ∈ all ∨ (a.contact = formData.contact ∧ validateContactNumber a.contact = none)) ∧
    (∀ value : String, validateContactNumber (updateContact value) = none →
      (updateContact value).data.length = 10 ∧
      (∀ c ∈ (updateContact value).data, isDigitChar c = true) ∧
      ∃ c rest, (updateContact value).data = c :: rest ∧
        (c = '6' ∨ c = '7' ∨ c = '8' ∨ c = '9')) := by
  refine ⟨?_, updateContact_accepted⟩
  intro a ha
  cases hv : (validateForm formData env).2 with
  | false =>
    simp only [handleSubmit, hv] at ha
    exact Or.inl (by simpa using ha)
  | true =>
    have hc := ((validateForm_result formData env).2.1 hv).2.1
    simp only [handleSubmit, hv] at ha
    rcases (mem_addAppointment _ _ _ _ _ _).1 (by simpa using ha) with h | h
    · exact Or.inl h
    · right
      subst h
      exact ⟨rfl, hc⟩

/-- C22 amended, at the typed text `98765-43210`. -/
theorem contact_form_invariant_witness :
    validateContactNumber (updateContact "98765-43210") = none ∧
    ((updateContact "98765-43210").data.length = 10 ∧
      (∀ c ∈ (updateContact "98765-43210").data, isDigitChar c = true) ∧
      ∃ c rest, (updateContact "98765-43210").data = c :: rest ∧
        (c = '6' ∨ c = '7' ∨ c = '8' ∨ c = '9')) :=
  ⟨by decide,
   (contact_form_invariant straddlingForm straddlingEnv initialAppointments).2 "98765-43210"
     (by decide)⟩

/-- C23. The hook `useApp` fails with the error `useApp must be used within an
AppProvider` exactly when no provider value is available, and otherwise returns the
provider's value unchanged. -/
theorem useApp_spec {α : Type} (context : Option α) :
    (useApp context = Except.error "useApp must be used within an AppProvider" ↔
      context = none) ∧
    (∀ value : α, context = some value → useApp context = Except.ok value) := by
  cases context with
  | none => simp [useApp]
  | some v => simp [useApp]

/-- C23 at a context that holds the seeded collection. -/
theorem useApp_spec_witness :
    some initialAppointments = some initialAppointments ∧
    useApp (some initialAppointments) = Except.ok initialAppointments :=
  ⟨rfl, (useApp_spec (some initialAppointments)).2 initialAppointments rfl⟩

/-- C24. For any two strings of the shape `YYYY-MM-DD`, the string comparison gives less,
equal or greater exactly as the numeric comparison of their (year, month, day) triples
does; and when both name days of the calendar, the sign of the difference of their
`Date` values, which the comparator of `addAppointment` reads, is the same: negative
exactly when the first string is less, zero exactly when they are equal, positive
exactly when the first is greater. -/
theorem dateKey_order (s t : String) (p q : Nat × Nat × Nat)
    (hs : readDateKey s = some p) (ht : readDateKey t = some q) :
    (jsStringLt s t = true ↔ dateLt p q) ∧
    (s = t ↔ p = q) ∧
    (jsStringLt t s = true ↔ dateLt q p) ∧
    (IsCalendarDate p → IsCalendarDate q →
      (jsStringLt s t = true ↔
        ∃ v, jsSub (dateValue s) (dateValue t) = some v ∧ v < 0) ∧
      (s = t ↔ jsSub (dateValue s) (dateValue t) = some 0) ∧
      (jsStringLt t s = true ↔
        ∃ v, jsSub (dateValue s) (dateValue t) = some v ∧ 0 < v)) := by
  have h1 := jsStringLt_dateKey s t p q hs ht
  have h2 := dateKey_eq_iff s t p q hs ht
  have h3 := jsStringLt_dateKey t s q p ht hs
  refine ⟨h1, h2, h3, ?_⟩
  intro hp hq
  have hps : parseDateKey s = some p := by simp [parseDateKey, hs, hp]
  have hpt : parseDateKey t = some q := by simp [parseDateKey, ht, hq]
  have hlt := dayNumber_lt_iff p q hp hq
  have hgt := dayNumber_lt_iff q p hq hp
  have heq := dayNumber_eq_iff p q hp hq
  simp only [dateValue, hps, hpt, Option.map_some', jsSub, Option.some.injEq]
  refine ⟨?_, ?_, ?_⟩
  · rw [h1, ← hlt]
    constructor
    · intro h
      exact ⟨_, rfl, by omega⟩
    · rintro ⟨v, hv, hneg⟩
      omega
  · rw [h2, ← heq]
    constructor
    · intro h
      omega
    · intro h
      omega
  · rw [h3, ← hgt]
    constructor
    · intro h
      exact ⟨_, rfl, by omega⟩
    · rintro ⟨v, hv, hpos⟩
      omega

/-- C24 at the keys `2025-08-09` and `2025-08-10`, which differ at a carry. -/
theorem dateKey_order_witness :
    readDateKey "2025-08-09" = some (2025, 8, 9) ∧
    readDateKey "2025-08-10" = some (2025, 8, 10) ∧
    ((jsStringLt "2025-08-09" "2025-08-10" = true ↔ dateLt (2025, 8, 9) (2025, 8, 10)) ∧
      ("2025-08-09" = "2025-08-10" ↔ ((2025, 8, 9) : Nat × Nat × Nat) = (2025, 8, 10)) ∧
      (jsStringLt "2025-08-10" "2025-08-09" = true ↔ dateLt (2025, 8, 10) (2025, 8, 9)) ∧
      (IsCalendarDate (2025, 8, 9) → IsCalendarDate (2025, 8, 10) →
        (jsStringLt "2025-08-09" "2025-08-10" = true ↔
          ∃ v, jsSub (dateValue "2025-08-09") (dateValue "2025-08-10") = some v ∧ v < 0) ∧
        ("2025-08-09" = "2025-08-10" ↔
          jsSub (dateValue "2025-08-09") (dateValue "2025-08-10") = some 0) ∧
        (jsStringLt "2025-08-10" "2025-08-09" = true ↔
          ∃ v, jsSub (dateValue "2025-08-09") (dateValue "2025-08-10") = some v ∧ 0 < v))) :=
  ⟨by decide, by decide,
   dateKey_order "2025-08-09" "2025-08-10" (2025, 8, 9) (2025, 8, 10) (by decide) (by decide)⟩

/-- C25, the code at the inputs where it leaves the claim. `getDateStatus` returns
`booked` from 3 appointments on, `partial` for 1 and 2 and `available` for 0 only; so 1
gives `partial` and 3 gives `booked`, and for both counts the colour of the status
differs from the colour `getDotColorForCount` gives to the count. -/
theorem getDateStatus_thresholds (count : Nat) :
    (getDateStatus count = "booked" ↔ count ≥ 3) ∧
    (getDateStatus count = "partial" ↔ 1 ≤ count ∧ count ≤ 2) ∧
    (getDateStatus count = "available" ↔ count = 0) ∧
    getDateStatus 1 = "partial" ∧ getDateStatus 3 = "booked" ∧
    statusColor (getDateStatus 1) ≠ some (getDotColorForCount 1) ∧
    statusColor (getDateStatus 3) ≠ some (getDotColorForCount 3) := by
  refine ⟨?_, ?_, ?_, by decide, by decide, by decide, by decide⟩
  · unfold getDateStatus
    split_ifs with h0 h2
    · simp [h0]
    · simp; omega
    · simp; omega
  · unfold getDateStatus
    split_ifs with h0 h2
    · simp [h0]
    · simp; omega
    · simp; omega
  · unfold getDateStatus
    split_ifs with h0 h2
    · simp [h0]
    · simp [h0]
    · simp [h0]

/-- C26, the code at an input where it leaves the claim. In a zone five and a half hours
ahead of UTC, a form opened at 05:28 local time and submitted at 05:33 is accepted by
`validateForm`, the chosen instant not being before the local midnight; the key stored
for it is `2025-08-08`, the key of today at the submission is `2025-08-09`, and the new
record is in the `past` result of `getFilteredAppointments`. -/
theorem date_rule_failing_input :
    (validateForm straddlingForm straddlingEnv).2 = true ∧
    localMidnight straddlingEnv.validateNow straddlingEnv.offsetMs ≤ straddlingForm.date ∧
    utcDateKey straddlingForm.date = "2025-08-08" ∧
    utcDateKey straddlingEnv.validateNow = "2025-08-09" ∧
    jsStringLt (utcDateKey straddlingForm.date) (utcDateKey straddlingEnv.validateNow) = true ∧
    (∃ a ∈ getFilteredAppointments (utcDateKey straddlingEnv.validateNow) "today" (some "past")
        (handleSubmit straddlingForm straddlingEnv initialAppointments),
      a.patientName = "Asha Rao" ∧ a.date = utcDateKey straddlingForm.date) := by
  decide

/-- C27. For every collection, every date and every slot of the sixteen-slot enumeration,
the slot is in `getAvailableTimeSlots` of the date exactly when
`checkAppointmentConflict` for the date and the slot, with `null` as `excludeId`, is
false. Ids are strings, so no record has a null id. -/
theorem slots_agree_with_conflicts (date slot : String) (all : List Appointment)
    (hslot : slot ∈ allTimeSlots) :
    slot ∈ getAvailableTimeSlots date all ↔
      checkAppointmentConflict date slot none all = false := by
  rw [mem_getAvailableTimeSlots, Bool.eq_false_iff, ne_eq, checkAppointmentConflict_eq_true]
  constructor
  · rintro ⟨_, h⟩ ⟨a, ha, hd, ht, _, hs⟩
    exact h ⟨a, ha, hd, hs, ht⟩
  · intro h
    refine ⟨hslot, ?_⟩
    rintro ⟨a, ha, hd, hs, ht⟩
    exact h ⟨a, ha, hd, ht, by simp, hs⟩

/-- C27 at the seeded collection, the date `2025-08-08` and the slot `09:00 AM`, which is
taken. -/
theorem slots_agree_with_conflicts_witness :
    "09:00 AM" ∈ allTimeSlots ∧
    ("09:00 AM" ∈ getAvailableTimeSlots "2025-08-08" initialAppointments ↔
      checkAppointmentConflict "2025-08-08" "09:00 AM" none initialAppointments = false) :=
  ⟨by decide,
   slots_agree_with_conflicts "2025-08-08" "09:00 AM" initialAppointments (by decide)⟩

/-- C28. For every collection none of whose dates names a member of `Object.prototype`
(every collection of `YYYY-MM-DD` keys is one) and every date, the index that the call of
`updateCalendarData` returns has an entry for the date exactly when
`getAppointmentsForDate` of the date is not empty, and the `appointmentCount` of the entry
is the length of that list; every entry has a count of at least 1, and the counts of all
entries add up to the length of the collection. -/
theorem calendar_index_counts (l : List Appointment)
    (hdates : ∀ a ∈ l, a.date ∉ objectPrototypeKeys) :
    ∃ calendar, updateCalendarDataRun l = Except.ok calendar ∧
      (∀ d, (objGet calendar d).isSome = true ↔ getAppointmentsForDate d l ≠ []) ∧
      (∀ d e, objGet calendar d = some e →
        e.appointmentCount = (getAppointmentsForDate d l).length) ∧
      (∀ p ∈ calendar, 1 ≤ p.2.appointmentCount) ∧
      (calendar.map (fun p => p.2.appointmentCount)).sum = l.length := by
  have hne : ∀ d, getAppointmentsForDate d l ≠ [] ↔ d ∈ l.map (fun a => a.date) := by
    intro d
    unfold getAppointmentsForDate
    rw [ne_eq, List.filter_eq_nil_iff]
    simp only [decide_eq_true_eq, not_forall, Classical.not_not, List.mem_map]
    constructor
    · rintro ⟨a, ha, hd⟩
      exact ⟨a, ha, hd⟩
    · rintro ⟨a, ha, hd⟩
      exact ⟨a, ha, hd⟩
  refine ⟨updateCalendarData l, ?_, ?_, ?_, ?_, ?_⟩
  · rw [updateCalendarDataRun_eq, if_pos hdates]
  · intro d
    rw [hne, objGet_updateCalendarData]
    split_ifs with h <;> simp [h]
  · intro d e he
    rw [objGet_updateCalendarData] at he
    split_ifs at he with h
    · simp only [Option.some.injEq] at he
      rw [← he]
      rfl
  · intro p hp
    rw [updateCalendarData_eq] at hp
    obtain ⟨d, hd, rfl⟩ := List.mem_map.1 hp
    rw [mem_jsSet] at hd
    exact List.count_pos_iff.2 hd
  · rw [updateCalendarData_eq, List.map_map]
    have := sum_count_jsSet (l.map (fun a => a.date))
    simpa [Function.comp_def] using this

/-- C28 at the seeded collection, whose dates are `YYYY-MM-DD` keys. -/
theorem calendar_index_counts_witness :
    (∀ a ∈ initialAppointments, a.date ∉ objectPrototypeKeys) ∧
    ∃ calendar, updateCalendarDataRun initialAppointments = Except.ok calendar ∧
      (∀ d, (objGet calendar d).isSome = true ↔
        getAppointmentsForDate d initialAppointments ≠ []) ∧
      (∀ d e, objGet calendar d = some e →
        e.appointmentCount = (getAppointmentsForDate d initialAppointments).length) ∧
      (∀ p ∈ calendar, 1 ≤ p.2.appointmentCount) ∧
      (calendar.map (fun p => p.2.appointmentCount)).sum = initialAppointments.length :=
  ⟨by decide, calendar_index_counts initialAppointments (by decide)⟩

/-- C29. For every collection, id, status and note, the index that `updateCalendarData`
computes after `updateAppointmentStatus` or after `addAppointmentNote` is the index it
computes before; this includes the status `cancelled`, so a cancelled appointment still
counts toward the density of its date. -/
theorem calendar_index_frame (appointmentId status note : String) (l : List Appointment) :
    updateCalendarData (updateAppointmentStatus appointmentId status l)
      = updateCalendarData l ∧
    updateCalendarData (addAppointmentNote appointmentId note l) = updateCalendarData l ∧
    updateCalendarData (updateAppointmentStatus appointmentId "cancelled" l)
      = updateCalendarData l := by
  have hs : ∀ st : String, (updateAppointmentStatus appointmentId st l).map (fun a => a.date)
      = l.map (fun a => a.date) := by
    intro st
    unfold updateAppointmentStatus
    rw [List.map_map]
    apply List.map_congr_left
    intro a _
    simp only [Function.comp]
    split_ifs <;> rfl
  have hn : (addAppointmentNote appointmentId note l).map (fun a => a.date)
      = l.map (fun a => a.date) := by
    unfold addAppointmentNote
    rw [List.map_map]
    apply List.map_congr_left
    intro a _
    simp only [Function.comp]
    split_ifs <;> rfl
  refine ⟨?_, ?_, ?_⟩
  · rw [updateCalendarData_eq, updateCalendarData_eq l, hs]
  · rw [updateCalendarData_eq, updateCalendarData_eq l, hn]
  · rw [updateCalendarData_eq, updateCalendarData_eq l, hs]

/-- C30. For every collection none of whose dates names a member of `Object.prototype`
(every collection of `YYYY-MM-DD` keys is one), every selected date and every date that
has at least one appointment, `getMarkedDates` of the calendar screen and the index that
the call of `updateCalendarData` returns both have an entry for the date, both mark it,
and the dot colours are equal; and the three legend counts of the screen add up to the
number of entries of the store's index. -/
theorem calendar_screen_agrees (selectedDate : String) (l : List Appointment)
    (hdates : ∀ a ∈ l, a.date ∉ objectPrototypeKeys) :
    ∃ calendar, updateCalendarDataRun l = Except.ok calendar ∧
      (∀ d, d ∈ l.map (fun a => a.date) →
        ∃ e c, objGet (getMarkedDates selectedDate l) d = some e ∧
          objGet calendar d = some c ∧
          e.dotColor = some c.dotColor ∧ e.marked = some true ∧ c.marked = true) ∧
      (legendCounts l).available + (legendCounts l).partly + (legendCounts l).booked
        = calendar.length := by
  refine ⟨updateCalendarData l, ?_, ?_, legendCounts_sum l hdates⟩
  · rw [updateCalendarDataRun_eq, if_pos hdates]
  · intro d hd
    refine ⟨{ marked := some true
              dotColor := some (getDotColorForCount ((l.map (fun a => a.date)).count d))
              selectedColor := if d = selectedDate then some colorsPrimary else none
              selected := decide (d = selectedDate) },
            { marked := true
              dotColor := getDotColorForCount ((l.map (fun a => a.date)).count d)
              appointmentCount := (l.map (fun a => a.date)).count d },
            objGet_getMarkedDates selectedDate l d hdates hd, ?_, rfl, rfl, rfl⟩
    rw [objGet_updateCalendarData, if_pos hd, length_filter_date]

/-- C30 at the seeded collection, whose dates are `YYYY-MM-DD` keys, and the selected
date `2025-08-20`. -/
theorem calendar_screen_agrees_witness :
    (∀ a ∈ initialAppointments, a.date ∉ objectPrototypeKeys) ∧
    ∃ calendar, updateCalendarDataRun initialAppointments = Except.ok calendar ∧
      (∀ d, d ∈ initialAppointments.map (fun a => a.date) →
        ∃ e c, objGet (getMarkedDates "2025-08-20" initialAppointments) d = some e ∧
          objGet calendar d = some c ∧
          e.dotColor = some c.dotColor ∧ e.marked = some true ∧ c.marked = true) ∧
      (legendCounts initialAppointments).available + (legendCounts initialAppointments).partly
          + (legendCounts initialAppointments).booked
        = calendar.length :=
  ⟨by decide, calendar_screen_agrees "2025-08-20" initialAppointments (by decide)⟩

end DocGrow
